import Mathlib

/-!
# Wizard2: bytecode compiler and virtual machine

A shallow embedding of the Go sources of the repository (packages `code`,
`object`, `compiler`, `vm`) together with theorems about them.

Conventions of the embedding:

* a Go `byte` is a `Nat` (kept below 256 by explicit `% 256`), a Go `int`
  or `int64` is an `Int` (64-bit results are wrapped explicitly);
* a Go function that can return an `error` or stop with a run-time panic
  returns `Except Err _`, where `Err.error` is a returned `error` value and
  `Err.panic` is a Go run-time panic (index out of range, nil dereference,
  integer division by zero);
* mutable receivers (`*Compiler`, `*VM`) become explicit state passing.
-/

/-- The two ways a Go call can fail: a returned `error`, or a run-time panic. -/
inductive Err where
  | error (msg : String)
  | panic (msg : String)
deriving DecidableEq, Repr

deriving instance DecidableEq for Except

namespace code

/-- Go: `type Opcode byte`. -/
abbrev Opcode := Nat

/-- Go: `type Instructions []byte`. -/
abbrev Instructions := List Nat

abbrev OpConstant : Opcode := 0
abbrev OpAdd : Opcode := 1
abbrev OpPop : Opcode := 2
abbrev OpSub : Opcode := 3
abbrev OpMul : Opcode := 4
abbrev OpDiv : Opcode := 5
abbrev OpTrue : Opcode := 6
abbrev OpFalse : Opcode := 7
abbrev OpEqual : Opcode := 8
abbrev OpNotEqual : Opcode := 9
abbrev OpGreaterThan : Opcode := 10
abbrev OpMinus : Opcode := 11
abbrev OpBang : Opcode := 12
abbrev OpJumpNotTruthy : Opcode := 13
abbrev OpJump : Opcode := 14
abbrev OpNull : Opcode := 15
abbrev OpGetGlobal : Opcode := 16
abbrev OpSetGlobal : Opcode := 17
abbrev OpGetLocal : Opcode := 18
abbrev OpSetLocal : Opcode := 19
abbrev OpArray : Opcode := 20
abbrev OpHash : Opcode := 21
abbrev OpIndex : Opcode := 22
abbrev OpCall : Opcode := 23
abbrev OpReturnValue : Opcode := 24
abbrev OpReturn : Opcode := 25
abbrev OpGetBuiltin : Opcode := 26

structure Definition where
  Name : String
  OperandWidths : List Nat
deriving DecidableEq, Repr

/-- The map literal `definitions`, entry by entry in source order. -/
def definitionsTable : List (Opcode × Definition) :=
  [ (OpConstant, ⟨"OpConstant", [2]⟩),
    (OpAdd, ⟨"opAdd", []⟩),
    (OpPop, ⟨"OpPop", []⟩),
    (OpSub, ⟨"OpSub", []⟩),
    (OpMul, ⟨"OpMul", []⟩),
    (OpDiv, ⟨"OpDiv", []⟩),
    (OpTrue, ⟨"OpTrue", []⟩),
    (OpFalse, ⟨"OpFalse", []⟩),
    (OpEqual, ⟨"OpEqual", []⟩),
    (OpNotEqual, ⟨"OpNotEqual", []⟩),
    (OpGreaterThan, ⟨"OpGreaterThan", []⟩),
    (OpMinus, ⟨"OpMinus", []⟩),
    (OpBang, ⟨"OpBang", []⟩),
    (OpJumpNotTruthy, ⟨"OpJumpNotTruthy", [2]⟩),
    (OpJump, ⟨"Opjump", [2]⟩),
    (OpNull, ⟨"OpNull", []⟩),
    (OpGetGlobal, ⟨"OpGetGlobal", [2]⟩),
    (OpSetGlobal, ⟨"OpSetGlobal", [2]⟩),
    (OpArray, ⟨"OpArray", [2]⟩),
    (OpHash, ⟨"OpHash", [2]⟩),
    (OpIndex, ⟨"OpIndex", []⟩),
    (OpCall, ⟨"OpCall", [1]⟩),
    (OpReturnValue, ⟨"OpReturnValue", []⟩),
    (OpReturn, ⟨"OpReturn", []⟩),
    (OpSetLocal, ⟨"OpSetLocal", [1]⟩),
    (OpGetLocal, ⟨"OpGetLocal", [1]⟩),
    (OpGetBuiltin, ⟨"OpGetBuiltin", [1]⟩) ]

/-- Go: `definitions[op]` with the comma-ok form (`none` when the key is absent). -/
def definitions (op : Opcode) : Option Definition :=
  definitionsTable.lookup op

/-- Go: `Lookup(op byte) (*Definition, error)`. -/
def Lookup (op : Nat) : Except Err Definition :=
  match definitions op with
  | none => .error (.error ("opcode " ++ toString op ++ " undefined"))
  | some d => .ok d

/-- Go conversion `uint16(o)` of an `int`. -/
def uint16 (o : Int) : Nat := (o % 65536).toNat

/-- Go conversion `byte(o)` of an `int`. -/
def byte (o : Int) : Nat := (o % 256).toNat

/-- Go: `binary.BigEndian.PutUint16(b[offset:], v)`; panics when fewer than
two bytes remain at `offset`. -/
def PutUint16 (b : List Nat) (offset : Nat) (v : Nat) : Except Err (List Nat) :=
  if offset + 1 < b.length then
    .ok ((b.set offset (v / 256 % 256)).set (offset + 1) (v % 256))
  else .error (.panic "index out of range")

/-- Go: `b[offset] = v` on a byte slice. -/
def setByte (b : List Nat) (offset : Nat) (v : Nat) : Except Err (List Nat) :=
  if offset < b.length then .ok (b.set offset v)
  else .error (.panic "index out of range")

/-- The loop `for i, o := range operands` of `Make`; the first argument is
`def.OperandWidths[i:]`. -/
def makeLoop : List Nat → List Int → List Nat → Nat → Except Err (List Nat)
  | _, [], instruction, _ => .ok instruction
  | [], _ :: _, _, _ => .error (.panic "index out of range")
  | width :: ws, o :: os, instruction, offset =>
    if width = 2 then
      match PutUint16 instruction offset (uint16 o) with
      | .error e => .error e
      | .ok ins => makeLoop ws os ins (offset + width)
    else if width = 1 then
      match setByte instruction offset (byte o) with
      | .error e => .error e
      | .ok ins => makeLoop ws os ins (offset + width)
    else makeLoop ws os instruction (offset + width)

/-- Go: `Make(op Opcode, operands ...int) []byte`. -/
def Make (op : Opcode) (operands : List Int) : Except Err (List Nat) :=
  match definitions op with
  | none => .ok []
  | some d =>
    let instructionLen := 1 + d.OperandWidths.sum
    let instruction := (List.replicate instructionLen 0).set 0 (op % 256)
    makeLoop d.OperandWidths operands instruction 1

/-- Go: `ReadUint16(ins Instructions) uint16` (big endian). -/
def ReadUint16 (ins : Instructions) : Except Err Nat :=
  match ins with
  | hi :: lo :: _ => .ok ((hi % 256) * 256 + lo % 256)
  | _ => .error (.panic "index out of range")

/-- Go: `ReadUint8(ins Instructions) uint8`. -/
def ReadUint8 (ins : Instructions) : Except Err Nat :=
  match ins with
  | b :: _ => .ok (b % 256)
  | [] => .error (.panic "index out of range")

/-- Go slice expression `ins[offset:]`. -/
def sliceFrom (ins : Instructions) (offset : Nat) : Except Err Instructions :=
  if offset ≤ ins.length then .ok (ins.drop offset)
  else .error (.panic "slice bounds out of range")

/-- The loop of `ReadOperands` over `def.OperandWidths`; returns the operands
read and the final offset. -/
def readLoop : List Nat → Instructions → Nat → Except Err (List Int × Nat)
  | [], _, offset => .ok ([], offset)
  | width :: ws, ins, offset =>
    let first : Except Err Int :=
      if width = 2 then
        match sliceFrom ins offset with
        | .error e => .error e
        | .ok s => match ReadUint16 s with
          | .error e => .error e
          | .ok v => .ok (v : Int)
      else if width = 1 then
        match sliceFrom ins offset with
        | .error e => .error e
        | .ok s => match ReadUint8 s with
          | .error e => .error e
          | .ok v => .ok (v : Int)
      else .ok 0
    match first with
    | .error e => .error e
    | .ok v =>
      match readLoop ws ins (offset + width) with
      | .error e => .error e
      | .ok (rest, off) => .ok (v :: rest, off)

/-- Go: `ReadOperands(def *Definition, ins Instructions) ([]int, int)`. -/
def ReadOperands (d : Definition) (ins : Instructions) : Except Err (List Int × Nat) :=
  readLoop d.OperandWidths ins 0

end code


/-- Go's `string` type.  Strings of the embedding are valid UTF-8 texts; the
bytes of a string are its UTF-8 encoding. -/
abbrev GoString := String

/-- The state-and-failure shape of a Go method on a pointer receiver: the
call returns a value or fails, and in both cases leaves the receiver in a
(possibly modified) state. -/
def GoM (σ α : Type) : Type := σ → Except Err α × σ

namespace GoM

def pure {σ α : Type} (a : α) : GoM σ α := fun s => (.ok a, s)

def bind {σ α β : Type} (m : GoM σ α) (f : α → GoM σ β) : GoM σ β := fun s =>
  match m s with
  | (.ok a, s2) => f a s2
  | (.error e, s2) => (.error e, s2)

instance {σ : Type} : Monad (GoM σ) where
  pure := GoM.pure
  bind := GoM.bind

/-- A failing call (returned error or panic); the state is kept. -/
def fail {σ α : Type} (e : Err) : GoM σ α := fun s => (.error e, s)

def get {σ : Type} : GoM σ σ := fun s => (.ok s, s)

def set {σ : Type} (s : σ) : GoM σ Unit := fun _ => (.ok (), s)

def modify {σ : Type} (f : σ → σ) : GoM σ Unit := fun s => (.ok (), f s)

/-- Lift a state-free fallible computation. -/
def lift {σ α : Type} (r : Except Err α) : GoM σ α := fun s => (r, s)

end GoM

/-- Go indexing `xs[i]` with an `int` index: a run-time panic outside `0 ≤ i < len(xs)`. -/
def indexInt {α : Type} (xs : List α) (i : Int) : Except Err α :=
  if i < 0 then .error (.panic "index out of range")
  else match xs[i.toNat]? with
    | some x => .ok x
    | none => .error (.panic "index out of range")

/-- Go assignment `xs[i] = v` with an `int` index. -/
def setIndexInt {α : Type} (xs : List α) (i : Int) (v : α) : Except Err (List α) :=
  if i < 0 then .error (.panic "index out of range")
  else if i.toNat < xs.length then .ok (xs.set i.toNat v)
  else .error (.panic "index out of range")

/-- A Go slice of fixed length (the VM's `stack` and `globals`): its length
and the element at each index below it. -/
structure Slice (α : Type) where
  len : Nat
  get : Nat → α

/-- Go: `make([]T, n)`, every element the zero value. -/
def Slice.make {α : Type} (n : Nat) (zero : α) : Slice α :=
  { len := n, get := fun _ => zero }

/-- Go indexing `s[i]` with an `int` index. -/
def Slice.index {α : Type} (s : Slice α) (i : Int) : Except Err α :=
  if i < 0 ∨ i ≥ s.len then .error (.panic "index out of range")
  else .ok (s.get i.toNat)

/-- Go assignment `s[i] = v` with an `int` index. -/
def Slice.setIndex {α : Type} (s : Slice α) (i : Int) (v : α) : Except Err (Slice α) :=
  if i < 0 ∨ i ≥ s.len then .error (.panic "index out of range")
  else .ok { s with get := fun j => if j = i.toNat then v else s.get j }

namespace object

/-- Go: `type ObjectType string`. -/
abbrev ObjectType := GoString

def NULL_OBJ : ObjectType := "NULL"
def ERROR_OBJ : ObjectType := "ERROR"
def INTEGER_OBJ : ObjectType := "INTEGER"
def STRING_OBJ : ObjectType := "STRING"
def BOOLEAN_OBJ : ObjectType := "BOOLEAN"
def BUILTIN_OBJ : ObjectType := "BUILTIN"
def ARRAY_OBJ : ObjectType := "ARRAY"
def HASH_OBJ : ObjectType := "HASH"
def COMPILED_FUNCTION_OBJ : ObjectType := "COMPILED_FUNCTION_OBJ"

/-- Go: `type HashKey struct { Type ObjectType; Value uint64 }`. -/
structure HashKey where
  Type_ : ObjectType
  Value : Nat
deriving DecidableEq, Repr

/-- Identity of a heap-allocated object (the Go pointer).  An object created
by the compiler is allocated immediately before it is appended to the constant
pool, so its pool index identifies it; an object created while the VM runs is
identified by its allocation serial number. -/
inductive Addr where
  | constant (index : Nat)
  | runtime (serial : Nat)
deriving DecidableEq, Repr

/-- Go: `type CompiledFunction struct`. -/
structure CompiledFunction where
  Instructions : code.Instructions
  NumLocals : Int
  NumParameters : Int
deriving DecidableEq, Repr

/-- The values of the interface `object.Object` that the compiler and the VM
handle.  `nil` is the nil interface value (the content of a stack or globals
slot never written).  `Boolean` and `Null` stand for the VM's singletons
`True`, `False` and `Null`; `Builtin i` is the pointer `Builtins[i].Builtin`;
every other value carries the identity of its allocation.  (The tree-walking
evaluator's `ReturnValue`, `BreakValue`, `ContinueValue` and `Function` never
reach the compiler or the VM and are left out.)  A Go map
`map[HashKey]HashPair` is a partial function on keys. -/
inductive Object where
  | nil
  | Integer (ref : Addr) (Value : Int)
  | Boolean (Value : Bool)
  | Null
  | String (ref : Addr) (Value : GoString)
  | Array (ref : Addr) (Elements : List Object)
  | Hash (ref : Addr) (Pairs : HashKey → Option (Object × Object))
  | CompiledFunction (ref : Addr) (fn : object.CompiledFunction)
  | Builtin (index : Nat)
  | Error (ref : Addr) (Message : GoString)

instance : Inhabited Object := ⟨.nil⟩

/-- Pointer identity behind an interface value. -/
inductive Identity where
  | nil
  | heap (ref : Addr)
  | boolean (Value : Bool)
  | null
  | builtin (index : Nat)
deriving DecidableEq, Repr

/-- What Go's `==` on two `object.Object` interface values compares. -/
def Object.identity : Object → Identity
  | .nil => .nil
  | .Integer r _ => .heap r
  | .Boolean b => .boolean b
  | .Null => .null
  | .String r _ => .heap r
  | .Array r _ => .heap r
  | .Hash r _ => .heap r
  | .CompiledFunction r _ => .heap r
  | .Builtin i => .builtin i
  | .Error r _ => .heap r

/-- Go: the method `Type() ObjectType`; calling it on the nil interface panics. -/
def Object.Type_ : Object → Except Err ObjectType
  | .nil => .error (.panic "nil pointer dereference")
  | .Integer _ _ => .ok INTEGER_OBJ
  | .Boolean _ => .ok BOOLEAN_OBJ
  | .Null => .ok NULL_OBJ
  | .String _ _ => .ok STRING_OBJ
  | .Array _ _ => .ok ARRAY_OBJ
  | .Hash _ _ => .ok HASH_OBJ
  | .CompiledFunction _ _ => .ok COMPILED_FUNCTION_OBJ
  | .Builtin _ => .ok BUILTIN_OBJ
  | .Error _ _ => .ok ERROR_OBJ

/-- UTF-8 encoding of one character. -/
def utf8Bytes (c : Char) : List Nat :=
  let n := c.toNat
  if n < 128 then [n]
  else if n < 2048 then [192 + n / 64, 128 + n % 64]
  else if n < 65536 then [224 + n / 4096, 128 + n / 64 % 64, 128 + n % 64]
  else [240 + n / 262144, 128 + n / 4096 % 64, 128 + n / 64 % 64, 128 + n % 64]

/-- Go: `[]byte(s)`. -/
def bytesOf (s : GoString) : List Nat := s.toList.flatMap utf8Bytes

def fnvOffset64 : Nat := 14695981039346656037
def fnvPrime64 : Nat := 1099511628211

/-- Go standard library: `h := fnv.New64a(); h.Write(b); h.Sum64()`. -/
def fnv1a64 (b : List Nat) : Nat :=
  b.foldl (fun h x => ((h ^^^ x) * fnvPrime64) % 2 ^ 64) fnvOffset64

/-- Go conversion `uint64(v)` of an `int64`. -/
def uint64 (v : Int) : Nat := (v % 2 ^ 64).toNat

/-- Go: the methods `HashKey()` of the interface `Hashable`, implemented by
`*Integer`, `*Boolean`, `*String` and `*Hash`; `none` when the type assertion
`.(Hashable)` fails. -/
def Object.HashKey : Object → Option HashKey
  | .Integer _ v => some ⟨INTEGER_OBJ, uint64 v⟩
  | .Boolean b => some ⟨BOOLEAN_OBJ, if b then 1 else 0⟩
  | .String _ s => some ⟨STRING_OBJ, fnv1a64 (bytesOf s)⟩
  | .Hash _ _ => some ⟨"", 0⟩
  | _ => none

/-- Go map assignment `m[k] = v`. -/
def mapSet {κ ν : Type} [DecidableEq κ] (m : κ → Option ν) (k : κ) (v : ν) : κ → Option ν :=
  fun k2 => if k2 = k then some v else m k2

/-- Go: `newError(format, a...)`; the new `*Error` gets identity `ref`. -/
def newError (ref : Addr) (msg : GoString) : Object := .Error ref msg

mutual

/-- Go: whether the method `Inspect() string` returns.  The text it returns
is outside the embedding.  On a nil interface the call panics; `Inspect()` of
an `*Array` calls `Inspect()` on every element.  `Inspect()` of a `*Hash`
ranges over the pairs of the map, which this embedding holds as a partial
function on keys and cannot enumerate: the pairs are not visited here, so a
Hash counts as printable even when one of its values is the nil interface. -/
def Object.inspects : Object → Bool
  | .nil => false
  | .Array _ elements => inspectsAll elements
  | _ => true

/-- The calls `e.Inspect()` for the elements of a slice. -/
def inspectsAll : List Object → Bool
  | [] => true
  | o :: rest => o.inspects && inspectsAll rest

end

/-- Go: `Builtins[0].Builtin.Fn` (`puts`), which calls `arg.Inspect()` for
every argument and returns the nil interface.  The text written to standard
output is outside the embedding. -/
def putsFn (args : List Object) : Except Err Object :=
  if inspectsAll args then .ok .nil
  else .error (.panic "nil pointer dereference")

/-- Go: `Builtins[1].Builtin.Fn` (`push`).  `ref` is the identity of the
object the call allocates. -/
def pushFn (ref : Addr) (args : List Object) : Except Err Object :=
  if args.length ≠ 2 ∧ args.length ≠ 3 then
    .ok (newError ref
      ("wrong number of arguments. got=" ++ toString args.length ++ ", want=2 or 3"))
  else
    match args with
    | [] => .error (.panic "index out of range")
    | .nil :: _ => .error (.panic "nil pointer dereference")
    | .Array _ elements :: rest =>
      if args.length ≠ 2 then
        .ok (newError ref
          ("wrong number of arguments for array push. got=" ++ toString args.length ++ ", want=2"))
      else
        match rest with
        | v :: _ => .ok (.Array ref (elements ++ [v]))
        | [] => .error (.panic "index out of range")
    | .Hash _ pairs :: rest =>
      if args.length ≠ 3 then
        .ok (newError ref
          ("wrong number of arguments for hash push. got=" ++ toString args.length ++ ", want=3"))
      else
        match rest with
        | key :: value :: _ =>
          match key.Type_ with
          | .error e => .error e
          | .ok t =>
            let hashedKey : HashKey := ⟨t, 0⟩
            .ok (.Hash ref (mapSet pairs hashedKey (key, value)))
        | _ => .error (.panic "index out of range")
    | o :: _ =>
      match o.Type_ with
      | .error e => .error e
      | .ok t => .ok (newError ref ("argument to `push` must be ARRAY or HASH, got " ++ t))

/-- Go: the table `Builtins` (name and function, in order). -/
def Builtins : List (GoString × (Addr → List Object → Except Err Object)) :=
  [ ("puts", fun _ args => putsFn args),
    ("push", pushFn) ]

end object

namespace ast

mutual

/-- Modelled from the spec: the package `ast` is not among the sources; the
expression nodes are those the spec lists as consumed by the compiler, with
the fields the compiler and the parser read and write.  A Go slice is a list,
`Alternative` is a nullable pointer, and the map `Pairs` of a hash literal
(keyed by node identity) is the list of its entries in the order in which
`range` enumerates them. -/
inductive Expression where
  | Identifier (Value : GoString)
  | IntegerLiteral (Value : Int)
  | StringLiteral (Value : GoString)
  | Boolean (Value : Bool)
  | PrefixExpression (Operator : GoString) (Right : Expression)
  | InfixExpression (Left : Expression) (Operator : GoString) (Right : Expression)
  | IfExpression (Condition : Expression) (Consequence : BlockStatement)
      (Alternative : Option BlockStatement)
  | WhileExpression (Condition : Expression) (Body : BlockStatement)
  | ForExpression (Initialize : Option Statement) (Condition : Expression)
      (Cycleop : Option Statement) (Body : BlockStatement)
  | FunctionLiteral (Parameters : List GoString) (Body : BlockStatement)
  | CallExpression (Function : Expression) (Arguments : List Expression)
  | ArrayLiteral (Elements : List Expression)
  | HashLiteral (Pairs : List (Expression × Expression))
  | IndexExpression (Left : Expression) (Index : Expression)

/-- Modelled from the spec: the statement nodes of the missing package `ast`. -/
inductive Statement where
  | LetStatement (Name : GoString) (Value : Expression)
  | ReturnStatement (ReturnValue : Expression)
  | ExpressionStatement (Expression : Expression)
  | BreakStatement
  | ContinueStatement

/-- Modelled from the spec: the node `BlockStatement` of the missing package `ast`. -/
inductive BlockStatement where
  | mk (Statements : List Statement)

end

/-- Modelled from the spec: the root node `Program` of the missing package `ast`. -/
structure Program where
  Statements : List Statement

/-- Modelled from the spec: the interface `ast.Node`, the argument type of
`Compiler.Compile`. -/
inductive Node where
  | Program (p : ast.Program)
  | Statement (s : ast.Statement)
  | BlockStatement (b : ast.BlockStatement)
  | Expression (e : ast.Expression)

mutual

/-- Modelled from the spec: the method `String()` of an expression node, its
source-text representation (the missing package `ast`), used by the compiler
to order the keys of a hash literal. -/
def Expression.String : Expression → GoString
  | .Identifier v => v
  | .IntegerLiteral v => toString v
  | .StringLiteral v => v
  | .Boolean v => if v then "true" else "false"
  | .PrefixExpression op r => "(" ++ op ++ r.String ++ ")"
  | .InfixExpression l op r => "(" ++ l.String ++ " " ++ op ++ " " ++ r.String ++ ")"
  | .IfExpression c t e =>
    "if" ++ c.String ++ " " ++ t.String ++
      (match e with
       | none => ""
       | some b => "else " ++ b.String)
  | .WhileExpression c b => "while" ++ c.String ++ " " ++ b.String
  | .ForExpression _ c _ b => "for" ++ c.String ++ " " ++ b.String
  | .FunctionLiteral ps b => "fn(" ++ ", ".intercalate ps ++ ") " ++ b.String
  | .CallExpression f args => f.String ++ "(" ++ ", ".intercalate (stringsOfExpressions args) ++ ")"
  | .ArrayLiteral els => "[" ++ ", ".intercalate (stringsOfExpressions els) ++ "]"
  | .HashLiteral pairs => "\x7b" ++ ", ".intercalate (stringsOfPairs pairs) ++ "\x7d"
  | .IndexExpression l i => "(" ++ l.String ++ "[" ++ i.String ++ "])"

/-- Modelled from the spec: `String()` of each expression of a slice. -/
def stringsOfExpressions : List Expression → List GoString
  | [] => []
  | e :: es => e.String :: stringsOfExpressions es

/-- Modelled from the spec: `key:value` texts of the entries of a hash literal. -/
def stringsOfPairs : List (Expression × Expression) → List GoString
  | [] => []
  | (k, v) :: ps => (k.String ++ ":" ++ v.String) :: stringsOfPairs ps

/-- Modelled from the spec: the method `String()` of a statement node. -/
def Statement.String : Statement → GoString
  | .LetStatement n v => "let " ++ n ++ " = " ++ v.String ++ ";"
  | .ReturnStatement v => "return " ++ v.String ++ ";"
  | .ExpressionStatement e => e.String
  | .BreakStatement => "break;"
  | .ContinueStatement => "continue;"

/-- Modelled from the spec: the method `String()` of a block. -/
def BlockStatement.String : BlockStatement → GoString
  | .mk ss => "".intercalate (stringsOfStatements ss)

/-- Modelled from the spec: `String()` of each statement of a slice. -/
def stringsOfStatements : List Statement → List GoString
  | [] => []
  | s :: ss => s.String :: stringsOfStatements ss

end

end ast

namespace compiler

/-- Go: `type SymbolScope string`. -/
abbrev SymbolScope := GoString

def GlobalScope : SymbolScope := "GLOBAL"
def LocalScope : SymbolScope := "LOCAL"
def BuiltinScope : SymbolScope := "BUILTIN"

structure Symbol where
  Name : GoString
  Scope : SymbolScope
  Index : Int
deriving DecidableEq, Repr

/-- Go: `type SymbolTable struct`; `Outer` is a nullable pointer and `store`
a Go map.  Only the innermost table of a chain is ever written while it is
the compiler's current table, so the chain is embedded by value. -/
inductive SymbolTable where
  | mk (Outer : Option SymbolTable) (store : GoString → Option Symbol) (numDefinitions : Int)

def SymbolTable.Outer : SymbolTable → Option SymbolTable
  | .mk o _ _ => o

def SymbolTable.store : SymbolTable → GoString → Option Symbol
  | .mk _ s _ => s

def SymbolTable.numDefinitions : SymbolTable → Int
  | .mk _ _ n => n

def NewSymbolTable : SymbolTable := .mk none (fun _ => none) 0

def NewEnclosedSymbolTable (outer : Option SymbolTable) : SymbolTable :=
  match NewSymbolTable with
  | .mk _ store n => .mk outer store n

/-- Go: `(s *SymbolTable) Define(name)`; returns the symbol and the updated table. -/
def SymbolTable.Define (s : SymbolTable) (name : GoString) : Symbol × SymbolTable :=
  let symbol : Symbol :=
    { Name := name, Index := s.numDefinitions,
      Scope := if s.Outer.isNone then GlobalScope else LocalScope }
  (symbol, .mk s.Outer (object.mapSet s.store name symbol) (s.numDefinitions + 1))

/-- Go: `(s *SymbolTable) Resolve(name) (Symbol, bool)`; a miss returns the
zero `Symbol` and `false`. -/
def SymbolTable.Resolve : SymbolTable → GoString → Symbol × Bool
  | .mk outer store _, name =>
    match store name with
    | some obj => (obj, true)
    | none =>
      match outer with
      | some o => o.Resolve name
      | none => (⟨"", "", 0⟩, false)

/-- Go: `(s *SymbolTable) DefineBuiltin(index, name)`. -/
def SymbolTable.DefineBuiltin (s : SymbolTable) (index : Int) (name : GoString) :
    Symbol × SymbolTable :=
  let symbol : Symbol := { Name := name, Index := index, Scope := BuiltinScope }
  (symbol, .mk s.Outer (object.mapSet s.store name symbol) s.numDefinitions)

structure EmittedInstruction where
  Opcode : code.Opcode
  Position : Int
deriving DecidableEq, Repr

structure CompilationScope where
  instructions : code.Instructions
  lastInstruction : EmittedInstruction
  previousInstruction : EmittedInstruction
deriving DecidableEq, Repr

/-- Go: `type Compiler struct`; the field `SymbolTable` is a nullable pointer. -/
structure Compiler where
  constants : List object.Object
  SymbolTable : Option SymbolTable
  scopes : List CompilationScope
  scopeIndex : Int

/-- The loop `for i, v := range object.Builtins { s.DefineBuiltin(i, v.Name) }`. -/
def defineBuiltins (s : SymbolTable) : SymbolTable :=
  (object.Builtins.enum.foldl
    (fun (t : SymbolTable) (iv : Nat × GoString × _) => (t.DefineBuiltin iv.1 iv.2.1).2) s)

/-- Go: `New() *Compiler`.  The table on which the builtins are defined is the
local `symbolTable`; the returned compiler holds a second, fresh table. -/
def New : Compiler :=
  let mainScope : CompilationScope :=
    { instructions := [], lastInstruction := ⟨0, 0⟩, previousInstruction := ⟨0, 0⟩ }
  let _symbolTable := defineBuiltins NewSymbolTable
  { constants := [], SymbolTable := some NewSymbolTable, scopes := [mainScope], scopeIndex := 0 }

/-- Go: `NewWithState(s *SymbolTable, constants []object.Object) *Compiler`. -/
def NewWithState (s : Option SymbolTable) (constants : List object.Object) : Compiler :=
  { New with SymbolTable := s, constants := constants }

/-- Go: `c.scopes[c.scopeIndex]`. -/
def currentScope : GoM Compiler CompilationScope := fun c =>
  (indexInt c.scopes c.scopeIndex, c)

/-- Go: an assignment to a field of `c.scopes[c.scopeIndex]`. -/
def setCurrentScope (sc : CompilationScope) : GoM Compiler Unit := fun c =>
  match setIndexInt c.scopes c.scopeIndex sc with
  | .ok scopes => (.ok (), { c with scopes := scopes })
  | .error e => (.error e, c)

def currentInstructions : GoM Compiler code.Instructions := do
  let sc ← currentScope
  pure sc.instructions

/-- The identity of the object that the compiler allocates next (see `object.Addr`). -/
def nextRef : GoM Compiler object.Addr := fun c =>
  (.ok (.constant c.constants.length), c)

def addConstant (obj : object.Object) : GoM Compiler Int := fun c =>
  let constants := c.constants ++ [obj]
  (.ok ((constants.length : Int) - 1), { c with constants := constants })

def addInstruction (ins : List Nat) : GoM Compiler Int := do
  let sc ← currentScope
  let posNewInstruction : Int := sc.instructions.length
  let updatedInstructions := sc.instructions ++ ins
  setCurrentScope { sc with instructions := updatedInstructions }
  pure posNewInstruction

def setLastInstruction (op : code.Opcode) (pos : Int) : GoM Compiler Unit := do
  let sc ← currentScope
  let previous := sc.lastInstruction
  let last : EmittedInstruction := { Opcode := op, Position := pos }
  let sc2 ← currentScope
  setCurrentScope { sc2 with previousInstruction := previous }
  let sc3 ← currentScope
  setCurrentScope { sc3 with lastInstruction := last }

def emit (op : code.Opcode) (operands : List Int) : GoM Compiler Int := do
  let ins ← GoM.lift (code.Make op operands)
  let pos ← addInstruction ins
  setLastInstruction op pos
  pure pos

def lastInstructionIs (op : code.Opcode) : GoM Compiler Bool := do
  let ins ← currentInstructions
  if ins.length = 0 then
    pure false
  else
    let sc ← currentScope
    pure (sc.lastInstruction.Opcode == op)

/-- Go slice expression `old[:n]` with `n` within the length of `old`. -/
def sliceTo (old : code.Instructions) (n : Int) : Except Err code.Instructions :=
  if 0 ≤ n ∧ n.toNat ≤ old.length then .ok (old.take n.toNat)
  else .error (.panic "slice bounds out of range")

def removeLastPop : GoM Compiler Unit := do
  let sc ← currentScope
  let last := sc.lastInstruction
  let previous := sc.previousInstruction
  let old ← currentInstructions
  let new ← GoM.lift (sliceTo old last.Position)
  let sc2 ← currentScope
  setCurrentScope { sc2 with instructions := new }
  let sc3 ← currentScope
  setCurrentScope { sc3 with lastInstruction := previous }

/-- The loop `for i := 0; i < len(newInstruction); i++ { ins[pos+i] = newInstruction[i] }`. -/
def replaceLoop : List Nat → code.Instructions → Int → Except Err code.Instructions
  | [], ins, _ => .ok ins
  | b :: bs, ins, pos =>
    match setIndexInt ins pos b with
    | .error e => .error e
    | .ok ins2 => replaceLoop bs ins2 (pos + 1)

def replaceInstruction (pos : Int) (newInstruction : List Nat) : GoM Compiler Unit := do
  let sc ← currentScope
  let ins ← GoM.lift (replaceLoop newInstruction sc.instructions pos)
  setCurrentScope { sc with instructions := ins }

def changeOperand (opPos : Int) (operand : Int) : GoM Compiler Unit := do
  let ins ← currentInstructions
  let op ← GoM.lift (indexInt ins opPos)
  let newInstruction ← GoM.lift (code.Make op [operand])
  replaceInstruction opPos newInstruction

def enterScope : GoM Compiler Unit := fun c =>
  let scope : CompilationScope :=
    { instructions := [], lastInstruction := ⟨0, 0⟩, previousInstruction := ⟨0, 0⟩ }
  (.ok (), { c with
    scopes := c.scopes ++ [scope],
    scopeIndex := c.scopeIndex + 1,
    SymbolTable := some (NewEnclosedSymbolTable c.SymbolTable) })

def leaveScope : GoM Compiler code.Instructions := do
  let instructions ← currentInstructions
  let c ← GoM.get
  match c.scopes with
  | [] => GoM.fail (.panic "slice bounds out of range")
  | _ :: _ =>
    match c.SymbolTable with
    | none => GoM.fail (.panic "nil pointer dereference")
    | some s =>
      GoM.set { c with
        scopes := c.scopes.dropLast,
        scopeIndex := c.scopeIndex - 1,
        SymbolTable := s.Outer }
      pure instructions

def replaceLastPopWithReturn : GoM Compiler Unit := do
  let sc ← currentScope
  let lastPos := sc.lastInstruction.Position
  let ret ← GoM.lift (code.Make code.OpReturnValue [])
  replaceInstruction lastPos ret
  let sc2 ← currentScope
  setCurrentScope { sc2 with lastInstruction := { sc2.lastInstruction with Opcode := code.OpReturnValue } }

def loadSymbol (s : Symbol) : GoM Compiler Unit :=
  if s.Scope = GlobalScope then do
    let _ ← emit code.OpGetGlobal [s.Index]
  else if s.Scope = LocalScope then do
    let _ ← emit code.OpGetLocal [s.Index]
  else if s.Scope = BuiltinScope then do
    let _ ← emit code.OpGetBuiltin [s.Index]
  else pure ()

/-- Go: `c.SymbolTable.Define(name)` on the compiler's current table. -/
def define (name : GoString) : GoM Compiler Symbol := fun c =>
  match c.SymbolTable with
  | none => (.error (.panic "nil pointer dereference"), c)
  | some s =>
    let r := s.Define name
    (.ok r.1, { c with SymbolTable := some r.2 })

/-- Go: `c.SymbolTable.Resolve(name)` on the compiler's current table. -/
def resolve (name : GoString) : GoM Compiler (Symbol × Bool) := fun c =>
  match c.SymbolTable with
  | none => (.error (.panic "nil pointer dereference"), c)
  | some s => (.ok (s.Resolve name), c)

/-- Go: `c.SymbolTable.numDefinitions` on the compiler's current table. -/
def numDefinitions : GoM Compiler Int := fun c =>
  match c.SymbolTable with
  | none => (.error (.panic "nil pointer dereference"), c)
  | some s => (.ok s.numDefinitions, c)

/-- The loop `for _, p := range node.Parameters { c.SymbolTable.Define(p.Value) }`. -/
def defineParameters : List GoString → GoM Compiler Unit
  | [] => pure ()
  | p :: ps => do
    let _ ← define p
    defineParameters ps

/-- One step of the insertion sort of `sort.Slice`: `x` moves left past every
element `y` with `less x y`; the argument is the sorted prefix in reverse. -/
def insertionStep {α : Type} (less : α → α → Bool) (x : α) : List α → List α
  | [] => [x]
  | y :: ys => if less x y then y :: insertionStep less x ys else x :: y :: ys

/-- Go standard library `sort.Slice(keys, less)`, as the insertion sort it
performs (on slices of at most 12 elements; on longer slices the library's
result is the same whenever `less` is a strict total order on the elements). -/
def sortSlice {α : Type} (less : α → α → Bool) (xs : List α) : List α :=
  (xs.foldl (fun acc x => insertionStep less x acc) []).reverse

/-- A `return nil` taken when the inner call returned an error: the error is
dropped (a panic is not an error value and keeps unwinding). -/
def returnNilOnError (m : GoM Compiler Unit) (next : GoM Compiler Unit) : GoM Compiler Unit :=
  fun c =>
    match m c with
    | (.ok (), c2) => next c2
    | (.error (.error _), c2) => (.ok (), c2)
    | (.error (.panic msg), c2) => (.error (.panic msg), c2)

/-- Run the actions in order, stopping at the first failure. -/
def sequence : List (GoM Compiler Unit) → GoM Compiler Unit
  | [] => pure ()
  | m :: ms => do
    m
    sequence ms

/-! The method `(c *Compiler) Compile(node ast.Node) error` is one type switch
whose cases call `Compile` on the children of the node.  Each case is embedded
as a function of its own that receives, for every child, the call
`c.Compile(child)` as an action; `CompileExpression`, `CompileStatement` and
`CompileBlockStatement` below tie the knot by recursion on the node. -/

/-- The case `*ast.InfixExpression`. -/
def compileInfixExpression (operator : GoString) (left right : GoM Compiler Unit) :
    GoM Compiler Unit := do
  if operator = "<" then
    right
    left
  left
  right
  if operator = "+" then
    let _ ← emit code.OpAdd []
  else if operator = "-" then
    let _ ← emit code.OpSub []
  else if operator = "*" then
    let _ ← emit code.OpMul []
  else if operator = "/" then
    let _ ← emit code.OpDiv []
  else if operator = ">" then
    let _ ← emit code.OpGreaterThan []
  else if operator = "==" then
    let _ ← emit code.OpEqual []
  else if operator = "!=" then
    let _ ← emit code.OpGreaterThan []
  else
    GoM.fail (.error ("unknown operator " ++ operator))

/-- The case `*ast.IntegerLiteral`. -/
def compileIntegerLiteral (value : Int) : GoM Compiler Unit := do
  let ref ← nextRef
  let integer := object.Object.Integer ref value
  let idx ← addConstant integer
  let _ ← emit code.OpConstant [idx]

/-- The case `*ast.StringLiteral`. -/
def compileStringLiteral (value : GoString) : GoM Compiler Unit := do
  let ref ← nextRef
  let str := object.Object.String ref value
  let idx ← addConstant str
  let _ ← emit code.OpConstant [idx]

/-- The case `*ast.Boolean`. -/
def compileBoolean (value : Bool) : GoM Compiler Unit := do
  if value then
    let _ ← emit code.OpTrue []
  else
    let _ ← emit code.OpFalse []

/-- The case `*ast.PrefixExpression`. -/
def compilePrefixExpression (operator : GoString) (right : GoM Compiler Unit) :
    GoM Compiler Unit := do
  right
  if operator = "!" then
    let _ ← emit code.OpBang []
  else if operator = "-" then
    let _ ← emit code.OpMinus []
  else
    GoM.fail (.error ("unknown operator " ++ operator))

/-- The case `*ast.IfExpression`; `alternative` is `none` when
`node.Alternative == nil`. -/
def compileIfExpression (condition consequence : GoM Compiler Unit)
    (alternative : Option (GoM Compiler Unit)) : GoM Compiler Unit := do
  condition
  let jumpNotTruthyPos ← emit code.OpJumpNotTruthy [9999]
  returnNilOnError consequence (do
    if (← lastInstructionIs code.OpPop) then
      removeLastPop
    let jumpPos ← emit code.OpJump [9999]
    let afterConsequencePos : Int := (← currentInstructions).length
    changeOperand jumpNotTruthyPos afterConsequencePos
    match alternative with
    | none =>
      let _ ← emit code.OpNull []
    | some alt =>
      alt
      if (← lastInstructionIs code.OpPop) then
        removeLastPop
    let afterAlternativePos : Int := (← currentInstructions).length
    changeOperand jumpPos afterAlternativePos)

/-- The case `*ast.Identifier`. -/
def compileIdentifier (value : GoString) : GoM Compiler Unit := do
  let (symbol, ok) ← resolve value
  if !ok then
    GoM.fail (.error ("undefined variable " ++ value))
  else
    loadSymbol symbol

/-- The case `*ast.ArrayLiteral`; `elements` are the calls `c.Compile(el)`. -/
def compileArrayLiteral (elements : List (GoM Compiler Unit)) : GoM Compiler Unit :=
  returnNilOnError (sequence elements) (do
    let _ ← emit code.OpArray [(elements.length : Int)])

/-- The case `*ast.HashLiteral`; each entry of `pairs` is the text `k.String()`
of a key with the body of the loop for that key (compile the key, then its
value). -/
def compileHashLiteral (pairs : List (GoString × GoM Compiler Unit)) : GoM Compiler Unit := do
  sequence ((sortSlice (fun a b => decide (a.1 < b.1)) pairs).map Prod.snd)
  let _ ← emit code.OpHash [(pairs.length : Int) * 2]

/-- The case `*ast.IndexExpression`. -/
def compileIndexExpression (left index : GoM Compiler Unit) : GoM Compiler Unit := do
  left
  index
  let _ ← emit code.OpIndex []

/-- The case `*ast.FunctionLiteral`. -/
def compileFunctionLiteral (parameters : List GoString) (body : GoM Compiler Unit) :
    GoM Compiler Unit := do
  enterScope
  defineParameters parameters
  body
  if (← lastInstructionIs code.OpPop) then
    replaceLastPopWithReturn
  if !(← lastInstructionIs code.OpReturnValue) then
    let _ ← emit code.OpReturn []
  let numLocals ← numDefinitions
  let instructions ← leaveScope
  let ref ← nextRef
  let compiledFn := object.Object.CompiledFunction ref
    { Instructions := instructions, NumLocals := numLocals,
      NumParameters := (parameters.length : Int) }
  let idx ← addConstant compiledFn
  let _ ← emit code.OpConstant [idx]

/-- The case `*ast.CallExpression`. -/
def compileCallExpression (function : GoM Compiler Unit) (arguments : List (GoM Compiler Unit)) :
    GoM Compiler Unit := do
  function
  sequence arguments
  let _ ← emit code.OpCall [(arguments.length : Int)]

/-- The case `*ast.ExpressionStatement`. -/
def compileExpressionStatement (expression : GoM Compiler Unit) : GoM Compiler Unit := do
  expression
  let _ ← emit code.OpPop []

/-- The case `*ast.LetStatement`. -/
def compileLetStatement (name : GoString) (value : GoM Compiler Unit) : GoM Compiler Unit := do
  value
  let symbol ← define name
  if symbol.Scope = GlobalScope then
    let _ ← emit code.OpSetGlobal [symbol.Index]
  else
    let _ ← emit code.OpSetLocal [symbol.Index]

/-- The case `*ast.ReturnStatement`. -/
def compileReturnStatement (returnValue : GoM Compiler Unit) : GoM Compiler Unit := do
  returnValue
  let _ ← emit code.OpReturnValue []

mutual

/-- `Compile` on an expression node.  A node type without a case
(`WhileExpression`, `ForExpression`) emits nothing and returns nil. -/
def CompileExpression : ast.Expression → GoM Compiler Unit
  | .InfixExpression left operator right =>
    compileInfixExpression operator (CompileExpression left) (CompileExpression right)
  | .IntegerLiteral value => compileIntegerLiteral value
  | .StringLiteral value => compileStringLiteral value
  | .Boolean value => compileBoolean value
  | .PrefixExpression operator right => compilePrefixExpression operator (CompileExpression right)
  | .IfExpression condition consequence none =>
    compileIfExpression (CompileExpression condition) (CompileBlockStatement consequence) none
  | .IfExpression condition consequence (some alternative) =>
    compileIfExpression (CompileExpression condition) (CompileBlockStatement consequence)
      (some (CompileBlockStatement alternative))
  | .Identifier value => compileIdentifier value
  | .ArrayLiteral elements => compileArrayLiteral (CompileExpressions elements)
  | .HashLiteral pairs => compileHashLiteral (CompilePairs pairs)
  | .IndexExpression left index =>
    compileIndexExpression (CompileExpression left) (CompileExpression index)
  | .FunctionLiteral parameters body =>
    compileFunctionLiteral parameters (CompileBlockStatement body)
  | .CallExpression function arguments =>
    compileCallExpression (CompileExpression function) (CompileExpressions arguments)
  | .WhileExpression _ _ => pure ()
  | .ForExpression _ _ _ _ => pure ()

/-- The calls `c.Compile(e)` for the expressions of a slice, in order. -/
def CompileExpressions : List ast.Expression → List (GoM Compiler Unit)
  | [] => []
  | e :: es => CompileExpression e :: CompileExpressions es

/-- For each entry of a hash literal: the text `k.String()` of its key and the
calls `c.Compile(k)`, `c.Compile(node.Pairs[k])`. -/
def CompilePairs : List (ast.Expression × ast.Expression) → List (GoString × GoM Compiler Unit)
  | [] => []
  | (k, v) :: rest =>
    (k.String, do CompileExpression k; CompileExpression v) :: CompilePairs rest

/-- `Compile` on a statement node.  `BreakStatement` and `ContinueStatement`
have no case. -/
def CompileStatement : ast.Statement → GoM Compiler Unit
  | .ExpressionStatement expression => compileExpressionStatement (CompileExpression expression)
  | .LetStatement name value => compileLetStatement name (CompileExpression value)
  | .ReturnStatement returnValue => compileReturnStatement (CompileExpression returnValue)
  | .BreakStatement => pure ()
  | .ContinueStatement => pure ()

/-- `Compile` on a block: the case `*ast.BlockStatement`, a loop over the
statements that stops at the first error. -/
def CompileBlockStatement : ast.BlockStatement → GoM Compiler Unit
  | .mk statements => sequence (CompileStatements statements)

/-- The calls `c.Compile(s)` for the statements of a slice, in order. -/
def CompileStatements : List ast.Statement → List (GoM Compiler Unit)
  | [] => []
  | s :: ss => CompileStatement s :: CompileStatements ss

end

/-- Go: `(c *Compiler) Compile(node ast.Node) error`. -/
def Compile : ast.Node → GoM Compiler Unit
  | .Program p => sequence (CompileStatements p.Statements)
  | .Statement s => CompileStatement s
  | .BlockStatement b => CompileBlockStatement b
  | .Expression e => CompileExpression e

structure Bytecode where
  Instructions : code.Instructions
  Constants : List object.Object

/-- Go: `(c *Compiler) Bytecode() *Bytecode`. -/
def Compiler.Bytecode : GoM Compiler Bytecode := do
  let ins ← currentInstructions
  let c ← GoM.get
  pure { Instructions := ins, Constants := c.constants }

end compiler

namespace vm

open object (Object)

def StackSize : Int := 2048
def GlobalsSize : Int := 65536
def MaxFrames : Int := 1024

def True : Object := .Boolean true
def False : Object := .Boolean false
def Null : Object := .Null

structure Frame where
  fn : object.CompiledFunction
  ip : Int
  basePointer : Int
deriving DecidableEq, Repr

def NewFrame (fn : object.CompiledFunction) (basePointer : Int) : Frame :=
  { fn := fn, ip := -1, basePointer := basePointer }

def Frame.Instructions (f : Frame) : code.Instructions := f.fn.Instructions

/-- Go: `type VM struct`.  `frames` lists the live frames `frames[framesIndex-1]`,
…, `frames[0]`, current frame first (slots at and above `framesIndex` are never
read before being overwritten), so `framesIndex` is its length.  `allocs`
counts the objects allocated so far; it numbers their identities. -/
structure VM where
  constants : List Object
  stack : Slice Object
  sp : Int
  globals : Slice Object
  frames : List Frame
  allocs : Nat

def VM.framesIndex (vm : VM) : Int := vm.frames.length

/-- Go: `New(bytecode *compiler.Bytecode) *VM`. -/
def New (bytecode : compiler.Bytecode) : VM :=
  let mainFn : object.CompiledFunction :=
    { Instructions := bytecode.Instructions, NumLocals := 0, NumParameters := 0 }
  let mainFrame := NewFrame mainFn 0
  { constants := bytecode.Constants,
    stack := Slice.make StackSize.toNat Object.nil,
    sp := 0,
    globals := Slice.make GlobalsSize.toNat Object.nil,
    frames := [mainFrame],
    allocs := 0 }

/-- Go: `NewWithGlobalsStore(bytecode, s)`. -/
def NewWithGlobalsStore (bytecode : compiler.Bytecode) (s : Slice Object) : VM :=
  { New bytecode with globals := s }

/-- Go: `(vm *VM) StackTop()`; `nil` when the stack is empty. -/
def StackTop (vm : VM) : Except Err Object :=
  if vm.sp = 0 then .ok .nil else vm.stack.index (vm.sp - 1)

def currentFrame : GoM VM Frame := fun vm =>
  match vm.frames with
  | [] => (.error (.panic "index out of range"), vm)
  | f :: _ => (.ok f, vm)

/-- A write through the pointer `vm.currentFrame()`. -/
def setCurrentFrame (f : Frame) : GoM VM Unit := fun vm =>
  match vm.frames with
  | [] => (.error (.panic "index out of range"), vm)
  | _ :: rest => (.ok (), { vm with frames := f :: rest })

/-- Go: `vm.currentFrame().ip += n`. -/
def advance (n : Int) : GoM VM Unit := do
  let f ← currentFrame
  setCurrentFrame { f with ip := f.ip + n }

def popFrame : GoM VM Frame := fun vm =>
  match vm.frames with
  | [] => (.error (.panic "index out of range"), vm)
  | f :: rest => (.ok f, { vm with frames := rest })

def pushFrame (f : Frame) : GoM VM Unit := fun vm =>
  if vm.framesIndex ≥ MaxFrames then (.error (.panic "index out of range"), vm)
  else (.ok (), { vm with frames := f :: vm.frames })

def push (o : Object) : GoM VM Unit := fun vm =>
  if vm.sp ≥ StackSize then (.error (.error "stack overFlow"), vm)
  else
    match vm.stack.setIndex vm.sp o with
    | .error e => (.error e, vm)
    | .ok stack => (.ok (), { vm with stack := stack, sp := vm.sp + 1 })

def pop : GoM VM Object := fun vm =>
  match vm.stack.index (vm.sp - 1) with
  | .error e => (.error e, vm)
  | .ok o => (.ok o, { vm with sp := vm.sp - 1 })

def LastPoppedStackElem (vm : VM) : Except Err Object :=
  vm.stack.index vm.sp

/-- The identity of a newly allocated object. -/
def alloc : GoM VM object.Addr := fun vm =>
  (.ok (.runtime vm.allocs), { vm with allocs := vm.allocs + 1 })

/-- Two's-complement wrap-around of an `int64` result. -/
def wrap64 (x : Int) : Int := (x + 2 ^ 63) % 2 ^ 64 - 2 ^ 63

def isTruthy (obj : Object) : Bool :=
  match obj with
  | .Boolean v => v
  | .Null => false
  | _ => true

def nativeBooleanToBooleanObject (input : Bool) : Object :=
  if input then True else False

/-- Go type assertion `o.(*object.Integer).Value`. -/
def integerValue (o : Object) : Except Err Int :=
  match o with
  | .Integer _ v => .ok v
  | _ => .error (.panic "interface conversion")

/-- Go type assertion `o.(*object.String).Value`. -/
def stringValue (o : Object) : Except Err GoString :=
  match o with
  | .String _ v => .ok v
  | _ => .error (.panic "interface conversion")

def executeBinaryIntegerOperation (op : code.Opcode) (left right : Object) : GoM VM Unit := do
  let leftValue ← GoM.lift (integerValue left)
  let rightValue ← GoM.lift (integerValue right)
  if op = code.OpAdd then
    push (.Integer (← alloc) (wrap64 (leftValue + rightValue)))
  else if op = code.OpSub then
    push (.Integer (← alloc) (wrap64 (leftValue - rightValue)))
  else if op = code.OpMul then
    push (.Integer (← alloc) (wrap64 (leftValue * rightValue)))
  else if op = code.OpDiv then
    if rightValue = 0 then GoM.fail (.panic "integer divide by zero")
    else push (.Integer (← alloc) (wrap64 (Int.tdiv leftValue rightValue)))
  else
    GoM.fail (.error ("unkoown integer operator: " ++ toString op))

def executeBinaryStringOperation (op : code.Opcode) (left right : Object) : GoM VM Unit := do
  if op ≠ code.OpAdd then
    GoM.fail (.error ("enknown string operator: " ++ toString op))
  else
    let leftValue ← GoM.lift (stringValue left)
    let rightValue ← GoM.lift (stringValue right)
    push (.String (← alloc) (leftValue ++ rightValue))

def executeBinaryOperation (op : code.Opcode) : GoM VM Unit := do
  let right ← pop
  let left ← pop
  let leftType ← GoM.lift left.Type_
  let rightType ← GoM.lift right.Type_
  if leftType = object.INTEGER_OBJ ∧ rightType = object.INTEGER_OBJ then
    executeBinaryIntegerOperation op left right
  else if leftType = object.STRING_OBJ ∧ rightType = object.STRING_OBJ then
    executeBinaryStringOperation op left right
  else
    GoM.fail (.error ("unsupported types for binary operation: " ++ leftType ++ " " ++ rightType))

def executeIntegerComparison (op : code.Opcode) (left right : Object) : GoM VM Unit := do
  let leftValue ← GoM.lift (integerValue left)
  let rightValue ← GoM.lift (integerValue right)
  if op = code.OpEqual then
    push (nativeBooleanToBooleanObject (rightValue == leftValue))
  else if op = code.OpNotEqual then
    push (nativeBooleanToBooleanObject (rightValue != leftValue))
  else if op = code.OpGreaterThan then
    push (nativeBooleanToBooleanObject (decide (rightValue < leftValue)))
  else
    GoM.fail (.error ("unknown operator: " ++ toString op))

/-- The condition `left.Type() == INTEGER_OBJ && right.Type() == INTEGER_OBJ`
(`right.Type()` is evaluated only when the first test holds). -/
def bothIntegers (left right : Object) : Except Err Bool :=
  match left.Type_ with
  | .error e => .error e
  | .ok leftType =>
    if leftType = object.INTEGER_OBJ then
      match right.Type_ with
      | .error e => .error e
      | .ok rightType => .ok (rightType = object.INTEGER_OBJ)
    else .ok false

def executeComparison (op : code.Opcode) : GoM VM Unit := do
  let right ← pop
  let left ← pop
  if (← GoM.lift (bothIntegers left right)) then
    executeIntegerComparison op left right
  else if op = code.OpEqual then
    push (nativeBooleanToBooleanObject (right.identity == left.identity))
  else if op = code.OpNotEqual then
    push (nativeBooleanToBooleanObject (right.identity != left.identity))
  else
    let leftType ← GoM.lift left.Type_
    let rightType ← GoM.lift right.Type_
    GoM.fail (.error ("unknown operator: " ++ toString op ++ " (" ++ leftType ++ " " ++
      rightType ++ ")"))

def executeBangOperator : GoM VM Unit := do
  let operand ← pop
  if operand.identity = True.identity then push False
  else if operand.identity = False.identity then push True
  else push False

def executeMinusOperator : GoM VM Unit := do
  let operand ← pop
  let t ← GoM.lift operand.Type_
  if t ≠ object.INTEGER_OBJ then
    GoM.fail (.error ("unsupported type for nagation: " ++ t))
  else
    let value ← GoM.lift (integerValue operand)
    push (.Integer (← alloc) (wrap64 (-value)))

/-- The loop `for i := startIndex; i < endIndex; i++ { elements[i-startIndex] = vm.stack[i] }`,
as the list of the `n` slots read from index `i` on. -/
def readSlots (stack : Slice Object) : Int → Nat → Except Err (List Object)
  | _, 0 => .ok []
  | i, n + 1 =>
    match stack.index i with
    | .error e => .error e
    | .ok o =>
      match readSlots stack (i + 1) n with
      | .error e => .error e
      | .ok os => .ok (o :: os)

def buildArray (startIndex endIndex : Int) : GoM VM Object := do
  if endIndex - startIndex < 0 then
    GoM.fail (.panic "makeslice: len out of range")
  else
    let vm ← GoM.get
    let elements ← GoM.lift (readSlots vm.stack startIndex (endIndex - startIndex).toNat)
    pure (.Array (← alloc) elements)

/-- The loop `for i := startIndex; i < endIndex; i += 2` of `buildHash`, with
`n` iterations left. -/
def buildHashLoop (stack : Slice Object) :
    Int → Nat → (object.HashKey → Option (Object × Object)) →
      Except Err (object.HashKey → Option (Object × Object))
  | _, 0, hashedParis => .ok hashedParis
  | i, n + 1, hashedParis =>
    match stack.index i with
    | .error e => .error e
    | .ok key =>
      match stack.index (i + 1) with
      | .error e => .error e
      | .ok value =>
        match key.HashKey with
        | none =>
          match key.Type_ with
          | .error e => .error e
          | .ok t => .error (.error ("unusuable as hash key " ++ t ++ ":"))
        | some hashKey =>
          buildHashLoop stack (i + 2) n (object.mapSet hashedParis hashKey (key, value))

def buildHash (startIndex endIndex : Int) : GoM VM Object := do
  let vm ← GoM.get
  let hashedParis ← GoM.lift
    (buildHashLoop vm.stack startIndex ((endIndex - startIndex + 1) / 2).toNat (fun _ => none))
  pure (.Hash (← alloc) hashedParis)

def executeArrayIndex (array index : Object) : GoM VM Unit := do
  match array with
  | .Array _ elements =>
    let i ← GoM.lift (integerValue index)
    let max : Int := (elements.length : Int) - 1
    if i < 0 ∨ i > max then
      push Null
    else
      push (← GoM.lift (indexInt elements i))
  | _ => GoM.fail (.panic "interface conversion")

def executeHashIndex (hash index : Object) : GoM VM Unit := do
  match hash with
  | .Hash _ pairs =>
    match index.HashKey with
    | none =>
      let t ← GoM.lift index.Type_
      GoM.fail (.error ("unusble as hash key: " ++ t))
    | some key =>
      match pairs key with
      | none => push Null
      | some pair => push pair.2
  | _ => GoM.fail (.panic "interface conversion")

/-- The first `case` condition of `executeIndexExpression`:
`left.Type() == ARRAY_OBJ && index.Type() == INTEGER_OBJ`. -/
def isArrayIndex (left index : Object) : Except Err Bool :=
  match left.Type_ with
  | .error e => .error e
  | .ok leftType =>
    if leftType = object.ARRAY_OBJ then
      match index.Type_ with
      | .error e => .error e
      | .ok indexType => .ok (indexType = object.INTEGER_OBJ)
    else .ok false

def executeIndexExpression (left index : Object) : GoM VM Unit := do
  if (← GoM.lift (isArrayIndex left index)) then
    executeArrayIndex left index
  else
    let leftType ← GoM.lift left.Type_
    if leftType = object.HASH_OBJ then
      executeHashIndex left index
    else
      GoM.fail (.error ("index operator not supported: " ++ leftType))

def callFunction (fn : object.CompiledFunction) (numArgs : Int) : GoM VM Unit := do
  if numArgs ≠ fn.NumParameters then
    GoM.fail (.error ("wrong number of arguments: want=" ++ toString fn.NumParameters ++
      ", got=" ++ toString numArgs))
  else
    let vm ← GoM.get
    let frame := NewFrame fn (vm.sp - numArgs)
    pushFrame frame
    GoM.modify (fun vm => { vm with sp := frame.basePointer + fn.NumLocals })

/-- Go slice expression `vm.stack[lo:hi]`. -/
def sliceStack (stack : Slice Object) (lo hi : Int) : Except Err (List Object) :=
  if lo < 0 ∨ hi < lo ∨ hi > stack.len then .error (.panic "slice bounds out of range")
  else readSlots stack lo (hi - lo).toNat

def callBuiltin (builtin : Nat) (numArgs : Int) : GoM VM Unit := do
  let vm ← GoM.get
  let args ← GoM.lift (sliceStack vm.stack (vm.sp - numArgs) vm.sp)
  match object.Builtins[builtin]? with
  | none => GoM.fail (.panic "nil pointer dereference")
  | some definition =>
    let ref ← alloc
    let result ← GoM.lift (definition.2 ref args)
    GoM.modify (fun vm => { vm with sp := vm.sp - numArgs - 1 })
    let vm2 ← GoM.get
    let pushed := if result.identity ≠ .nil then push result vm2 else push Null vm2
    GoM.set pushed.2

def executeCall (numArgs : Int) : GoM VM Unit := do
  let vm ← GoM.get
  let callee ← GoM.lift (vm.stack.index (vm.sp - 1 - numArgs))
  match callee with
  | .CompiledFunction _ fn => callFunction fn numArgs
  | .Builtin i => callBuiltin i numArgs
  | _ => GoM.fail (.error "calling non-function and non-built-in")

/-- Go: `code.ReadUint16(ins[ip+1:])` in the `Run` loop. -/
def readUint16At (ins : code.Instructions) (ip : Int) : Except Err Int :=
  if ip + 1 < 0 then .error (.panic "slice bounds out of range")
  else
    match code.sliceFrom ins (ip + 1).toNat with
    | .error e => .error e
    | .ok s =>
      match code.ReadUint16 s with
      | .error e => .error e
      | .ok v => .ok (v : Int)

/-- Go: `code.ReadUint8(ins[ip+1:])` in the `Run` loop. -/
def readUint8At (ins : code.Instructions) (ip : Int) : Except Err Int :=
  if ip + 1 < 0 then .error (.panic "slice bounds out of range")
  else
    match code.sliceFrom ins (ip + 1).toNat with
    | .error e => .error e
    | .ok s =>
      match code.ReadUint8 s with
      | .error e => .error e
      | .ok v => .ok (v : Int)

/-- The `switch op` in the loop of `Run`, with `ins` and `ip` as read at the
top of the iteration.  An opcode without a `case` does nothing. -/
def execute (op : code.Opcode) (ins : code.Instructions) (ip : Int) : GoM VM Unit := do
  if op = code.OpConstant then
    let constIndex ← GoM.lift (readUint16At ins ip)
    advance 2
    let vm ← GoM.get
    push (← GoM.lift (indexInt vm.constants constIndex))
  else if op = code.OpAdd ∨ op = code.OpSub ∨ op = code.OpMul ∨ op = code.OpDiv then
    executeBinaryOperation op
  else if op = code.OpPop then
    let _ ← pop
  else if op = code.OpTrue then
    push True
  else if op = code.OpFalse then
    push False
  else if op = code.OpEqual ∨ op = code.OpNotEqual ∨ op = code.OpGreaterThan then
    executeComparison op
  else if op = code.OpBang then
    executeBangOperator
  else if op = code.OpMinus then
    executeMinusOperator
  else if op = code.OpJump then
    let pos ← GoM.lift (readUint16At ins ip)
    let f ← currentFrame
    setCurrentFrame { f with ip := pos - 1 }
  else if op = code.OpJumpNotTruthy then
    let pos ← GoM.lift (readUint16At ins ip)
    advance 2
    let condition ← pop
    if !isTruthy condition then
      let f ← currentFrame
      setCurrentFrame { f with ip := pos - 1 }
  else if op = code.OpNull then
    push Null
  else if op = code.OpSetGlobal then
    let globalIndex ← GoM.lift (readUint16At ins ip)
    advance 2
    let v ← pop
    let vm ← GoM.get
    let globals ← GoM.lift (vm.globals.setIndex globalIndex v)
    GoM.set { vm with globals := globals }
  else if op = code.OpGetGlobal then
    let globalIndex ← GoM.lift (readUint16At ins ip)
    advance 2
    let vm ← GoM.get
    push (← GoM.lift (vm.globals.index globalIndex))
  else if op = code.OpArray then
    let numElements ← GoM.lift (readUint16At ins ip)
    advance 2
    let vm ← GoM.get
    let array ← buildArray (vm.sp - numElements) vm.sp
    GoM.modify (fun vm => { vm with sp := vm.sp - numElements })
    push array
  else if op = code.OpHash then
    let numElements ← GoM.lift (readUint16At ins ip)
    advance 2
    let vm ← GoM.get
    let hash ← buildHash (vm.sp - numElements) vm.sp
    GoM.modify (fun vm => { vm with sp := vm.sp - numElements })
    push hash
  else if op = code.OpIndex then
    let index ← pop
    let left ← pop
    executeIndexExpression left index
  else if op = code.OpCall then
    let numArgs ← GoM.lift (readUint8At ins ip)
    advance 1
    executeCall numArgs
  else if op = code.OpReturnValue then
    let returnValue ← pop
    let frame ← popFrame
    GoM.modify (fun vm => { vm with sp := frame.basePointer - 1 })
    push returnValue
  else if op = code.OpReturn then
    let frame ← popFrame
    GoM.modify (fun vm => { vm with sp := frame.basePointer - 1 })
    push Null
  else if op = code.OpSetLocal then
    let localIndex ← GoM.lift (readUint8At ins ip)
    advance 1
    let frame ← currentFrame
    let v ← pop
    let vm ← GoM.get
    let stack ← GoM.lift (vm.stack.setIndex (frame.basePointer + localIndex) v)
    GoM.set { vm with stack := stack }
  else if op = code.OpGetLocal then
    let localIndex ← GoM.lift (readUint8At ins ip)
    advance 1
    let frame ← currentFrame
    let vm ← GoM.get
    push (← GoM.lift (vm.stack.index (frame.basePointer + localIndex)))
  else if op = code.OpGetBuiltin then
    let builtinIndex ← GoM.lift (readUint8At ins ip)
    advance 1
    match object.Builtins[builtinIndex.toNat]? with
    | none => GoM.fail (.panic "index out of range")
    | some _ => push (.Builtin builtinIndex.toNat)
  else
    pure ()

/-- One iteration of the loop of `Run`: `vm.currentFrame().ip++`, fetch, dispatch. -/
def step : GoM VM Unit := do
  advance 1
  let frame ← currentFrame
  let ip := frame.ip
  let ins := frame.Instructions
  let op ← GoM.lift (indexInt ins ip)
  execute op ins ip

/-- Go: `(vm *VM) Run() error`.  `fuel` bounds the number of evaluations of
the loop condition; `none` means the bound was reached before the loop ended. -/
def Run : Nat → VM → Option (Except Err Unit × VM)
  | 0, _ => none
  | fuel + 1, vm =>
    match currentFrame vm with
    | (.error e, vm1) => some (.error e, vm1)
    | (.ok frame, _) =>
      if frame.ip < (frame.Instructions.length : Int) - 1 then
        match step vm with
        | (.error e, vm2) => some (.error e, vm2)
        | (.ok (), vm2) => Run fuel vm2
      else some (.ok (), vm)

end vm

namespace repl

/-- The variables of `Start` that persist across inputs: `constants`,
`globals`, `symbolTable`, and the number of objects the VMs have allocated
so far (which keeps the identities of run-time objects distinct across runs). -/
structure Session where
  constants : List object.Object
  globals : Slice object.Object
  symbolTable : compiler.SymbolTable
  allocs : Nat

/-- The state with which `Start` enters its loop. -/
def newSession : Session :=
  { constants := [],
    globals := Slice.make vm.GlobalsSize.toNat object.Object.nil,
    symbolTable := compiler.defineBuiltins compiler.NewSymbolTable,
    allocs := 0 }

/-- The table that is `n` links up the `Outer` chain of `t`. -/
def outerTable : Nat → Option compiler.SymbolTable → Option compiler.SymbolTable
  | 0, t => t
  | _ + 1, none => none
  | n + 1, some t => outerTable n t.Outer

/-- Go: `handleNormalCommand`, from the parsed `program` on (lexing, parsing
and printing are outside the embedding).  Returns what `Run` and
`LastPoppedStackElem` produced (`none`: `fuel` did not suffice) and the
session afterwards.  The session's `symbolTable` is the table object that
`NewWithState` received; the compiler leaves it `scopeIndex` links up the
chain of its current table. -/
def handleNormalCommand (fuel : Nat) (program : ast.Program) (session : Session) :
    Option (Except Err object.Object) × Session :=
  let comp := compiler.NewWithState (some session.symbolTable) session.constants
  let compiled := compiler.Compile (.Program program) comp
  let table : compiler.SymbolTable :=
    match outerTable compiled.2.scopeIndex.toNat compiled.2.SymbolTable with
    | some t => t
    | none => session.symbolTable
  match compiled with
  | (.error e, _) => (some (.error e), { session with symbolTable := table })
  | (.ok (), comp2) =>
    match compiler.Compiler.Bytecode comp2 with
    | (.error e, _) => (some (.error e), { session with symbolTable := table })
    | (.ok code, _) =>
      let machine : vm.VM :=
        { vm.NewWithGlobalsStore code session.globals with allocs := session.allocs }
      match vm.Run fuel machine with
      | none => (none, { session with symbolTable := table, constants := code.Constants })
      | some (.error e, machine2) =>
        (some (.error e),
          { symbolTable := table, constants := code.Constants,
            globals := machine2.globals, allocs := machine2.allocs })
      | some (.ok (), machine2) =>
        (some (vm.LastPoppedStackElem machine2),
          { symbolTable := table, constants := code.Constants,
            globals := machine2.globals, allocs := machine2.allocs })

end repl

/-- The pipeline on fresh state: `compiler.New()`, `Compile`, `Bytecode()`,
`vm.New`, `Run`, `LastPoppedStackElem()`.  The result is `none` when `fuel`
does not suffice, and otherwise the error of the first failing stage or the
last popped value. -/
def compileAndRun (fuel : Nat) (program : ast.Program) : Option (Except Err object.Object) :=
  match compiler.Compile (.Program program) compiler.New with
  | (.error e, _) => some (.error e)
  | (.ok (), comp) =>
    match compiler.Compiler.Bytecode comp with
    | (.error e, _) => some (.error e)
    | (.ok bytecode, _) =>
      match vm.Run fuel (vm.New bytecode) with
      | none => none
      | some (.error e, _) => some (.error e)
      | some (.ok (), machine) => some (vm.LastPoppedStackElem machine)

/-- Kind and content of a value, without the identity of its allocation
(arrays by their length, hashes and functions by their kind only). -/
inductive Value where
  | nil
  | Integer (Value : Int)
  | Boolean (Value : Bool)
  | Null
  | String (Value : GoString)
  | Array (length : Nat)
  | Hash
  | CompiledFunction
  | Builtin (index : Nat)
  | Error (Message : GoString)
deriving DecidableEq, Repr

def object.Object.value : object.Object → Value
  | .nil => .nil
  | .Integer _ v => .Integer v
  | .Boolean b => .Boolean b
  | .Null => .Null
  | .String _ s => .String s
  | .Array _ els => .Array els.length
  | .Hash _ _ => .Hash
  | .CompiledFunction _ _ => .CompiledFunction
  | .Builtin i => .Builtin i
  | .Error _ m => .Error m

/-- The outcome of a run with the last popped value reduced to its kind and content. -/
def outcome (r : Option (Except Err object.Object)) : Option (Except Err Value) :=
  match r with
  | none => none
  | some (.error e) => some (.error e)
  | some (.ok o) => some (.ok o.value)

namespace code

/-- The encoding of one operand in the words of the spec: a 2-byte operand is
big-endian unsigned (high byte first), a 1-byte operand is a single byte. -/
def bigEndian (width : Nat) (o : Int) : List Nat :=
  if width = 2 then [o.toNat / 256, o.toNat % 256]
  else if width = 1 then [o.toNat]
  else []

/-- The operands of an instruction, each encoded by `bigEndian` at its width, in order. -/
def encodeOperands : List Nat → List Int → List Nat
  | w :: ws, o :: os => bigEndian w o ++ encodeOperands ws os
  | _, _ => []

/-- The 27 opcodes of the const block. -/
def allOpcodes : List Opcode :=
  [OpConstant, OpAdd, OpPop, OpSub, OpMul, OpDiv, OpTrue, OpFalse, OpEqual, OpNotEqual,
   OpGreaterThan, OpMinus, OpBang, OpJumpNotTruthy, OpJump, OpNull, OpGetGlobal, OpSetGlobal,
   OpGetLocal, OpSetLocal, OpArray, OpHash, OpIndex, OpCall, OpReturnValue, OpReturn,
   OpGetBuiltin]

/-- Go: `fmt.Sprintf("%04d", i)` for `i ≥ 0`: the decimal digits of `i`, padded
with zeros on the left to four characters (longer numbers are not cut). -/
def fmt04d (i : Nat) : GoString :=
  String.mk (List.replicate (4 - (toString i).length) '0') ++ toString i

/-- Go: `(ins Instructions) fmtInstruction(def *Definition, operands []int) string`. -/
def fmtInstruction (d : Definition) (operands : List Int) : GoString :=
  let operandCount := d.OperandWidths.length
  if operands.length ≠ operandCount then
    "ERROR: operand len " ++ toString operands.length ++ " does not match definition " ++
      toString operandCount ++ "\n"
  else if operandCount = 0 then d.Name
  else if operandCount = 1 then
    match operands with
    | o :: _ => d.Name ++ ", " ++ toString o
    | [] => d.Name
  else "ERROR: unhandled operandCount for " ++ d.Name ++ "\n"

/-- The loop `for i <= len(ins)` of `(ins Instructions) String()`, entered with
the index `i` and the buffer `out`.  `fuel` bounds the number of evaluations
of the loop condition; `none` means the bound was reached before the loop
ended.  In the branch of an undefined opcode the `continue` leaves `i` as it
is. -/
def stringLoop : Nat → Instructions → Nat → GoString → Option (Except Err GoString)
  | 0, _, _, _ => none
  | fuel + 1, ins, i, out =>
    if i ≤ ins.length then
      match ins[i]? with
      | none => some (.error (.panic "index out of range"))
      | some b =>
        match Lookup b with
        | .error (.error msg) => stringLoop fuel ins i (out ++ "ERROR: " ++ msg ++ "\n")
        | .error (.panic msg) => some (.error (.panic msg))
        | .ok d =>
          match sliceFrom ins (i + 1) with
          | .error e => some (.error e)
          | .ok rest =>
            match ReadOperands d rest with
            | .error e => some (.error e)
            | .ok (operands, read) =>
              stringLoop fuel ins (i + 1 + read)
                (out ++ fmt04d i ++ " " ++ fmtInstruction d operands ++ "\n")
    else some (.ok out)

/-- Go: `(ins Instructions) String() string`. -/
def Instructions.String (fuel : Nat) (ins : Instructions) : Option (Except Err GoString) :=
  stringLoop fuel ins 0 ""

/-- A byte sequence that decodes as whole instructions: it is empty, or it
starts with a defined opcode followed by the bytes of its operands and by a
sequence that decodes. -/
def decodes : Nat → Instructions → Bool
  | _, [] => true
  | 0, _ :: _ => false
  | fuel + 1, b :: rest =>
    match definitions b with
    | none => false
    | some d => d.OperandWidths.sum ≤ rest.length && decodes fuel (rest.drop d.OperandWidths.sum)

/-- The concatenation of the `Make` outputs for a list of opcodes with their operands. -/
def assemble : List (Opcode × List Int) → Instructions
  | [] => []
  | (op, operands) :: rest =>
    (match Make op operands with
     | .ok bytes => bytes
     | .error _ => []) ++ assemble rest

end code

namespace repl

/-- The loop `for _, char := range input` of `isCompleteInput` with its two
counters; 123, 125, 40 and 41 are the braces and the parentheses. -/
def isCompleteInputLoop : List Char → Int → Int → Int × Int
  | [], openBraces, openParens => (openBraces, openParens)
  | char :: rest, openBraces, openParens =>
    if char = Char.ofNat 123 then isCompleteInputLoop rest (openBraces + 1) openParens
    else if char = Char.ofNat 125 then isCompleteInputLoop rest (openBraces - 1) openParens
    else if char = Char.ofNat 40 then isCompleteInputLoop rest openBraces (openParens + 1)
    else if char = Char.ofNat 41 then isCompleteInputLoop rest openBraces (openParens - 1)
    else isCompleteInputLoop rest openBraces openParens

/-- Go: `isCompleteInput(input string) bool`. -/
def isCompleteInput (input : GoString) : Bool :=
  let counts := isCompleteInputLoop input.toList 0 0
  counts.1 == 0 && counts.2 == 0

/-- Go: `formatInstruction(def *code.Definition, operands []int) string`. -/
def formatInstruction (d : code.Definition) (operands : List Int) : GoString :=
  let operandCount := d.OperandWidths.length
  if operands.length ≠ operandCount then
    "ERROR: operand len " ++ toString operands.length ++ " does not match definition " ++
      toString operandCount ++ "\n"
  else if operandCount = 0 then d.Name
  else if operandCount = 1 then
    match operands with
    | o :: _ => d.Name ++ " " ++ toString o
    | [] => d.Name
  else "ERROR: unhandled operandCount for " ++ d.Name ++ "\n"

/-- The loop `for i < len(ins)` of `formatInstructions`, entered with the
index `i` and the buffer `out`.  `fuel` bounds the number of evaluations of
the loop condition; `none` means the bound was reached before the loop ended.
In the branch of an undefined opcode the `continue` leaves `i` as it is. -/
def formatInstructionsLoop :
    Nat → code.Instructions → Nat → GoString → Option (Except Err GoString)
  | 0, _, _, _ => none
  | fuel + 1, ins, i, out =>
    if i < ins.length then
      match ins[i]? with
      | none => some (.error (.panic "index out of range"))
      | some b =>
        match code.Lookup b with
        | .error (.error msg) =>
          formatInstructionsLoop fuel ins i (out ++ "ERROR: " ++ msg ++ "\n")
        | .error (.panic msg) => some (.error (.panic msg))
        | .ok d =>
          match code.sliceFrom ins (i + 1) with
          | .error e => some (.error e)
          | .ok rest =>
            match code.ReadOperands d rest with
            | .error e => some (.error e)
            | .ok (operands, read) =>
              if read > rest.length then
                some (.ok (out ++ "ERROR: unexpected end of instructions\n"))
              else
                formatInstructionsLoop fuel ins (i + 1 + read)
                  (out ++ code.fmt04d i ++ " " ++ formatInstruction d operands ++ "\n")
    else some (.ok out)

/-- Go: `formatInstructions(ins code.Instructions) string`. -/
def formatInstructions (fuel : Nat) (ins : code.Instructions) : Option (Except Err GoString) :=
  formatInstructionsLoop fuel ins 0 ""

/-- Go: `handleDisassembleCommand`, from the parsed `program` on, up to the
text that `disassemble` puts under the heading `Instructions:`
(`compiler.New()`, `Compile`, `Bytecode()`, `formatInstructions`). -/
def disassembledInstructions (fuel : Nat) (program : ast.Program) :
    Option (Except Err GoString) :=
  match compiler.Compile (.Program program) compiler.New with
  | (.error e, _) => some (.error e)
  | (.ok (), comp) =>
    match compiler.Compiler.Bytecode comp with
    | (.error e, _) => some (.error e)
    | (.ok bytecode, _) => formatInstructions fuel bytecode.Instructions

end repl

namespace scenarios

open ast.Expression ast.Statement

/-- `let add = fn(a, b) { a + b; }; add(A, B);` -/
def addProgram (A B : Int) : ast.Program :=
  ⟨[LetStatement "add" (FunctionLiteral ["a", "b"]
      (.mk [ExpressionStatement (InfixExpression (Identifier "a") "+" (Identifier "b"))])),
    ExpressionStatement (CallExpression (Identifier "add") [IntegerLiteral A, IntegerLiteral B])]⟩

/-- `let fact = fn(n) { if (n == 0) { 1 } else { n * fact(n - 1) } }; fact(5);` -/
def factProgram : ast.Program :=
  ⟨[LetStatement "fact" (FunctionLiteral ["n"] (.mk [ExpressionStatement
      (IfExpression (InfixExpression (Identifier "n") "==" (IntegerLiteral 0))
        (.mk [ExpressionStatement (IntegerLiteral 1)])
        (some (.mk [ExpressionStatement (InfixExpression (Identifier "n") "*"
          (CallExpression (Identifier "fact")
            [InfixExpression (Identifier "n") "-" (IntegerLiteral 1)]))])))])),
    ExpressionStatement (CallExpression (Identifier "fact") [IntegerLiteral 5])]⟩

/-- `let one = 1; let two = 2; one + two;` -/
def oneTwoProgram : ast.Program :=
  ⟨[LetStatement "one" (IntegerLiteral 1), LetStatement "two" (IntegerLiteral 2),
    ExpressionStatement (InfixExpression (Identifier "one") "+" (Identifier "two"))]⟩

/-- `let one = 1; let two = 2;` -/
def oneTwoDefinitions : ast.Program :=
  ⟨[LetStatement "one" (IntegerLiteral 1), LetStatement "two" (IntegerLiteral 2)]⟩

/-- `one + two;` -/
def oneTwoSum : ast.Program :=
  ⟨[ExpressionStatement (InfixExpression (Identifier "one") "+" (Identifier "two"))]⟩

/-- `name;` -/
def readProgram (name : GoString) : ast.Program :=
  ⟨[ExpressionStatement (Identifier name)]⟩

/-- `if (1 > 2) { 10 } else { 20 };` -/
def ifProgram : ast.Program :=
  ⟨[ExpressionStatement (IfExpression (InfixExpression (IntegerLiteral 1) ">" (IntegerLiteral 2))
      (.mk [ExpressionStatement (IntegerLiteral 10)])
      (some (.mk [ExpressionStatement (IntegerLiteral 20)])))]⟩

/-- `if (c) { x } else { y };` -/
def ifElseProgram : ast.Program :=
  ⟨[ExpressionStatement (IfExpression (Identifier "c")
      (.mk [ExpressionStatement (Identifier "x")])
      (some (.mk [ExpressionStatement (Identifier "y")])))]⟩

/-- `if (c) { x };` -/
def ifOnlyProgram : ast.Program :=
  ⟨[ExpressionStatement (IfExpression (Identifier "c")
      (.mk [ExpressionStatement (Identifier "x")]) none)]⟩

/-- A session in which the globals `c`, `x` and `y` (indices 0, 1, 2) hold the
given values, as left by earlier inputs. -/
def cxySession (c x y : object.Object) : repl.Session :=
  { constants := [],
    globals :=
      { len := vm.GlobalsSize.toNat,
        get := fun i => if i = 0 then c else if i = 1 then x else if i = 2 then y else .nil },
    symbolTable :=
      (((compiler.NewSymbolTable.Define "c").2.Define "x").2.Define "y").2,
    allocs := 0 }

/-- `let h = {"a": 1, "b": 2}; h["b"];` -/
def hashProgram : ast.Program :=
  ⟨[LetStatement "h"
      (HashLiteral [(StringLiteral "a", IntegerLiteral 1), (StringLiteral "b", IntegerLiteral 2)]),
    ExpressionStatement (IndexExpression (Identifier "h") (StringLiteral "b"))]⟩

/-- `let a = [10, 20, 30]; a[1] + a[2];` -/
def arrayProgram : ast.Program :=
  ⟨[LetStatement "a" (ArrayLiteral [IntegerLiteral 10, IntegerLiteral 20, IntegerLiteral 30]),
    ExpressionStatement (InfixExpression (IndexExpression (Identifier "a") (IntegerLiteral 1)) "+"
      (IndexExpression (Identifier "a") (IntegerLiteral 2)))]⟩

/-- `let h = {"aaqa3bfHCMd": 1}; h["kyrPegzburj"];` -/
def collisionProgram : ast.Program :=
  ⟨[LetStatement "h" (HashLiteral [(StringLiteral "aaqa3bfHCMd", IntegerLiteral 1)]),
    ExpressionStatement (IndexExpression (Identifier "h") (StringLiteral "kyrPegzburj"))]⟩

/-- `let h = {"aaqa3bfHCMd": 1, "kyrPegzburj": 2}; h["aaqa3bfHCMd"];` -/
def collisionOverwriteProgram : ast.Program :=
  ⟨[LetStatement "h" (HashLiteral [(StringLiteral "aaqa3bfHCMd", IntegerLiteral 1),
      (StringLiteral "kyrPegzburj", IntegerLiteral 2)]),
    ExpressionStatement (IndexExpression (Identifier "h") (StringLiteral "aaqa3bfHCMd"))]⟩

/-- `{"a": 1, "b": 2}["c"];` -/
def missingKeyProgram : ast.Program :=
  ⟨[ExpressionStatement (IndexExpression
      (HashLiteral [(StringLiteral "a", IntegerLiteral 1), (StringLiteral "b", IntegerLiteral 2)])
      (StringLiteral "c"))]⟩

/-- `A op B;` -/
def infixProgram (A : Int) (op : GoString) (B : Int) : ast.Program :=
  ⟨[ExpressionStatement (InfixExpression (IntegerLiteral A) op (IntegerLiteral B))]⟩

/-- `"a" op "b";` on two string literals. -/
def stringInfixProgram (a : GoString) (op : GoString) (b : GoString) : ast.Program :=
  ⟨[ExpressionStatement (InfixExpression (StringLiteral a) op (StringLiteral b))]⟩

/-- `[e0, e1, …][index];` for integer literals `e0`, `e1`, … -/
def indexProgram (elements : List Int) (index : ast.Expression) : ast.Program :=
  ⟨[ExpressionStatement (IndexExpression (ArrayLiteral (elements.map IntegerLiteral)) index)]⟩

/-- `1 + "a";` -/
def mixedInfixProgram : ast.Program :=
  ⟨[ExpressionStatement (InfixExpression (IntegerLiteral 1) "+" (StringLiteral "a"))]⟩

/-- A fresh VM on whose stack `left` and then `right` have been pushed. -/
def operandsVM (left right : object.Object) : vm.VM :=
  { vm.New ⟨[], []⟩ with
    stack := { len := 2048, get := fun i => if i = 0 then left else right },
    sp := 2 }

/-- `if (true) { undefinedVar };` -/
def ifUndefinedProgram : ast.Program :=
  ⟨[ExpressionStatement (IfExpression (Boolean true)
      (.mk [ExpressionStatement (Identifier "undefinedVar")]) none)]⟩

/-- `[1 <= 2];` with the operator `<=`, which the parser accepts and the compiler does not know. -/
def arrayUnknownOperatorProgram : ast.Program :=
  ⟨[ExpressionStatement (ArrayLiteral [InfixExpression (IntegerLiteral 1) "<=" (IntegerLiteral 2)])]⟩

/-- `fn(a, b) { if (true) { fn(x) { undefinedVar } } };` -/
def swallowedFunctionProgram : ast.Program :=
  ⟨[ExpressionStatement (FunctionLiteral ["a", "b"] (.mk [ExpressionStatement
      (IfExpression (Boolean true)
        (.mk [ExpressionStatement (FunctionLiteral ["x"]
          (.mk [ExpressionStatement (Identifier "undefinedVar")]))]) none)]))]⟩

/-- `fn(a, b) { let c = a; c + b };` -/
def localsFunctionProgram : ast.Program :=
  ⟨[ExpressionStatement (FunctionLiteral ["a", "b"] (.mk [
      LetStatement "c" (Identifier "a"),
      ExpressionStatement (InfixExpression (Identifier "c") "+" (Identifier "b"))]))]⟩

/-- `fn() { };` -/
def emptyFunctionProgram : ast.Program :=
  ⟨[ExpressionStatement (FunctionLiteral [] (.mk []))]⟩

/-- The hash literal `{1: true, 1: false}` with its pairs enumerated in source order. -/
def duplicateKeyHash : ast.Expression :=
  HashLiteral [(IntegerLiteral 1, Boolean true), (IntegerLiteral 1, Boolean false)]

/-- The same hash literal with its pairs enumerated in the other order. -/
def duplicateKeyHashReversed : ast.Expression :=
  HashLiteral [(IntegerLiteral 1, Boolean false), (IntegerLiteral 1, Boolean true)]

/-- What a compilation produced: the error or nil that `Compile` returned, the
instruction bytes of the current scope, and kind and content of the constants. -/
def compiled (node : ast.Node) (c : compiler.Compiler) :
    Except Err Unit × Except Err code.Instructions × List Value :=
  let r := compiler.Compile node c
  (r.1, (compiler.currentInstructions r.2).1, r.2.constants.map object.Object.value)

/-- `let f = fn(a) { a }; f(1, 2);` -/
def wrongArgumentCountProgram : ast.Program :=
  ⟨[LetStatement "f" (FunctionLiteral ["a"] (.mk [ExpressionStatement (Identifier "a")])),
    ExpressionStatement (CallExpression (Identifier "f") [IntegerLiteral 1, IntegerLiteral 2])]⟩

/-- `1(2);` -/
def callIntegerProgram : ast.Program :=
  ⟨[ExpressionStatement (CallExpression (IntegerLiteral 1) [IntegerLiteral 2])]⟩

/-- `{key: 1};` -/
def hashKeyProgram (key : ast.Expression) : ast.Program :=
  ⟨[ExpressionStatement (HashLiteral [(key, IntegerLiteral 1)])]⟩

/-- `{1: 2}[index];` -/
def hashIndexProgram (index : ast.Expression) : ast.Program :=
  ⟨[ExpressionStatement (IndexExpression (HashLiteral [(IntegerLiteral 1, IntegerLiteral 2)])
      index)]⟩

/-- `[1 < 2];` -/
def arrayLessProgram : ast.Program :=
  ⟨[ExpressionStatement (ArrayLiteral [InfixExpression (IntegerLiteral 1) "<" (IntegerLiteral 2)])]⟩

/-- `let f = fn() { if (false) { undefinedVar } }; f();` -/
def abandonedFrameProgram : ast.Program :=
  ⟨[LetStatement "f" (FunctionLiteral [] (.mk [ExpressionStatement (IfExpression (Boolean false)
      (.mk [ExpressionStatement (Identifier "undefinedVar")]) none)])),
    ExpressionStatement (CallExpression (Identifier "f") [])]⟩

/-- `if (true) { };` -/
def emptyIfProgram : ast.Program :=
  ⟨[ExpressionStatement (IfExpression (Boolean true) (.mk []) none)]⟩

/-- `let f = fn() { if (true) { }; if (true) { }; if (true) { } }; [4, 5, f()][index];` -/
def clobberedSlotProgram (index : Int) : ast.Program :=
  ⟨[LetStatement "f" (FunctionLiteral [] (.mk [
      ExpressionStatement (IfExpression (Boolean true) (.mk []) none),
      ExpressionStatement (IfExpression (Boolean true) (.mk []) none),
      ExpressionStatement (IfExpression (Boolean true) (.mk []) none)])),
    ExpressionStatement (IndexExpression
      (ArrayLiteral [IntegerLiteral 4, IntegerLiteral 5, CallExpression (Identifier "f") []])
      (IntegerLiteral index))]⟩

/-- `if (false) { let a = 1; }; last;` for an expression `last`. -/
def unassignedGlobalProgram (last : ast.Expression) : ast.Program :=
  ⟨[ExpressionStatement (IfExpression (Boolean false) (.mk [LetStatement "a" (IntegerLiteral 1)])
      none),
    ExpressionStatement last]⟩

/-- `left op right;` on two boolean literals. -/
def booleanInfixProgram (left : Bool) (op : GoString) (right : Bool) : ast.Program :=
  ⟨[ExpressionStatement (InfixExpression (Boolean left) op (Boolean right))]⟩

/-- `!!b;` -/
def doubleBangProgram (b : Bool) : ast.Program :=
  ⟨[ExpressionStatement (PrefixExpression "!" (PrefixExpression "!" (Boolean b)))]⟩

/-- `!operand;` -/
def bangProgram (operand : ast.Expression) : ast.Program :=
  ⟨[ExpressionStatement (PrefixExpression "!" operand)]⟩

/-- `return 1;` -/
def topLevelReturnProgram : ast.Program :=
  ⟨[ReturnStatement (IntegerLiteral 1)]⟩

/-- `push(container, key, value)[index];` -/
def pushHashIndexProgram (container key value index : ast.Expression) : ast.Program :=
  ⟨[ExpressionStatement (IndexExpression
      (CallExpression (Identifier "push") [container, key, value]) index)]⟩

/-- `let a = [1, 2]; let b = push(a, 3); last;` for an expression `last`. -/
def pushArrayProgram (last : ast.Expression) : ast.Program :=
  ⟨[LetStatement "a" (ArrayLiteral [IntegerLiteral 1, IntegerLiteral 2]),
    LetStatement "b" (CallExpression (Identifier "push") [Identifier "a", IntegerLiteral 3]),
    ExpressionStatement last]⟩

/-- `push(arguments…);` -/
def pushCallProgram (arguments : List ast.Expression) : ast.Program :=
  ⟨[ExpressionStatement (CallExpression (Identifier "push") arguments)]⟩

/-- The pipeline on fresh state (`compiler.New()`, `Compile`, `Bytecode()`,
`vm.New`, `Run`): what `Compile` or `Run` returned, with the stack pointer and
the number of live frames when `Run` returned. -/
def runFresh (fuel : Nat) (program : ast.Program) : Option (Except Err Unit × Int × Int) :=
  match compiler.Compile (.Program program) compiler.New with
  | (.error e, _) => some (.error e, 0, 0)
  | (.ok (), comp) =>
    match compiler.Compiler.Bytecode comp with
    | (.error e, _) => some (.error e, 0, 0)
    | (.ok bytecode, _) =>
      match vm.Run fuel (vm.New bytecode) with
      | none => none
      | some (r, machine) => some (r, machine.sp, machine.framesIndex)

/-- A VM with the frames `frames` on whose stack the values `below` and then
`top` have been pushed (slots 0 … `below.length`). -/
def stackVM (frames : List vm.Frame) (below : List object.Object) (top : object.Object) : vm.VM :=
  { vm.New ⟨[], []⟩ with
    stack := { len := 2048, get := fun i => below.getD i top },
    sp := below.length + 1,
    frames := frames }

/-- Whether a value is an Error. -/
def isError : object.Object → Bool
  | .Error _ _ => true
  | _ => false

/-- Whether a value is an Array. -/
def isArray : object.Object → Bool
  | .Array _ _ => true
  | _ => false

/-- Whether a value is a Hash. -/
def isHash : object.Object → Bool
  | .Hash _ _ => true
  | _ => false

/-- The cases in which the builtin `push` is specified to return an Error:
the number of arguments is neither 2 nor 3; the first argument is an Array
and there are not exactly 2 arguments; the first argument is a Hash and there
are not exactly 3 arguments; the first argument is neither an Array nor a
Hash. -/
def pushErrorCase (args : List object.Object) : Bool :=
  (args.length != 2 && args.length != 3) ||
  (match args.head? with
   | some first =>
     (isArray first && args.length != 2) || (isHash first && args.length != 3) ||
       (!isArray first && !isHash first)
   | none => false)

/-- The compiled functions among the constants that a compilation left. -/
def compiledFunctions (node : ast.Node) (c : compiler.Compiler) : List object.CompiledFunction :=
  (compiler.Compile node c).2.constants.filterMap fun o =>
    match o with
    | .CompiledFunction _ fn => some fn
    | _ => none

/-- A call on a symbol table: `Define(name)` or `DefineBuiltin(index, name)`. -/
inductive TableCall where
  | Define (name : GoString)
  | DefineBuiltin (index : Int) (name : GoString)

/-- The table after a sequence of calls. -/
def afterCalls (s : compiler.SymbolTable) : List TableCall → compiler.SymbolTable
  | [] => s
  | .Define name :: rest => afterCalls (s.Define name).2 rest
  | .DefineBuiltin index name :: rest => afterCalls (s.DefineBuiltin index name).2 rest

/-- The number of `Define` calls in a sequence of calls. -/
def countDefine : List TableCall → Nat
  | [] => 0
  | .Define _ :: rest => countDefine rest + 1
  | .DefineBuiltin _ _ :: rest => countDefine rest

/-- The tables of the `Outer` chain of a table, innermost first. -/
def chain : compiler.SymbolTable → List compiler.SymbolTable
  | .mk none store n => [.mk none store n]
  | .mk (some o) store n => .mk (some o) store n :: chain o

/-- The last pair of `pairs` whose key has the hash key `k`. -/
def lastWithHashKey (pairs : List (object.Object × object.Object)) (k : object.HashKey) :
    Option (object.Object × object.Object) :=
  pairs.reverse.find? (fun p => p.1.HashKey = some k)

/-- A stack that holds the keys and values of `pairs` from slot `start` on:
key, value, key, value, … -/
def holdsPairs (stack : Slice object.Object) (start : Nat) :
    List (object.Object × object.Object) → Prop
  | [] => True
  | p :: rest =>
    stack.get start = p.1 ∧ stack.get (start + 1) = p.2 ∧ holdsPairs stack (start + 2) rest

/-- The specification of `isCompleteInput` in the words of the claim: reading
the input from left to right, every closing brace closes an earlier brace
that is still open, every closing parenthesis an earlier parenthesis that is
still open (`braces` and `parens` count the open ones), and none is left open
at the end. -/
def balancedFrom : List Char → Nat → Nat → Bool
  | [], braces, parens => braces == 0 && parens == 0
  | char :: rest, braces, parens =>
    if char = Char.ofNat 123 then balancedFrom rest (braces + 1) parens
    else if char = Char.ofNat 125 then
      (if braces = 0 then false else balancedFrom rest (braces - 1) parens)
    else if char = Char.ofNat 40 then balancedFrom rest braces (parens + 1)
    else if char = Char.ofNat 41 then
      (if parens = 0 then false else balancedFrom rest braces (parens - 1))
    else balancedFrom rest braces parens

/-- The braces and the parentheses of `input` are balanced. -/
def balanced (input : GoString) : Bool := balancedFrom input.toList 0 0

/-- `if (true) { 10 }; 3333;` -/
def ifThenProgram : ast.Program :=
  ⟨[ExpressionStatement (IfExpression (Boolean true)
      (.mk [ExpressionStatement (IntegerLiteral 10)]) none),
    ExpressionStatement (IntegerLiteral 3333)]⟩

/-- `if (true) { [fn() { undefinedVar }] };` -/
def ifFunctionErrorProgram : ast.Program :=
  ⟨[ExpressionStatement (IfExpression (Boolean true)
      (.mk [ExpressionStatement (ArrayLiteral [FunctionLiteral []
        (.mk [ExpressionStatement (Identifier "undefinedVar")])])]) none)]⟩

/-- `[fn() { undefinedVar }];` -/
def arrayFunctionErrorProgram : ast.Program :=
  ⟨[ExpressionStatement (ArrayLiteral [FunctionLiteral []
      (.mk [ExpressionStatement (Identifier "undefinedVar")])])]⟩

/-- `if (true) { 1 } else { let a = 1; undefinedVar };` -/
def failingElseProgram : ast.Program :=
  ⟨[ExpressionStatement (IfExpression (Boolean true)
      (.mk [ExpressionStatement (IntegerLiteral 1)])
      (some (.mk [LetStatement "a" (IntegerLiteral 1),
        ExpressionStatement (Identifier "undefinedVar")])))]⟩

/-- The pipeline on fresh state as in `runFresh`; the result is the `ip` of
every live frame when `Run` returned, innermost frame first. -/
def frameIps (fuel : Nat) (program : ast.Program) : Option (List Int) :=
  match compiler.Compile (.Program program) compiler.New with
  | (.error _, _) => some []
  | (.ok (), comp) =>
    match compiler.Compiler.Bytecode comp with
    | (.error _, _) => some []
    | (.ok bytecode, _) =>
      match vm.Run fuel (vm.New bytecode) with
      | none => none
      | some (_, machine) => some (machine.frames.map fun f => f.ip)

/-- `let name = value;` -/
def letProgram (name : GoString) (value : Int) : ast.Program :=
  ⟨[LetStatement name (IntegerLiteral value)]⟩

/-- An action of the compiler only appends to the constant pool: in every
state, the pool before the action is a prefix of the pool after it, whether
the action fails or not. -/
def appendsConstants {α : Type} (m : GoM compiler.Compiler α) : Prop :=
  ∀ c, c.constants <+: (m c).2.constants

/-- The compiler `c` with `sc` as the content of its current compilation scope
(`c.scopes[c.scopeIndex]`). -/
def withScope (c : compiler.Compiler) (sc : compiler.CompilationScope) : compiler.Compiler :=
  { c with scopes := c.scopes.set c.scopeIndex.toNat sc }

/-- The bytes `emitted` by a branch of an `if` as the `IfExpression` case
leaves them: without their last byte when the last instruction recorded in
the scope `sc` is an `OpPop`. -/
def withoutFinalPop (sc : compiler.CompilationScope) (emitted : List Nat) : List Nat :=
  if sc.lastInstruction.Opcode = code.OpPop then emitted.dropLast else emitted

/-- The record of the last instruction after the `IfExpression` case has
looked for a final `OpPop` in the scope `sc`. -/
def lastWithoutFinalPop (sc : compiler.CompilationScope) : compiler.EmittedInstruction :=
  if sc.lastInstruction.Opcode = code.OpPop then sc.previousInstruction else sc.lastInstruction

/-- The byte offset of the first instruction after the `OpJump` that ends the
consequence of an `if`: the instructions before the `if` and those of the
condition (`before`), the three bytes of `OpJumpNotTruthy`, the consequence
and the three bytes of `OpJump`. -/
def afterConsequence (before consequence : List Nat) : Nat :=
  before.length + 3 + consequence.length + 3

/-- The two operand bytes that `Make` writes for a 2-byte operand `n ≥ 0`:
the big-endian bytes of `n` modulo 65536. -/
def operandBytes (n : Nat) : List Nat := [n / 256 % 256, n % 256]

/-- `v;` -/
def integerStatementProgram (v : Int) : ast.Program :=
  ⟨[ExpressionStatement (IntegerLiteral v)]⟩

/-- `let name = true;` or `let name = false;` -/
def letBooleanProgram (name : GoString) (b : Bool) : ast.Program :=
  ⟨[LetStatement name (Boolean b)]⟩

/-- The statements `let name = b;` for the pairs of a list, in order. -/
def letBooleans (ds : List (GoString × Bool)) : ast.Program :=
  ⟨ds.map (fun d => LetStatement d.1 (Boolean d.2))⟩

/-- The program `let g = true;` followed by `n` statements `let x = false;`. -/
def manyGlobalsProgram (n : Nat) : ast.Program :=
  letBooleans (("g", true) :: List.replicate n ("x", false))

/-- The bytes of `let … = b;` for a global with index `i`: `OpTrue` or
`OpFalse`, then `OpSetGlobal` with the two low bytes of `i`. -/
def letBooleanCode (i : Nat) (b : Bool) : List Nat :=
  (if b then 6 else 7) :: 17 :: operandBytes i

/-- The bytes of the statements `let … = b;` for the globals with the indices
`i`, `i + 1`, … -/
def letBooleansCode : Nat → List Bool → List Nat
  | _, [] => []
  | i, b :: bs => letBooleanCode i b ++ letBooleansCode (i + 1) bs

/-- The content of slot `j` of the globals store after the values `bs` have
been stored for the globals with the indices `i`, `i + 1`, …, when the slot
held `old` before: each store goes to the slot that the two operand bytes of
`OpSetGlobal` name, the index modulo 65536. -/
def storedValue : Nat → List Bool → object.Object → Nat → object.Object
  | _, [], old, _ => old
  | i, b :: bs, old, j =>
    storedValue (i + 1) bs (if j = i % 65536 then object.Object.Boolean b else old) j

/-- The program of `n` statements `1;` followed by the statement `v;`. -/
def manyConstantsProgram (n : Nat) (v : Int) : ast.Program :=
  ⟨List.replicate n (ExpressionStatement (IntegerLiteral 1)) ++
    [ExpressionStatement (IntegerLiteral v)]⟩

end scenarios

/-! ## Theorems -/

namespace code

theorem definitions_none_of_ge (op : Nat) (h : 27 ≤ op) : definitions op = none := by
  have hne : ∀ k : Nat, k < 27 → (op == k) = false := by
    intro k hk
    simp only [beq_eq_false_iff_ne, ne_eq]
    omega
  simp [definitions, definitionsTable, List.lookup, OpConstant, OpAdd, OpPop, OpSub, OpMul, OpDiv,
    OpTrue, OpFalse, OpEqual, OpNotEqual, OpGreaterThan, OpMinus, OpBang, OpJumpNotTruthy, OpJump,
    OpNull, OpGetGlobal, OpSetGlobal, OpGetLocal, OpSetLocal, OpArray, OpHash, OpIndex, OpCall,
    OpReturnValue, OpReturn, OpGetBuiltin, hne]

theorem definitions_some_lt (op : Nat) (d : Definition) (h : definitions op = some d) :
    op < 27 := by
  by_contra hc
  rw [definitions_none_of_ge op (by omega)] at h
  cases h

theorem Lookup_ok_iff (op : Nat) (d : Definition) :
    Lookup op = .ok d ↔ definitions op = some d := by
  unfold Lookup
  cases definitions op with
  | none => simp
  | some d2 => simp

/-- Every entry of the table has no operand, one 1-byte operand or one 2-byte operand. -/
theorem widths_cases (op : Nat) (d : Definition) (h : definitions op = some d) :
    d.OperandWidths = [] ∨ d.OperandWidths = [1] ∨ d.OperandWidths = [2] := by
  have hlt := definitions_some_lt op d h
  have key : ∀ k : Fin 27, ∀ d ∈ definitions k.val,
      d.OperandWidths = [] ∨ d.OperandWidths = [1] ∨ d.OperandWidths = [2] := by decide
  exact key ⟨op, hlt⟩ _ h

theorem make_nil (op : Nat) (name : String) (hdef : definitions op = some ⟨name, []⟩) :
    Make op [] = .ok [op % 256] := by
  simp [Make, hdef, makeLoop]

theorem make_two (op : Nat) (name : String) (o : Int)
    (hdef : definitions op = some ⟨name, [2]⟩) (h0 : 0 ≤ o) (h1 : o < 65536) :
    Make op [o] = .ok [op % 256, o.toNat / 256, o.toNat % 256] := by
  lift o to ℕ using h0
  have h2 : o < 65536 := by exact_mod_cast h1
  have h3 : ((o : Int) % 65536).toNat = o := by omega
  have h4 : o / 256 % 256 = o / 256 := by omega
  simp [Make, hdef, makeLoop, PutUint16, uint16, h3, h4]

theorem make_one (op : Nat) (name : String) (o : Int)
    (hdef : definitions op = some ⟨name, [1]⟩) (h0 : 0 ≤ o) (h1 : o < 256) :
    Make op [o] = .ok [op % 256, o.toNat] := by
  lift o to ℕ using h0
  have h2 : o < 256 := by exact_mod_cast h1
  have h3 : ((o : Int) % 256).toNat = o := by omega
  simp [Make, hdef, makeLoop, setByte, byte, h3]

theorem read_two (name : String) (o : Int) (h0 : 0 ≤ o) (h1 : o < 65536) :
    ReadOperands ⟨name, [2]⟩ [o.toNat / 256, o.toNat % 256] = .ok ([o], 2) := by
  lift o to ℕ using h0
  have h2 : o < 65536 := by exact_mod_cast h1
  simp [ReadOperands, readLoop, sliceFrom, ReadUint16]
  omega

theorem read_one (name : String) (o : Int) (h0 : 0 ≤ o) (h1 : o < 256) :
    ReadOperands ⟨name, [1]⟩ [o.toNat] = .ok ([o], 1) := by
  lift o to ℕ using h0
  have h2 : o < 256 := by exact_mod_cast h1
  simp [ReadOperands, readLoop, sliceFrom, ReadUint8]
  omega

/-- C7: for every opcode of the definition table and every operand list that
matches the opcode's operand widths in number and range, decoding the bytes
that `Make` produced after the opcode byte gives back the operands and the
sum of the widths. -/
theorem ReadOperands_Make_roundtrip (op : Nat) (d : Definition) (operands : List Int)
    (hdef : Lookup op = .ok d)
    (hlen : operands.length = d.OperandWidths.length)
    (hrange : ∀ (i : Nat) (o : Int) (w : Nat), operands[i]? = some o →
      d.OperandWidths[i]? = some w → 0 ≤ o ∧ o < 256 ^ w) :
    ∃ bytes, Make op operands = .ok bytes ∧
      ReadOperands d (bytes.drop 1) = .ok (operands, d.OperandWidths.sum) := by
  rw [Lookup_ok_iff] at hdef
  obtain ⟨name, widths⟩ := d
  rcases widths_cases op _ hdef with hw | hw | hw <;> simp only at hw <;> subst hw
  · obtain rfl : operands = [] := List.length_eq_zero.mp hlen
    exact ⟨_, make_nil op name hdef, by simp [ReadOperands, readLoop]⟩
  · obtain ⟨o, rfl⟩ := List.length_eq_one.mp hlen
    have hr := hrange 0 o 1 rfl rfl
    have h1 : o < 256 := by simpa using hr.2
    exact ⟨_, make_one op name o hdef hr.1 h1, by simpa using read_one name o hr.1 h1⟩
  · obtain ⟨o, rfl⟩ := List.length_eq_one.mp hlen
    have hr := hrange 0 o 2 rfl rfl
    have h1 : o < 65536 := by simpa using hr.2
    exact ⟨_, make_two op name o hdef hr.1 h1, by simpa using read_two name o hr.1 h1⟩

/-- Witness of C7 at `OpConstant` with operand 65534. -/
theorem ReadOperands_Make_roundtrip_witness :
    ∃ bytes, Make OpConstant [65534] = .ok bytes ∧
      ReadOperands ⟨"OpConstant", [2]⟩ (bytes.drop 1) = .ok ([65534], 2) :=
  ReadOperands_Make_roundtrip OpConstant ⟨"OpConstant", [2]⟩ [65534] (by decide) (by decide)
    (by
      intro i o w ho hw
      cases i with
      | zero =>
        simp at ho hw
        subst ho hw
        decide
      | succ n => simp at ho)

/-- C8: for every defined opcode and operand list matching its widths, `Make`
returns `1 + Σ widths` bytes: the opcode byte, then the operands in order, a
2-byte operand big-endian (high byte first), a 1-byte operand as one byte;
`Make(OpConstant, 65534) = [OpConstant, 255, 254]` and
`Make(OpGetLocal, 255) = [OpGetLocal, 255]`. -/
theorem Make_layout (op : Nat) (d : Definition) (operands : List Int)
    (hdef : Lookup op = .ok d)
    (hlen : operands.length = d.OperandWidths.length)
    (hrange : ∀ (i : Nat) (o : Int) (w : Nat), operands[i]? = some o →
      d.OperandWidths[i]? = some w → 0 ≤ o ∧ o < 256 ^ w) :
    (∃ bytes, Make op operands = .ok bytes ∧
      bytes.length = 1 + d.OperandWidths.sum ∧
      bytes = op :: encodeOperands d.OperandWidths operands) ∧
    Make OpConstant [65534] = .ok [OpConstant, 255, 254] ∧
    Make OpGetLocal [255] = .ok [OpGetLocal, 255] := by
  refine ⟨?_, by decide, by decide⟩
  rw [Lookup_ok_iff] at hdef
  obtain ⟨name, widths⟩ := d
  have hop : op % 256 = op := by
    have := definitions_some_lt op _ hdef
    omega
  rcases widths_cases op _ hdef with hw | hw | hw <;> simp only at hw <;> subst hw
  · obtain rfl : operands = [] := List.length_eq_zero.mp hlen
    exact ⟨_, make_nil op name hdef, by simp, by simp [encodeOperands, hop]⟩
  · obtain ⟨o, rfl⟩ := List.length_eq_one.mp hlen
    have hr := hrange 0 o 1 rfl rfl
    have h1 : o < 256 := by simpa using hr.2
    exact ⟨_, make_one op name o hdef hr.1 h1, by simp,
      by simp [encodeOperands, bigEndian, hop]⟩
  · obtain ⟨o, rfl⟩ := List.length_eq_one.mp hlen
    have hr := hrange 0 o 2 rfl rfl
    have h1 : o < 65536 := by simpa using hr.2
    exact ⟨_, make_two op name o hdef hr.1 h1, by simp,
      by simp [encodeOperands, bigEndian, hop]⟩

/-- Witness of C8 at `OpCall` with operand 2. -/
theorem Make_layout_witness :
    (∃ bytes, Make OpCall [2] = .ok bytes ∧
      bytes.length = 1 + [1].sum ∧
      bytes = OpCall :: encodeOperands [1] [2]) ∧
    Make OpConstant [65534] = .ok [OpConstant, 255, 254] ∧
    Make OpGetLocal [255] = .ok [OpGetLocal, 255] :=
  Make_layout OpCall ⟨"OpCall", [1]⟩ [2] (by decide) (by decide)
    (by
      intro i o w ho hw
      cases i with
      | zero =>
        simp at ho hw
        subst ho hw
        decide
      | succ n => simp at ho)

/-- C9, as the claim states it, fails: in the order of the spec's table
`OpSub` would be 2 and `OpPop` 5, but the const block gives `OpPop = 2`. -/
theorem opcode_spec_order_counterexample :
    ¬ (OpConstant = 0 ∧ OpAdd = 1 ∧ OpSub = 2 ∧ OpMul = 3 ∧ OpDiv = 4 ∧ OpPop = 5 ∧
      OpTrue = 6 ∧ OpFalse = 7 ∧ OpNull = 8 ∧ OpEqual = 9 ∧ OpNotEqual = 10 ∧
      OpGreaterThan = 11 ∧ OpMinus = 12 ∧ OpBang = 13 ∧ OpJumpNotTruthy = 14 ∧ OpJump = 15 ∧
      OpGetGlobal = 16 ∧ OpSetGlobal = 17 ∧ OpArray = 18 ∧ OpHash = 19 ∧ OpIndex = 20 ∧
      OpCall = 21 ∧ OpReturnValue = 22 ∧ OpReturn = 23 ∧ OpSetLocal = 24 ∧ OpGetLocal = 25 ∧
      OpGetBuiltin = 26) := by
  decide

/-- C9 (amended): the opcode byte values are assigned in the order of the
const block of the package `code`, starting at 0. -/
theorem opcode_values :
    OpConstant = 0 ∧ OpAdd = 1 ∧ OpPop = 2 ∧ OpSub = 3 ∧ OpMul = 4 ∧ OpDiv = 5 ∧
    OpTrue = 6 ∧ OpFalse = 7 ∧ OpEqual = 8 ∧ OpNotEqual = 9 ∧ OpGreaterThan = 10 ∧
    OpMinus = 11 ∧ OpBang = 12 ∧ OpJumpNotTruthy = 13 ∧ OpJump = 14 ∧ OpNull = 15 ∧
    OpGetGlobal = 16 ∧ OpSetGlobal = 17 ∧ OpGetLocal = 18 ∧ OpSetLocal = 19 ∧ OpArray = 20 ∧
    OpHash = 21 ∧ OpIndex = 22 ∧ OpCall = 23 ∧ OpReturnValue = 24 ∧ OpReturn = 25 ∧
    OpGetBuiltin = 26 := by
  decide

/-- C10: `Lookup` succeeds exactly on the 27 opcodes; the table gives one
2-byte operand to `OpConstant`, `OpJumpNotTruthy`, `OpJump`, `OpGetGlobal`,
`OpSetGlobal`, `OpArray` and `OpHash`, one 1-byte operand to `OpCall`,
`OpSetLocal`, `OpGetLocal` and `OpGetBuiltin`, and no operand to every other
opcode. -/
theorem definitions_table_complete :
    allOpcodes.length = 27 ∧ allOpcodes.Nodup ∧
    (∀ b : Nat, (∃ d, Lookup b = .ok d) ↔ b ∈ allOpcodes) ∧
    (∀ op ∈ allOpcodes, ∀ d, Lookup op = .ok d →
      d.OperandWidths =
        if op ∈ [OpConstant, OpJumpNotTruthy, OpJump, OpGetGlobal, OpSetGlobal, OpArray, OpHash]
        then [2]
        else if op ∈ [OpCall, OpSetLocal, OpGetLocal, OpGetBuiltin] then [1]
        else []) := by
  refine ⟨by decide, by decide, ?_, ?_⟩
  · intro b
    by_cases hb : b < 27
    · have key : ∀ k : Fin 27, (definitions k.val).isSome = true ∧ k.val ∈ allOpcodes := by
        decide
      have hk := key ⟨b, hb⟩
      constructor
      · intro _
        exact hk.2
      · intro _
        obtain ⟨d, hd⟩ := Option.isSome_iff_exists.mp hk.1
        exact ⟨d, (Lookup_ok_iff b d).mpr hd⟩
    · constructor
      · rintro ⟨d, hd⟩
        exact absurd (definitions_some_lt b d ((Lookup_ok_iff b d).mp hd)) hb
      · intro hmem
        have hall : ∀ x ∈ allOpcodes, x < 27 := by decide
        exact absurd (hall b hmem) hb
  · intro op _ d hd
    rw [Lookup_ok_iff] at hd
    have hlt := definitions_some_lt op d hd
    have key : ∀ k : Fin 27, ∀ d ∈ definitions k.val,
        d.OperandWidths =
          if k.val ∈ [OpConstant, OpJumpNotTruthy, OpJump, OpGetGlobal, OpSetGlobal, OpArray,
            OpHash]
          then [2]
          else if k.val ∈ [OpCall, OpSetLocal, OpGetLocal, OpGetBuiltin] then [1]
          else [] := by
      decide
    exact key ⟨op, hlt⟩ d hd

end code

namespace vm

/-! ### The `Run` loop, one opcode at a time

Each lemma selects the `case` of the `switch` in `Run` for one opcode. -/

theorem execute_OpConstant (ins : code.Instructions) (ip : Int) :
    execute code.OpConstant ins ip = (do
    let constIndex ← GoM.lift (readUint16At ins ip)
    advance 2
    let vm ← GoM.get
    push (← GoM.lift (indexInt vm.constants constIndex))) := by
  simp [execute]

theorem execute_OpAdd (ins : code.Instructions) (ip : Int) :
    execute code.OpAdd ins ip = (do
    executeBinaryOperation code.OpAdd) := by
  simp [execute]

theorem execute_OpSub (ins : code.Instructions) (ip : Int) :
    execute code.OpSub ins ip = (do
    executeBinaryOperation code.OpSub) := by
  simp [execute]

theorem execute_OpMul (ins : code.Instructions) (ip : Int) :
    execute code.OpMul ins ip = (do
    executeBinaryOperation code.OpMul) := by
  simp [execute]

theorem execute_OpDiv (ins : code.Instructions) (ip : Int) :
    execute code.OpDiv ins ip = (do
    executeBinaryOperation code.OpDiv) := by
  simp [execute]

theorem execute_OpPop (ins : code.Instructions) (ip : Int) :
    execute code.OpPop ins ip = (do
    let _ ← pop) := by
  simp [execute]

theorem execute_OpTrue (ins : code.Instructions) (ip : Int) :
    execute code.OpTrue ins ip = (do
    push True) := by
  simp [execute]

theorem execute_OpFalse (ins : code.Instructions) (ip : Int) :
    execute code.OpFalse ins ip = (do
    push False) := by
  simp [execute]

theorem execute_OpEqual (ins : code.Instructions) (ip : Int) :
    execute code.OpEqual ins ip = (do
    executeComparison code.OpEqual) := by
  simp [execute]

theorem execute_OpNotEqual (ins : code.Instructions) (ip : Int) :
    execute code.OpNotEqual ins ip = (do
    executeComparison code.OpNotEqual) := by
  simp [execute]

theorem execute_OpGreaterThan (ins : code.Instructions) (ip : Int) :
    execute code.OpGreaterThan ins ip = (do
    executeComparison code.OpGreaterThan) := by
  simp [execute]

theorem execute_OpBang (ins : code.Instructions) (ip : Int) :
    execute code.OpBang ins ip = (do
    executeBangOperator) := by
  simp [execute]

theorem execute_OpMinus (ins : code.Instructions) (ip : Int) :
    execute code.OpMinus ins ip = (do
    executeMinusOperator) := by
  simp [execute]

theorem execute_OpJump (ins : code.Instructions) (ip : Int) :
    execute code.OpJump ins ip = (do
    let pos ← GoM.lift (readUint16At ins ip)
    let f ← currentFrame
    setCurrentFrame { f with ip := pos - 1 }) := by
  simp [execute]

theorem execute_OpJumpNotTruthy (ins : code.Instructions) (ip : Int) :
    execute code.OpJumpNotTruthy ins ip = (do
    let pos ← GoM.lift (readUint16At ins ip)
    advance 2
    let condition ← pop
    if !isTruthy condition then
      let f ← currentFrame
      setCurrentFrame { f with ip := pos - 1 }) := by
  simp [execute]

theorem execute_OpNull (ins : code.Instructions) (ip : Int) :
    execute code.OpNull ins ip = (do
    push Null) := by
  simp [execute]

theorem execute_OpSetGlobal (ins : code.Instructions) (ip : Int) :
    execute code.OpSetGlobal ins ip = (do
    let globalIndex ← GoM.lift (readUint16At ins ip)
    advance 2
    let v ← pop
    let vm ← GoM.get
    let globals ← GoM.lift (vm.globals.setIndex globalIndex v)
    GoM.set { vm with globals := globals }) := by
  simp [execute]

theorem execute_OpGetGlobal (ins : code.Instructions) (ip : Int) :
    execute code.OpGetGlobal ins ip = (do
    let globalIndex ← GoM.lift (readUint16At ins ip)
    advance 2
    let vm ← GoM.get
    push (← GoM.lift (vm.globals.index globalIndex))) := by
  simp [execute]

theorem execute_OpArray (ins : code.Instructions) (ip : Int) :
    execute code.OpArray ins ip = (do
    let numElements ← GoM.lift (readUint16At ins ip)
    advance 2
    let vm ← GoM.get
    let array ← buildArray (vm.sp - numElements) vm.sp
    GoM.modify (fun vm => { vm with sp := vm.sp - numElements })
    push array) := by
  simp [execute]

theorem execute_OpHash (ins : code.Instructions) (ip : Int) :
    execute code.OpHash ins ip = (do
    let numElements ← GoM.lift (readUint16At ins ip)
    advance 2
    let vm ← GoM.get
    let hash ← buildHash (vm.sp - numElements) vm.sp
    GoM.modify (fun vm => { vm with sp := vm.sp - numElements })
    push hash) := by
  simp [execute]

theorem execute_OpIndex (ins : code.Instructions) (ip : Int) :
    execute code.OpIndex ins ip = (do
    let index ← pop
    let left ← pop
    executeIndexExpression left index) := by
  simp [execute]

theorem execute_OpCall (ins : code.Instructions) (ip : Int) :
    execute code.OpCall ins ip = (do
    let numArgs ← GoM.lift (readUint8At ins ip)
    advance 1
    executeCall numArgs) := by
  simp [execute]

theorem execute_OpReturnValue (ins : code.Instructions) (ip : Int) :
    execute code.OpReturnValue ins ip = (do
    let returnValue ← pop
    let frame ← popFrame
    GoM.modify (fun vm => { vm with sp := frame.basePointer - 1 })
    push returnValue) := by
  simp [execute]

theorem execute_OpReturn (ins : code.Instructions) (ip : Int) :
    execute code.OpReturn ins ip = (do
    let frame ← popFrame
    GoM.modify (fun vm => { vm with sp := frame.basePointer - 1 })
    push Null) := by
  simp [execute]

theorem execute_OpSetLocal (ins : code.Instructions) (ip : Int) :
    execute code.OpSetLocal ins ip = (do
    let localIndex ← GoM.lift (readUint8At ins ip)
    advance 1
    let frame ← currentFrame
    let v ← pop
    let vm ← GoM.get
    let stack ← GoM.lift (vm.stack.setIndex (frame.basePointer + localIndex) v)
    GoM.set { vm with stack := stack }) := by
  simp [execute]

theorem execute_OpGetLocal (ins : code.Instructions) (ip : Int) :
    execute code.OpGetLocal ins ip = (do
    let localIndex ← GoM.lift (readUint8At ins ip)
    advance 1
    let frame ← currentFrame
    let vm ← GoM.get
    push (← GoM.lift (vm.stack.index (frame.basePointer + localIndex)))) := by
  simp [execute]

theorem execute_OpGetBuiltin (ins : code.Instructions) (ip : Int) :
    execute code.OpGetBuiltin ins ip = (do
    let builtinIndex ← GoM.lift (readUint8At ins ip)
    advance 1
    match object.Builtins[builtinIndex.toNat]? with
    | none => GoM.fail (.panic "index out of range")
    | some _ => push (.Builtin builtinIndex.toNat)) := by
  simp [execute]

end vm

namespace compiler

theorem Define_fst (s : SymbolTable) (name : GoString) :
    (s.Define name).1 =
      { Name := name, Index := s.numDefinitions,
        Scope := if s.Outer.isNone then GlobalScope else LocalScope } := rfl

theorem Define_numDefinitions (s : SymbolTable) (name : GoString) :
    (s.Define name).2.numDefinitions = s.numDefinitions + 1 := by
  cases s; simp [SymbolTable.Define, SymbolTable.numDefinitions]

theorem Define_Outer (s : SymbolTable) (name : GoString) :
    (s.Define name).2.Outer = s.Outer := by
  cases s; simp [SymbolTable.Define, SymbolTable.Outer]

theorem DefineBuiltin_numDefinitions (s : SymbolTable) (index : Int) (name : GoString) :
    (s.DefineBuiltin index name).2.numDefinitions = s.numDefinitions := by
  cases s; simp [SymbolTable.DefineBuiltin, SymbolTable.numDefinitions]

theorem DefineBuiltin_Outer (s : SymbolTable) (index : Int) (name : GoString) :
    (s.DefineBuiltin index name).2.Outer = s.Outer := by
  cases s; simp [SymbolTable.DefineBuiltin, SymbolTable.Outer]

theorem afterCalls_numDefinitions (calls : List scenarios.TableCall) (s : SymbolTable) :
    (scenarios.afterCalls s calls).numDefinitions =
      s.numDefinitions + scenarios.countDefine calls := by
  induction calls generalizing s with
  | nil => simp [scenarios.afterCalls, scenarios.countDefine]
  | cons c rest ih =>
    cases c with
    | Define name =>
      rw [scenarios.afterCalls, ih, Define_numDefinitions, scenarios.countDefine]
      push_cast
      omega
    | DefineBuiltin index name =>
      rw [scenarios.afterCalls, ih, DefineBuiltin_numDefinitions, scenarios.countDefine]

theorem afterCalls_Outer (calls : List scenarios.TableCall) (s : SymbolTable) :
    (scenarios.afterCalls s calls).Outer = s.Outer := by
  induction calls generalizing s with
  | nil => simp [scenarios.afterCalls]
  | cons c rest ih =>
    cases c with
    | Define name => rw [scenarios.afterCalls, ih, Define_Outer]
    | DefineBuiltin index name => rw [scenarios.afterCalls, ih, DefineBuiltin_Outer]

/-- C18: on a table made by `NewSymbolTable` or `NewEnclosedSymbolTable`, after
any sequence of `Define` and `DefineBuiltin` calls, `Define` returns the symbol
whose index is the number of `Define` calls made before, with scope Global
when the table has no outer table and Local when it has one (so an enclosed
table counts from 0 whatever its outer table holds); `DefineBuiltin` returns
and stores a Builtin symbol with the given index and leaves `numDefinitions`
as it was. -/
theorem Define_index_counts_Define_calls (calls : List scenarios.TableCall) (name : GoString)
    (outer s : SymbolTable) (index : Int) :
    ((scenarios.afterCalls NewSymbolTable calls).Define name).1 =
      { Name := name, Scope := GlobalScope, Index := scenarios.countDefine calls } ∧
    ((scenarios.afterCalls (NewEnclosedSymbolTable (some outer)) calls).Define name).1 =
      { Name := name, Scope := LocalScope, Index := scenarios.countDefine calls } ∧
    (s.Define name).2.store name = some (s.Define name).1 ∧
    (s.Define name).2.numDefinitions = s.numDefinitions + 1 ∧
    (s.DefineBuiltin index name).1 = { Name := name, Scope := BuiltinScope, Index := index } ∧
    (s.DefineBuiltin index name).2.store name =
      some { Name := name, Scope := BuiltinScope, Index := index } ∧
    (s.DefineBuiltin index name).2.numDefinitions = s.numDefinitions := by
  refine ⟨?_, ?_, ?_, ?_, ?_, ?_, ?_⟩
  · rw [Define_fst, afterCalls_numDefinitions, afterCalls_Outer]
    simp [NewSymbolTable, SymbolTable.numDefinitions, SymbolTable.Outer]
  · rw [Define_fst, afterCalls_numDefinitions, afterCalls_Outer]
    simp [NewEnclosedSymbolTable, NewSymbolTable, SymbolTable.numDefinitions, SymbolTable.Outer]
  · simp [SymbolTable.Define, SymbolTable.store, object.mapSet]
  · exact Define_numDefinitions s name
  · simp [SymbolTable.DefineBuiltin]
  · simp [SymbolTable.DefineBuiltin, SymbolTable.store, object.mapSet]
  · exact DefineBuiltin_numDefinitions s index name

theorem Resolve_eq_find : (s : SymbolTable) → (name : GoString) →
    s.Resolve name =
      match (scenarios.chain s).find? (fun t => (t.store name).isSome) with
      | some t => ((t.store name).getD ⟨"", "", 0⟩, true)
      | none => (⟨"", "", 0⟩, false)
  | .mk none store n, name => by
    cases h : store name <;> simp [SymbolTable.Resolve, scenarios.chain, SymbolTable.store, h]
  | .mk (some o) store n, name => by
    cases h : store name
    · simp [SymbolTable.Resolve, scenarios.chain, SymbolTable.store, h, Resolve_eq_find o name]
    · simp [SymbolTable.Resolve, scenarios.chain, SymbolTable.store, h]

/-- C19: `Resolve(name)` returns, with found = true, what the innermost table
of the `Outer` chain that holds the name stores under it, unchanged, and it
returns found = false exactly when no table of the chain holds the name; what
a table stores under a name is the symbol of the last `Define` of that name. -/
theorem Resolve_innermost_holder (s : SymbolTable) (name : GoString) :
    (s.Resolve name =
      match (scenarios.chain s).find? (fun t => (t.store name).isSome) with
      | some t => ((t.store name).getD ⟨"", "", 0⟩, true)
      | none => (⟨"", "", 0⟩, false)) ∧
    ((s.Resolve name).2 = false ↔ ∀ t ∈ scenarios.chain s, t.store name = none) ∧
    (∀ other, (s.Define other).2.store name =
      if name = other then some (s.Define other).1 else s.store name) := by
  refine ⟨Resolve_eq_find s name, ?_, ?_⟩
  · rw [Resolve_eq_find s name]
    cases h : (scenarios.chain s).find? (fun t => (t.store name).isSome) with
    | none =>
      simp only [true_iff]
      intro t ht
      have := List.find?_eq_none.mp h t ht
      simpa using this
    | some t =>
      simp only [Bool.true_eq_false, false_iff]
      intro hall
      have hm := List.mem_of_find?_eq_some h
      have hs := List.find?_some h
      rw [hall t hm] at hs
      simp at hs
  · intro other
    simp [SymbolTable.Define, SymbolTable.store, object.mapSet]

end compiler

namespace vm

open object

theorem pop_eq (vm : VM) (h0 : 1 ≤ vm.sp) (h1 : vm.sp ≤ vm.stack.len) :
    pop vm = (.ok (vm.stack.get (vm.sp - 1).toNat), { vm with sp := vm.sp - 1 }) := by
  have h : ¬ (vm.sp - 1 < 0 ∨ vm.sp - 1 ≥ (vm.stack.len : Int)) := by omega
  simp only [pop, Slice.index, if_neg h]

theorem pop_pop (vm : VM) (f : Object → Object → GoM VM Unit)
    (h0 : 2 ≤ vm.sp) (h1 : vm.sp ≤ vm.stack.len) :
    (do let right ← pop; let left ← pop; f left right) vm =
      f (vm.stack.get (vm.sp - 2).toNat) (vm.stack.get (vm.sp - 1).toNat)
        { vm with sp := vm.sp - 2 } := by
  have e : vm.sp - 1 - 1 = vm.sp - 2 := by ring
  simp only [bind, GoM.bind]
  rw [pop_eq vm (by omega) h1]
  simp only []
  rw [pop_eq _ (by simp; omega) (by simp; omega)]
  simp only [e]

theorem push_ok (vm : VM) (o : Object) (h0 : 0 ≤ vm.sp) (h1 : vm.sp < 2048)
    (hlen : vm.stack.len = 2048) :
    push o vm = (.ok (),
      { vm with
        stack := { vm.stack with get := fun j => if j = vm.sp.toNat then o else vm.stack.get j },
        sp := vm.sp + 1 }) := by
  have h : ¬ (vm.sp ≥ StackSize) := by simp [StackSize]; omega
  have h2 : ¬ (vm.sp < 0 ∨ vm.sp ≥ (vm.stack.len : Int)) := by rw [hlen]; omega
  simp only [push, Slice.setIndex, if_neg h, if_neg h2]

end vm

namespace vm

open object

theorem executeBinaryOperation_eq (vm : VM) (op : code.Opcode)
    (h0 : 2 ≤ vm.sp) (h1 : vm.sp ≤ vm.stack.len) :
    executeBinaryOperation op vm =
      (do
        let leftType ← GoM.lift (vm.stack.get (vm.sp - 2).toNat).Type_
        let rightType ← GoM.lift (vm.stack.get (vm.sp - 1).toNat).Type_
        if leftType = object.INTEGER_OBJ ∧ rightType = object.INTEGER_OBJ then
          executeBinaryIntegerOperation op (vm.stack.get (vm.sp - 2).toNat)
            (vm.stack.get (vm.sp - 1).toNat)
        else if leftType = object.STRING_OBJ ∧ rightType = object.STRING_OBJ then
          executeBinaryStringOperation op (vm.stack.get (vm.sp - 2).toNat)
            (vm.stack.get (vm.sp - 1).toNat)
        else
          GoM.fail (.error ("unsupported types for binary operation: " ++ leftType ++ " " ++
            rightType))) { vm with sp := vm.sp - 2 } :=
  pop_pop vm _ h0 h1

/-- C20: with `left` below `right` on top of the stack, `OpAdd`, `OpSub`,
`OpMul` and `OpDiv` remove both and, for two Integers, push a new Integer
holding the sum, difference or product wrapped to 64 bits, or (for a non-zero
divisor) the quotient truncated toward zero; for two Strings `OpAdd` pushes
the new String `left ++ right` and the other three opcodes fail with an
error; for operands of any other pair of types all four fail with the error
"unsupported types for binary operation". -/
theorem binary_operation_semantics (vm : VM) (ins : code.Instructions) (ip : Int)
    (left right : Object)
    (hsp : 2 ≤ vm.sp) (hmax : vm.sp ≤ 2048) (hlen : vm.stack.len = 2048)
    (hl : vm.stack.get (vm.sp - 2).toNat = left) (hr : vm.stack.get (vm.sp - 1).toNat = right) :
    (∀ o, (push o { vm with sp := vm.sp - 2, allocs := vm.allocs + 1 }).1 = .ok () ∧
      StackTop (push o { vm with sp := vm.sp - 2, allocs := vm.allocs + 1 }).2 = .ok o ∧
      (push o { vm with sp := vm.sp - 2, allocs := vm.allocs + 1 }).2.sp = vm.sp - 1) ∧
    (∀ rl a rr b, left = .Integer rl a → right = .Integer rr b →
      execute code.OpAdd ins ip vm =
        push (.Integer (.runtime vm.allocs) (wrap64 (a + b)))
          { vm with sp := vm.sp - 2, allocs := vm.allocs + 1 } ∧
      execute code.OpSub ins ip vm =
        push (.Integer (.runtime vm.allocs) (wrap64 (a - b)))
          { vm with sp := vm.sp - 2, allocs := vm.allocs + 1 } ∧
      execute code.OpMul ins ip vm =
        push (.Integer (.runtime vm.allocs) (wrap64 (a * b)))
          { vm with sp := vm.sp - 2, allocs := vm.allocs + 1 } ∧
      (b ≠ 0 → execute code.OpDiv ins ip vm =
        push (.Integer (.runtime vm.allocs) (wrap64 (Int.tdiv a b)))
          { vm with sp := vm.sp - 2, allocs := vm.allocs + 1 })) ∧
    (∀ rl a rr b, left = .String rl a → right = .String rr b →
      execute code.OpAdd ins ip vm =
        push (.String (.runtime vm.allocs) (a ++ b))
          { vm with sp := vm.sp - 2, allocs := vm.allocs + 1 } ∧
      execute code.OpSub ins ip vm =
        (.error (.error "enknown string operator: 3"), { vm with sp := vm.sp - 2 }) ∧
      execute code.OpMul ins ip vm =
        (.error (.error "enknown string operator: 4"), { vm with sp := vm.sp - 2 }) ∧
      execute code.OpDiv ins ip vm =
        (.error (.error "enknown string operator: 5"), { vm with sp := vm.sp - 2 })) ∧
    (∀ lt rt, left.Type_ = .ok lt → right.Type_ = .ok rt →
      ¬ (lt = INTEGER_OBJ ∧ rt = INTEGER_OBJ) → ¬ (lt = STRING_OBJ ∧ rt = STRING_OBJ) →
      ∀ op, op = code.OpAdd ∨ op = code.OpSub ∨ op = code.OpMul ∨ op = code.OpDiv →
        execute op ins ip vm =
          (.error (.error ("unsupported types for binary operation: " ++ lt ++ " " ++ rt)),
            { vm with sp := vm.sp - 2 })) ∧
    outcome (compileAndRun 8 (scenarios.infixProgram 9223372036854775807 "+" 1)) =
      some (.ok (.Integer (-9223372036854775808))) ∧
    outcome (compileAndRun 8 (scenarios.infixProgram (-7) "/" 2)) = some (.ok (.Integer (-3))) ∧
    outcome (compileAndRun 8 (scenarios.stringInfixProgram "a" "+" "b")) =
      some (.ok (.String "ab")) ∧
    outcome (compileAndRun 8 (scenarios.stringInfixProgram "a" "-" "b")) =
      some (.error (.error "enknown string operator: 3")) ∧
    outcome (compileAndRun 8 scenarios.mixedInfixProgram) =
      some (.error (.error "unsupported types for binary operation: INTEGER STRING")) := by
  have h1 : vm.sp ≤ vm.stack.len := by rw [hlen]; exact_mod_cast hmax
  refine ⟨?_, ?_, ?_, ?_, by decide!, by decide!, by decide!, by decide!, by decide!⟩
  · intro o
    rw [push_ok { vm with sp := vm.sp - 2, allocs := vm.allocs + 1 } o (by show (0 : Int) ≤ vm.sp - 2; omega) (by show vm.sp - 2 < 2048; omega) hlen]
    have h2 : ¬ (vm.sp - 2 + 1 = 0) := by omega
    have h3 : ¬ (vm.sp - 2 + 1 - 1 < 0 ∨ vm.sp - 2 + 1 - 1 ≥ ((vm.stack.len : Nat) : Int)) := by
      rw [hlen]; omega
    have h4 : vm.sp - 2 + 1 - 1 = vm.sp - 2 := by ring
    refine ⟨rfl, ?_, by simp; ring⟩
    simp only [StackTop, if_neg h2, Slice.index, if_neg h3, h4]
    simp
    exact ⟨hsp, by rw [hlen]; omega⟩
  · intro rl a rr b hL hR
    subst hL hR
    simp only [execute_OpAdd, execute_OpSub, execute_OpMul, execute_OpDiv,
      executeBinaryOperation_eq vm _ hsp h1, hl, hr]
    refine ⟨?_, ?_, ?_, ?_⟩
    · simp [executeBinaryIntegerOperation, integerValue, alloc, bind, GoM.bind, GoM.lift,
        Object.Type_, pure, GoM.pure]
    · simp [executeBinaryIntegerOperation, integerValue, alloc, bind, GoM.bind, GoM.lift,
        Object.Type_, pure, GoM.pure]
    · simp [executeBinaryIntegerOperation, integerValue, alloc, bind, GoM.bind, GoM.lift,
        Object.Type_, pure, GoM.pure]
    · intro hb
      simp [executeBinaryIntegerOperation, integerValue, alloc, bind, GoM.bind, GoM.lift,
        Object.Type_, pure, GoM.pure, hb]
  · intro rl a rr b hL hR
    subst hL hR
    simp only [execute_OpAdd, execute_OpSub, execute_OpMul, execute_OpDiv,
      executeBinaryOperation_eq vm _ hsp h1, hl, hr]
    refine ⟨?_, ?_, ?_, ?_⟩ <;>
    simp [executeBinaryStringOperation, stringValue, alloc, bind, GoM.bind, GoM.lift,
        Object.Type_, pure, GoM.pure, GoM.fail, INTEGER_OBJ, STRING_OBJ] <;> rfl
  · intro lt rt hL hR hni hns op hop
    have e : execute op ins ip vm = executeBinaryOperation op vm := by
      rcases hop with h | h | h | h <;> subst h
      · rw [execute_OpAdd]
      · rw [execute_OpSub]
      · rw [execute_OpMul]
      · rw [execute_OpDiv]
    rw [e, executeBinaryOperation_eq vm _ hsp h1, hl, hr, hL, hR]
    simp [bind, GoM.bind, GoM.lift, GoM.fail, hni, hns]

/-- Witness of C20: `OpDiv` on the operands -7 and 2 leaves a new Integer -3 on top of the stack. -/
theorem binary_operation_semantics_witness :
    (2 : Int) ≤
        (scenarios.operandsVM (.Integer (.constant 0) (-7)) (.Integer (.constant 1) 2)).sp ∧
      StackTop (execute code.OpDiv [] 0
        (scenarios.operandsVM (.Integer (.constant 0) (-7)) (.Integer (.constant 1) 2))).2 =
        .ok (.Integer (.runtime 0) (wrap64 (Int.tdiv (-7) 2))) ∧
      wrap64 (Int.tdiv (-7) 2) = -3 := by
  have h := binary_operation_semantics
    (scenarios.operandsVM (.Integer (.constant 0) (-7)) (.Integer (.constant 1) 2)) [] 0
    (.Integer (.constant 0) (-7)) (.Integer (.constant 1) 2)
    (by decide) (by decide) rfl rfl rfl
  refine ⟨by decide, ?_, by decide⟩
  rw [(h.2.1 _ _ _ _ rfl rfl).2.2.2 (by decide)]
  exact (h.1 _).2.1

end vm

namespace vm

open object

theorem readSlots_eq (stack : Slice Object) (n : Nat) (i : Int)
    (h0 : 0 ≤ i) (h1 : i + n ≤ stack.len) :
    readSlots stack i n = .ok ((List.range n).map (fun k => stack.get (i.toNat + k))) := by
  induction n generalizing i with
  | zero => simp [readSlots]
  | succ n ih =>
    have h : ¬ (i < 0 ∨ i ≥ (stack.len : Int)) := by push_cast at h1; omega
    have e : (i + 1).toNat = i.toNat + 1 := by omega
    rw [readSlots, Slice.index, if_neg h]
    simp only []
    rw [ih (i + 1) (by omega) (by push_cast at h1 ⊢; omega), e]
    simp only [List.range_succ_eq_map, List.map_cons, List.map_map, Nat.add_zero]
    congr 2
    apply List.map_congr_left
    intro k _
    show stack.get (i.toNat + 1 + k) = stack.get (i.toNat + (k + 1))
    congr 1
    omega

end vm

namespace vm

open object

theorem lastWithHashKey_cons (p : Object × Object) (rest : List (Object × Object))
    (k : HashKey) :
    scenarios.lastWithHashKey (p :: rest) k =
      match scenarios.lastWithHashKey rest k with
      | some q => some q
      | none => if p.1.HashKey = some k then some p else none := by
  simp only [scenarios.lastWithHashKey, List.reverse_cons, List.find?_append]
  cases h : List.find? (fun p => decide (p.1.HashKey = some k)) rest.reverse with
  | some q => simp
  | none =>
    by_cases hp : p.1.HashKey = some k <;> simp [List.find?, hp]

theorem buildHashLoop_eq (stack : Slice Object) (pairs : List (Object × Object)) (start : Nat)
    (init : HashKey → Option (Object × Object))
    (hend : start + 2 * pairs.length ≤ stack.len)
    (hstack : scenarios.holdsPairs stack start pairs)
    (hkeys : ∀ p ∈ pairs, p.1.HashKey ≠ none) :
    buildHashLoop stack start pairs.length init =
      .ok (fun k => match scenarios.lastWithHashKey pairs k with
        | some q => some q
        | none => init k) := by
  induction pairs generalizing start init with
  | nil => simp [buildHashLoop, scenarios.lastWithHashKey]
  | cons p rest ih =>
    obtain ⟨hk, hv, hrest⟩ := hstack
    simp only [List.length_cons] at hend ⊢
    have h0 : ¬ ((start : Int) < 0 ∨ (start : Int) ≥ (stack.len : Int)) := by omega
    have h1 : ¬ ((start : Int) + 1 < 0 ∨ (start : Int) + 1 ≥ (stack.len : Int)) := by omega
    have e1 : ((start : Int) + 1).toNat = start + 1 := by omega
    have e2 : (start : Int) + 2 = ((start + 2 : Nat) : Int) := by push_cast; ring
    have hp : p.1.HashKey ≠ none := hkeys p (List.mem_cons_self _ _)
    obtain ⟨hashKey, hhk⟩ := Option.ne_none_iff_exists'.mp hp
    rw [buildHashLoop, Slice.index, if_neg h0, Slice.index, if_neg h1]
    simp only [Int.toNat_ofNat, e1, hk, hv, hhk]
    rw [e2, ih (start + 2) _ (by omega) hrest (fun q hq => hkeys q (List.mem_cons_of_mem _ hq))]
    congr 1
    funext k
    rw [lastWithHashKey_cons]
    cases scenarios.lastWithHashKey rest k with
    | some q => rfl
    | none =>
      by_cases hkk : k = hashKey
      · subst hkk; simp [mapSet, hhk]
      · have : ¬ (some hashKey = some k) := fun h => hkk (Option.some.inj h).symm
        simp [mapSet, hhk, hkk, this]

end vm

namespace compiler

theorem currentScope_eq (c : Compiler) (sc : CompilationScope)
    (h0 : 0 ≤ c.scopeIndex) (hsc : c.scopes[c.scopeIndex.toNat]? = some sc) :
    currentScope c = (.ok sc, c) := by
  have h : ¬ (c.scopeIndex < 0) := by omega
  simp only [currentScope, indexInt, if_neg h, hsc]

theorem setCurrentScope_eq (c : Compiler) (sc new : CompilationScope)
    (h0 : 0 ≤ c.scopeIndex) (hsc : c.scopes[c.scopeIndex.toNat]? = some sc) :
    setCurrentScope new c =
      (.ok (), { c with scopes := c.scopes.set c.scopeIndex.toNat new }) := by
  have h : ¬ (c.scopeIndex < 0) := by omega
  have h1 : c.scopeIndex.toNat < c.scopes.length := by
    rcases Nat.lt_or_ge c.scopeIndex.toNat c.scopes.length with h | h
    · exact h
    · rw [List.getElem?_eq_none h] at hsc; cases hsc
  simp only [setCurrentScope, setIndexInt, if_neg h, if_pos h1]

theorem getElem?_set_self (scopes : List CompilationScope) (i : Nat) (sc new : CompilationScope)
    (hsc : scopes[i]? = some sc) : (scopes.set i new)[i]? = some new := by
  have h1 : i < scopes.length := by
    rcases Nat.lt_or_ge i scopes.length with h | h
    · exact h
    · rw [List.getElem?_eq_none h] at hsc; cases hsc
  simp [List.getElem?_set, h1]

/-- The effect of `emit` in a compiler whose current scope is `sc`: the bytes
of the instruction are appended to the instructions of the scope, the
position is their old length, and `lastInstruction` and
`previousInstruction` are moved on. -/
theorem emit_eq (c : Compiler) (sc : CompilationScope) (op : code.Opcode) (operands : List Int)
    (bytes : List Nat) (h0 : 0 ≤ c.scopeIndex) (hsc : c.scopes[c.scopeIndex.toNat]? = some sc)
    (hm : code.Make op operands = .ok bytes) :
    emit op operands c =
      (.ok (sc.instructions.length : Int),
        { c with scopes := (c.scopes.set c.scopeIndex.toNat
            { instructions := sc.instructions ++ bytes,
              lastInstruction := { Opcode := op, Position := sc.instructions.length },
              previousInstruction := sc.lastInstruction }) }) := by
  obtain ⟨constants, table, scopes, idx⟩ := c
  simp only [] at h0 hsc
  have h : ¬ (idx < 0) := by omega
  have h1 : idx.toNat < scopes.length := by
    rcases Nat.lt_or_ge idx.toNat scopes.length with h | h
    · exact h
    · rw [List.getElem?_eq_none h] at hsc; cases hsc
  have s1 := getElem?_set_self scopes idx.toNat sc
    { sc with instructions := sc.instructions ++ bytes } hsc
  have s2 := getElem?_set_self scopes idx.toNat sc
    { instructions := sc.instructions ++ bytes, lastInstruction := sc.lastInstruction,
      previousInstruction := sc.lastInstruction } hsc
  simp only [emit, addInstruction, setLastInstruction, bind, GoM.bind, GoM.lift, hm, pure,
    GoM.pure, currentScope, setCurrentScope, indexInt, setIndexInt, if_neg h, hsc, s1, s2,
    List.length_set, if_pos h1, List.set_set]

end compiler

theorem GoM.bind_fst_ne_ok {σ α β : Type} (m : GoM σ α) (f : α → GoM σ β) (b : β)
    (h : ∀ a s, (f a s).1 ≠ .ok b) (s : σ) : ((m >>= f) s).1 ≠ .ok b := by
  show (GoM.bind m f s).1 ≠ .ok b
  unfold GoM.bind
  rcases hm : m s with ⟨r, s2⟩
  cases r with
  | error e => simp
  | ok a => exact h a s2

theorem compileAndRun_compile_error (fuel : Nat) (program : ast.Program) (e : Err)
    (h : (compiler.Compile (.Program program) compiler.New).1 = .error e) :
    compileAndRun fuel program = some (.error e) := by
  unfold compileAndRun
  rcases hc : compiler.Compile (.Program program) compiler.New with ⟨r, comp⟩
  rw [hc] at h
  simp only [] at h
  subst h
  rfl

namespace compiler

theorem compileInfixExpression_not_equal (left right : GoM Compiler Unit) :
    compileInfixExpression "!=" left right =
      (do
        left
        right
        let _ ← emit code.OpGreaterThan []) := by
  simp [compileInfixExpression]
  rfl

theorem compileInfixExpression_less (left right : GoM Compiler Unit) (c : Compiler) :
    (compileInfixExpression "<" left right c).1 ≠ .ok () := by
  simp only [compileInfixExpression, if_true, String.reduceEq, if_false]
  apply GoM.bind_fst_ne_ok
  intro _ s
  apply GoM.bind_fst_ne_ok
  intro _ s
  apply GoM.bind_fst_ne_ok
  intro _ s
  apply GoM.bind_fst_ne_ok
  intro _ s
  simp [GoM.fail]

end compiler
namespace repl

/-- What `handleNormalCommand` returns when compilation succeeds and the run
ends without error. -/
theorem handleNormalCommand_of_run (fuel : Nat) (program : ast.Program) (session : Session)
    (code : compiler.Bytecode) (v : Except Err object.Object)
    (h1 : (compiler.Compile (.Program program)
      (compiler.NewWithState (some session.symbolTable) session.constants)).1 = .ok ())
    (h2 : (compiler.Compiler.Bytecode (compiler.Compile (.Program program)
      (compiler.NewWithState (some session.symbolTable) session.constants)).2).1 = .ok code)
    (h3 : (vm.Run fuel { vm.NewWithGlobalsStore code session.globals with
        allocs := session.allocs }).map (fun r => (r.1, vm.LastPoppedStackElem r.2)) =
      some (.ok (), v)) :
    (handleNormalCommand fuel program session).1 = some v := by
  rcases hc : compiler.Compile (.Program program)
    (compiler.NewWithState (some session.symbolTable) session.constants) with ⟨r, comp2⟩
  rw [hc] at h1 h2
  simp only [] at h1 h2
  subst h1
  rcases hb : compiler.Compiler.Bytecode comp2 with ⟨rb, comp3⟩
  rw [hb] at h2
  simp only [] at h2
  subst h2
  rcases hr : vm.Run fuel { vm.NewWithGlobalsStore code session.globals with
    allocs := session.allocs } with _ | ⟨rr, m2⟩
  · rw [hr] at h3; simp at h3
  · rw [hr] at h3
    simp only [Option.map_some', Option.some.injEq, Prod.mk.injEq] at h3
    obtain ⟨h4, h5⟩ := h3
    subst h4 h5
    simp only [] at hr
    simp only [handleNormalCommand, hc, hb, hr]

end repl


namespace compiler

theorem compileIntegerLiteral_eq (c : Compiler) (sc : CompilationScope) (v : Int)
    (h0 : 0 ≤ c.scopeIndex) (hsc : c.scopes[c.scopeIndex.toNat]? = some sc)
    (hlen : c.constants.length < 65536) :
    CompileExpression (.IntegerLiteral v) c =
      (.ok (),
        { c with
          constants := c.constants ++ [.Integer (.constant c.constants.length) v],
          scopes := (c.scopes.set c.scopeIndex.toNat
            { instructions := sc.instructions ++
                [0, c.constants.length / 256, c.constants.length % 256],
              lastInstruction := { Opcode := code.OpConstant, Position := sc.instructions.length },
              previousInstruction := sc.lastInstruction }) }) := by
  have hm : code.Make code.OpConstant [(c.constants.length : Int)] =
      .ok [0, c.constants.length / 256, c.constants.length % 256] := by
    have := code.make_two 0 "OpConstant" (c.constants.length : Int) (by decide) (by omega)
      (by omega)
    simpa using this
  have e : (((c.constants ++ [object.Object.Integer (.constant c.constants.length) v]).length
      : Nat) : Int) - 1 = (c.constants.length : Int) := by simp
  rw [CompileExpression]
  simp only [compileIntegerLiteral, bind, GoM.bind, nextRef, addConstant, e]
  rw [emit_eq { c with constants := c.constants ++ [.Integer (.constant c.constants.length) v] }
    sc code.OpConstant _ _ h0 hsc hm]
  rfl

theorem compileExpressionStatement_eq (e : ast.Expression) (c c2 : Compiler)
    (sc2 : CompilationScope) (he : CompileExpression e c = (.ok (), c2))
    (h02 : 0 ≤ c2.scopeIndex) (hsc2 : c2.scopes[c2.scopeIndex.toNat]? = some sc2) :
    CompileStatement (.ExpressionStatement e) c =
      (.ok (),
        { c2 with
          scopes := (c2.scopes.set c2.scopeIndex.toNat
            { instructions := sc2.instructions ++ [2],
              lastInstruction := { Opcode := code.OpPop, Position := sc2.instructions.length },
              previousInstruction := sc2.lastInstruction }) }) := by
  have hm : code.Make code.OpPop [] = .ok [2] := by decide
  rw [CompileStatement]
  simp only [compileExpressionStatement, bind, GoM.bind, he]
  rw [emit_eq c2 sc2 code.OpPop _ _ h02 hsc2 hm]
  rfl

end compiler

namespace compiler

theorem insertionStep_perm {α : Type} (less : α → α → Bool) (x : α) (acc : List α) :
    (insertionStep less x acc).Perm (x :: acc) := by
  induction acc with
  | nil => simp [insertionStep]
  | cons y ys ih =>
    by_cases h : less x y
    · simp only [insertionStep, h, if_true]
      exact (List.Perm.cons y ih).trans (List.Perm.swap x y ys)
    · simp [insertionStep, h]

theorem foldl_insertionStep_perm {α : Type} (less : α → α → Bool) (xs acc : List α) :
    (xs.foldl (fun acc x => insertionStep less x acc) acc).Perm (xs ++ acc) := by
  induction xs generalizing acc with
  | nil => simp
  | cons x xs ih =>
    simp only [List.foldl_cons, List.cons_append]
    exact (ih _).trans ((List.Perm.append_left xs (insertionStep_perm less x acc)).trans
      List.perm_middle)

theorem sortSlice_perm {α : Type} (less : α → α → Bool) (xs : List α) :
    (sortSlice less xs).Perm xs := by
  unfold sortSlice
  refine (List.reverse_perm _).trans ?_
  simpa using foldl_insertionStep_perm less xs []

theorem insertionStep_descending {β : Type} (x : GoString × β) (acc : List (GoString × β))
    (h : acc.Pairwise (fun a b => b.1 ≤ a.1)) :
    (insertionStep (fun a b => decide (a.1 < b.1)) x acc).Pairwise (fun a b => b.1 ≤ a.1) := by
  induction acc with
  | nil => simp [insertionStep]
  | cons y ys ih =>
    rw [List.pairwise_cons] at h
    by_cases hxy : x.1 < y.1
    · simp only [insertionStep, hxy, decide_True, if_true]
      rw [List.pairwise_cons]
      refine ⟨?_, ih h.2⟩
      intro z hz
      rcases List.mem_cons.mp ((insertionStep_perm _ x ys).mem_iff.mp hz) with hz | hz
      · subst hz; exact le_of_lt hxy
      · exact h.1 z hz
    · simp only [insertionStep, hxy, decide_False, Bool.false_eq_true, if_false]
      rw [List.pairwise_cons]
      refine ⟨?_, List.pairwise_cons.mpr h⟩
      intro z hz
      rcases List.mem_cons.mp hz with hz | hz
      · subst hz; exact not_lt.mp hxy
      · exact le_trans (h.1 z hz) (not_lt.mp hxy)

theorem foldl_insertionStep_descending {β : Type} (xs acc : List (GoString × β))
    (h : acc.Pairwise (fun a b => b.1 ≤ a.1)) :
    (xs.foldl (fun acc x => insertionStep (fun a b => decide (a.1 < b.1)) x acc) acc).Pairwise
      (fun a b => b.1 ≤ a.1) := by
  induction xs generalizing acc with
  | nil => simpa using h
  | cons x xs ih =>
    simp only [List.foldl_cons]
    exact ih _ (insertionStep_descending x acc h)

theorem sortSlice_ascending {β : Type} (xs : List (GoString × β)) :
    (sortSlice (fun a b => decide (a.1 < b.1)) xs).Pairwise (fun a b => a.1 ≤ b.1) := by
  unfold sortSlice
  rw [List.pairwise_reverse]
  exact foldl_insertionStep_descending xs [] List.Pairwise.nil

theorem sortSlice_strictly_ascending {β : Type} (xs : List (GoString × β))
    (hnodup : (xs.map Prod.fst).Nodup) :
    (sortSlice (fun a b => decide (a.1 < b.1)) xs).Pairwise (fun a b => a.1 < b.1) := by
  have hp := sortSlice_perm (fun (a b : GoString × β) => decide (a.1 < b.1)) xs
  have hn : ((sortSlice (fun a b => decide (a.1 < b.1)) xs).map Prod.fst).Nodup :=
    (hp.map Prod.fst).nodup_iff.mpr hnodup
  rw [List.Nodup, List.pairwise_map] at hn
  exact (sortSlice_ascending xs).imp₂ (fun a b hle hne => lt_of_le_of_ne hle hne) hn

theorem sortSlice_eq_of_perm {β : Type} (xs ys : List (GoString × β)) (hperm : xs.Perm ys)
    (hnodup : (xs.map Prod.fst).Nodup) :
    sortSlice (fun a b => decide (a.1 < b.1)) xs =
      sortSlice (fun a b => decide (a.1 < b.1)) ys := by
  have hnodup2 : (ys.map Prod.fst).Nodup := (hperm.map Prod.fst).nodup_iff.mp hnodup
  have hx := sortSlice_strictly_ascending xs hnodup
  have hy := sortSlice_strictly_ascending ys hnodup2
  have hp : (sortSlice (fun a b => decide (a.1 < b.1)) xs).Perm
      (sortSlice (fun a b => decide (a.1 < b.1)) ys) :=
    (sortSlice_perm _ xs).trans (hperm.trans (sortSlice_perm _ ys).symm)
  haveI : IsAntisymm (GoString × β) (fun a b => a.1 < b.1) :=
    ⟨fun a b h1 h2 => absurd h1 (lt_asymm h2)⟩
  exact List.eq_of_perm_of_sorted hp hx hy

theorem insertionStep_map {α β : Type} (f : α → β) (less : α → α → Bool) (less2 : β → β → Bool)
    (h : ∀ a b, less2 (f a) (f b) = less a b) (x : α) (acc : List α) :
    insertionStep less2 (f x) (acc.map f) = (insertionStep less x acc).map f := by
  induction acc with
  | nil => simp [insertionStep]
  | cons y ys ih =>
    by_cases hxy : less x y <;> simp [insertionStep, h, hxy, ih]

theorem sortSlice_map {α β : Type} (f : α → β) (less : α → α → Bool) (less2 : β → β → Bool)
    (h : ∀ a b, less2 (f a) (f b) = less a b) (xs : List α) :
    sortSlice less2 (xs.map f) = (sortSlice less xs).map f := by
  have key : ∀ acc : List α,
      (xs.map f).foldl (fun acc x => insertionStep less2 x acc) (acc.map f) =
        (xs.foldl (fun acc x => insertionStep less x acc) acc).map f := by
    induction xs with
    | nil => intro acc; simp
    | cons x xs ih =>
      intro acc
      simp only [List.map_cons, List.foldl_cons, insertionStep_map f less less2 h, ih]
  unfold sortSlice
  have := key []
  simp only [List.map_nil] at this
  rw [this, List.map_reverse]

theorem CompilePairs_eq_map (pairs : List (ast.Expression × ast.Expression)) :
    CompilePairs pairs =
      pairs.map (fun p => (p.1.String, (do CompileExpression p.1; CompileExpression p.2))) := by
  induction pairs with
  | nil => simp [CompilePairs]
  | cons p rest ih =>
    obtain ⟨k, v⟩ := p
    simp [CompilePairs, ih]

end compiler

namespace compiler

/-- C17, as the code behaves: the keys of a hash literal are sorted by their
source text only, so two keys with the same text stay in the order in which
the pairs are enumerated.  The hash literal `{1: true, 1: false}` compiles to
`OpConstant 0, OpTrue, OpConstant 1, OpFalse, OpHash 4` when its pairs are
enumerated in one order and to `OpConstant 0, OpFalse, OpConstant 1, OpTrue,
OpHash 4` in the other: two instruction streams for one source text.  For a
hash literal whose keys have pairwise different source texts, the action that
`Compile` performs is the same for every order in which the pairs are
enumerated (so instructions and constants are the same): the pairs are taken
in ascending order of the source text of the key, each key is compiled and
then its value, and `OpHash` with operand 2·n follows. -/
theorem hash_literal_emission_order (ps qs : List (ast.Expression × ast.Expression))
    (hperm : ps.Perm qs) (hnodup : (ps.map (fun p => p.1.String)).Nodup) :
    CompileExpression (.HashLiteral ps) = CompileExpression (.HashLiteral qs) ∧
    (sortSlice (fun a b => decide (a.1.String < b.1.String)) ps).Perm ps ∧
    (sortSlice (fun a b => decide (a.1.String < b.1.String)) ps).Pairwise
      (fun a b => a.1.String < b.1.String) ∧
    CompileExpression (.HashLiteral ps) =
      (do
        sequence ((sortSlice (fun a b => decide (a.1.String < b.1.String)) ps).map
          (fun p => (do CompileExpression p.1; CompileExpression p.2)))
        let _ ← emit code.OpHash [(ps.length : Int) * 2]) ∧
    [(ast.Expression.IntegerLiteral 1, ast.Expression.Boolean true),
      (ast.Expression.IntegerLiteral 1, ast.Expression.Boolean false)].Perm
      [(ast.Expression.IntegerLiteral 1, ast.Expression.Boolean false),
        (ast.Expression.IntegerLiteral 1, ast.Expression.Boolean true)] ∧
    scenarios.compiled (.Expression scenarios.duplicateKeyHash) New =
      (.ok (), .ok [0, 0, 0, 6, 0, 0, 1, 7, 21, 0, 4], [.Integer 1, .Integer 1]) ∧
    scenarios.compiled (.Expression scenarios.duplicateKeyHashReversed) New =
      (.ok (), .ok [0, 0, 0, 7, 0, 0, 1, 6, 21, 0, 4], [.Integer 1, .Integer 1]) := by
  have hmap : ∀ l : List (ast.Expression × ast.Expression),
      (l.map (fun p => (p.1.String,
        (do CompileExpression p.1; CompileExpression p.2 : GoM Compiler Unit)))).map Prod.fst =
        l.map (fun p => p.1.String) := by
    intro l; simp [List.map_map, Function.comp]
  have hsort := sortSlice_map
    (fun (p : ast.Expression × ast.Expression) =>
      (p.1.String, (do CompileExpression p.1; CompileExpression p.2 : GoM Compiler Unit)))
    (fun a b => decide (a.1.String < b.1.String))
    (fun a b => decide (a.1 < b.1)) (fun _ _ => rfl) ps
  refine ⟨?_, sortSlice_perm _ ps, ?_, ?_, List.Perm.swap _ _ [], by decide!, by decide!⟩
  · rw [CompileExpression, CompileExpression, CompilePairs_eq_map, CompilePairs_eq_map]
    unfold compileHashLiteral
    rw [sortSlice_eq_of_perm _ _ (hperm.map _) (by rw [hmap]; exact hnodup)]
    simp only [List.length_map, hperm.length_eq]
  · have h := sortSlice_strictly_ascending _ (by rw [hmap]; exact hnodup)
    rw [hsort, List.pairwise_map] at h
    exact h
  · rw [CompileExpression, CompilePairs_eq_map]
    unfold compileHashLiteral
    rw [hsort]
    simp only [List.length_map, List.map_map]
    rfl

/-- Witness of C17: `{"b": 2, "a": 1}` in its two orders of enumeration. -/
theorem hash_literal_emission_order_witness :
    CompileExpression (.HashLiteral
        [(.StringLiteral "b", .IntegerLiteral 2), (.StringLiteral "a", .IntegerLiteral 1)]) =
      CompileExpression (.HashLiteral
        [(.StringLiteral "a", .IntegerLiteral 1), (.StringLiteral "b", .IntegerLiteral 2)]) ∧
    scenarios.compiled (.Expression (.HashLiteral
        [(.StringLiteral "b", .IntegerLiteral 2), (.StringLiteral "a", .IntegerLiteral 1)])) New =
      (.ok (), .ok [0, 0, 0, 0, 0, 1, 0, 0, 2, 0, 0, 3, 21, 0, 4],
        [.String "a", .Integer 1, .String "b", .Integer 2]) :=
  ⟨(hash_literal_emission_order
      [(.StringLiteral "b", .IntegerLiteral 2), (.StringLiteral "a", .IntegerLiteral 1)]
      [(.StringLiteral "a", .IntegerLiteral 1), (.StringLiteral "b", .IntegerLiteral 2)]
      (List.Perm.swap _ _ []) (by simp [ast.Expression.String])).1, by decide!⟩

end compiler

namespace compiler

/-- C16, as the code behaves: in
`fn(a, b) { if (true) { fn(x) { undefinedVar } } };` the body of the outer
function literal compiles without error (the error of the inner literal is
dropped by the `if`), but the inner scope is never left: the one compiled
function added to the constants has NumParameters 2, NumLocals 1 and the
single instruction `OpReturnValue`, and `OpConstant 0` lands in the scope of
the outer function, which remains the current scope.  Without a dropped
error the contract holds: `fn(a, b) { let c = a; c + b }` gives NumParameters
2, NumLocals 3, `OpGetLocal 0`, `OpSetLocal 2`, … with the final `OpPop`
replaced by `OpReturnValue`, and `fn() { }` gives the single `OpReturn`. -/
theorem function_literal_after_dropped_error :
    scenarios.compiled (.Program scenarios.swallowedFunctionProgram) New =
      (.ok (), .ok [6, 13, 39, 15, 0, 0, 0, 2], [.CompiledFunction]) ∧
    scenarios.compiledFunctions (.Program scenarios.swallowedFunctionProgram) New =
      [{ Instructions := [24], NumLocals := 1, NumParameters := 2 }] ∧
    (Compile (.Program scenarios.swallowedFunctionProgram) New).2.scopeIndex = 1 ∧
    scenarios.compiled (.Program scenarios.localsFunctionProgram) New =
      (.ok (), .ok [0, 0, 0, 2], [.CompiledFunction]) ∧
    scenarios.compiledFunctions (.Program scenarios.localsFunctionProgram) New =
      [{ Instructions := [18, 0, 19, 2, 18, 2, 18, 1, 1, 24], NumLocals := 3,
         NumParameters := 2 }] ∧
    (Compile (.Program scenarios.localsFunctionProgram) New).2.scopeIndex = 0 ∧
    scenarios.compiledFunctions (.Program scenarios.emptyFunctionProgram) New =
      [{ Instructions := [25], NumLocals := 0, NumParameters := 0 }] :=
  ⟨by decide!, by decide!, by decide!, by decide!, by decide!, by decide!, by decide!⟩

end compiler

namespace vm

/-- A run that ends within `n` evaluations of the loop condition ends in the
same way within `n + 1`. -/
theorem Run_succ_of_some (n : Nat) (vm : VM) (r : Except Err Unit × VM)
    (h : Run n vm = some r) : Run (n + 1) vm = some r := by
  induction n generalizing vm with
  | zero => simp [Run] at h
  | succ n ih =>
    rw [Run] at h ⊢
    rcases hc : currentFrame vm with ⟨rf, vm1⟩
    rw [hc] at h
    cases rf with
    | error e => simpa using h
    | ok frame =>
      simp only [] at h ⊢
      by_cases hip : frame.ip < (frame.Instructions.length : Int) - 1
      · rw [if_pos hip] at h ⊢
        rcases hs : step vm with ⟨rs, vm2⟩
        rw [hs] at h
        cases rs with
        | error e => simpa using h
        | ok u => exact ih vm2 h
      · rw [if_neg hip] at h ⊢
        exact h

/-- More fuel does not change the outcome of a run that has ended. -/
theorem Run_fuel_mono (n m : Nat) (vm : VM) (r : Except Err Unit × VM)
    (h : Run n vm = some r) (hnm : n ≤ m) : Run m vm = some r := by
  induction m with
  | zero =>
    have : n = 0 := by omega
    subst this
    exact h
  | succ m ih =>
    rcases Nat.lt_or_ge m n with hlt | hge
    · have : n = m + 1 := by omega
      subst this
      exact h
    · exact Run_succ_of_some m vm r (ih hge)

end vm

/-- More fuel does not change the outcome of the pipeline once it is known. -/
theorem compileAndRun_fuel_mono (n m : Nat) (program : ast.Program)
    (r : Except Err object.Object) (h : compileAndRun n program = some r) (hnm : n ≤ m) :
    compileAndRun m program = some r := by
  unfold compileAndRun at h ⊢
  rcases hc : compiler.Compile (.Program program) compiler.New with ⟨rc, comp⟩
  rw [hc] at h
  cases rc with
  | error e => exact h
  | ok u =>
    simp only [] at h ⊢
    rcases hb : compiler.Compiler.Bytecode comp with ⟨rb, comp2⟩
    rw [hb] at h
    cases rb with
    | error e => exact h
    | ok bytecode =>
      simp only [] at h ⊢
      rcases hr : vm.Run n (vm.New bytecode) with _ | ⟨rr, machine⟩
      · rw [hr] at h; simp at h
      · rw [hr] at h
        rw [vm.Run_fuel_mono n m _ _ hr hnm]
        exact h

theorem outcome_compileAndRun_fuel_mono (n m : Nat) (program : ast.Program)
    (v : Except Err Value) (h : outcome (compileAndRun n program) = some v) (hnm : n ≤ m) :
    outcome (compileAndRun m program) = some v := by
  rcases hr : compileAndRun n program with _ | r
  · rw [hr] at h; simp [outcome] at h
  · rw [compileAndRun_fuel_mono n m program r hr hnm, ← hr]
    exact h

namespace repl

/-- More fuel does not change what `handleNormalCommand` returns once the run has ended. -/
theorem handleNormalCommand_fuel_mono (n m : Nat) (program : ast.Program) (session : Session)
    (v : Except Err object.Object) (h : (handleNormalCommand n program session).1 = some v)
    (hnm : n ≤ m) : (handleNormalCommand m program session).1 = some v := by
  unfold handleNormalCommand at h ⊢
  simp only [] at h ⊢
  rcases hc : compiler.Compile (.Program program)
    (compiler.NewWithState (some session.symbolTable) session.constants) with ⟨rc, comp⟩
  rw [hc] at h
  cases rc with
  | error e => exact h
  | ok u =>
    simp only [] at h ⊢
    rcases hb : compiler.Compiler.Bytecode comp with ⟨rb, comp2⟩
    rw [hb] at h
    cases rb with
    | error e => exact h
    | ok bytecode =>
      simp only [] at h ⊢
      rcases hr : vm.Run n { vm.NewWithGlobalsStore bytecode session.globals with
          allocs := session.allocs } with _ | ⟨rr, machine⟩
      · simp only [] at hr
        rw [hr] at h; simp at h
      · have hm := vm.Run_fuel_mono n m _ _ hr hnm
        simp only [] at hr hm
        rw [hr] at h
        rw [hm]
        exact h

end repl

namespace vm

open object

/-- A push onto a stack of fewer than 2048 values succeeds and leaves the
value on top. -/
theorem push_top (vm : VM) (o : Object) (h0 : 0 ≤ vm.sp) (h1 : vm.sp < 2048)
    (hlen : vm.stack.len = 2048) :
    (push o vm).1 = .ok () ∧ StackTop (push o vm).2 = .ok o ∧ (push o vm).2.sp = vm.sp + 1 ∧
      (push o vm).2.frames = vm.frames := by
  rw [push_ok vm o h0 h1 hlen]
  have h2 : ¬ (vm.sp + 1 = 0) := by omega
  have h3 : ¬ (vm.sp + 1 - 1 < 0 ∨ vm.sp + 1 - 1 ≥ ((vm.stack.len : Nat) : Int)) := by
    rw [hlen]; omega
  have h4 : vm.sp + 1 - 1 = vm.sp := by ring
  refine ⟨rfl, ?_, rfl, rfl⟩
  simp only [StackTop, if_neg h2, Slice.index, if_neg h3, h4]
  simp
  exact ⟨h0, by rw [hlen]; omega⟩

theorem executeComparison_eq (vm : VM) (op : code.Opcode)
    (h0 : 2 ≤ vm.sp) (h1 : vm.sp ≤ vm.stack.len) :
    executeComparison op vm =
      (do
        if (← GoM.lift (bothIntegers (vm.stack.get (vm.sp - 2).toNat)
            (vm.stack.get (vm.sp - 1).toNat))) then
          executeIntegerComparison op (vm.stack.get (vm.sp - 2).toNat)
            (vm.stack.get (vm.sp - 1).toNat)
        else if op = code.OpEqual then
          push (nativeBooleanToBooleanObject
            ((vm.stack.get (vm.sp - 1).toNat).identity == (vm.stack.get (vm.sp - 2).toNat).identity))
        else if op = code.OpNotEqual then
          push (nativeBooleanToBooleanObject
            ((vm.stack.get (vm.sp - 1).toNat).identity != (vm.stack.get (vm.sp - 2).toNat).identity))
        else
          let leftType ← GoM.lift (vm.stack.get (vm.sp - 2).toNat).Type_
          let rightType ← GoM.lift (vm.stack.get (vm.sp - 1).toNat).Type_
          GoM.fail (.error ("unknown operator: " ++ toString op ++ " (" ++ leftType ++ " " ++
            rightType ++ ")"))) { vm with sp := vm.sp - 2 } :=
  pop_pop vm _ h0 h1

/-- C21, as the code behaves: with `left` below `right` on top of the stack,
`OpEqual`, `OpNotEqual` and `OpGreaterThan` remove both and, for two Integers,
push TRUE exactly when left = right, left ≠ right, left > right, and FALSE
otherwise; for two Booleans `OpEqual` pushes TRUE exactly when they are the
same and `OpNotEqual` exactly when they differ; `OpGreaterThan` on operands
that have a type and are not both Integers fails with an error.  The push
succeeds and leaves the Boolean on top.  But `OpGreaterThan` with the nil
interface as an operand panics instead of returning an error, and an operand
is nil when it is read from a global that was never assigned:
`if (false) { let a = 1; }; a > 1;` compiles and its run panics. -/
theorem comparison_semantics (vm : VM) (ins : code.Instructions) (ip : Int)
    (left right : Object)
    (hsp : 2 ≤ vm.sp) (hmax : vm.sp ≤ 2048) (hlen : vm.stack.len = 2048)
    (hl : vm.stack.get (vm.sp - 2).toNat = left) (hr : vm.stack.get (vm.sp - 1).toNat = right) :
    (∀ o, (push o { vm with sp := vm.sp - 2 }).1 = .ok () ∧
      StackTop (push o { vm with sp := vm.sp - 2 }).2 = .ok o ∧
      (push o { vm with sp := vm.sp - 2 }).2.sp = vm.sp - 1) ∧
    (∀ rl a rr b, left = .Integer rl a → right = .Integer rr b →
      execute code.OpEqual ins ip vm =
        push (.Boolean (decide (a = b))) { vm with sp := vm.sp - 2 } ∧
      execute code.OpNotEqual ins ip vm =
        push (.Boolean (decide (a ≠ b))) { vm with sp := vm.sp - 2 } ∧
      execute code.OpGreaterThan ins ip vm =
        push (.Boolean (decide (a > b))) { vm with sp := vm.sp - 2 }) ∧
    (∀ p q, left = .Boolean p → right = .Boolean q →
      execute code.OpEqual ins ip vm =
        push (.Boolean (decide (p = q))) { vm with sp := vm.sp - 2 } ∧
      execute code.OpNotEqual ins ip vm =
        push (.Boolean (decide (p ≠ q))) { vm with sp := vm.sp - 2 }) ∧
    (∀ lt rt, left.Type_ = .ok lt → right.Type_ = .ok rt →
      ¬ (lt = INTEGER_OBJ ∧ rt = INTEGER_OBJ) →
      execute code.OpGreaterThan ins ip vm =
        (.error (.error ("unknown operator: 10 (" ++ lt ++ " " ++ rt ++ ")")),
          { vm with sp := vm.sp - 2 })) ∧
    outcome (compileAndRun 8 (scenarios.infixProgram 1 "==" 1)) = some (.ok (.Boolean true)) ∧
    outcome (compileAndRun 8 (scenarios.infixProgram 1 "==" 2)) = some (.ok (.Boolean false)) ∧
    outcome (compileAndRun 8 (scenarios.infixProgram 2 ">" 1)) = some (.ok (.Boolean true)) ∧
    outcome (compileAndRun 8 (scenarios.infixProgram 1 ">" 2)) = some (.ok (.Boolean false)) ∧
    outcome (compileAndRun 8 (scenarios.booleanInfixProgram true "==" true)) =
      some (.ok (.Boolean true)) ∧
    outcome (compileAndRun 8 (scenarios.booleanInfixProgram true ">" false)) =
      some (.error (.error "unknown operator: 10 (BOOLEAN BOOLEAN)")) ∧
    (left = .nil ∨ right = .nil →
      execute code.OpGreaterThan ins ip vm =
        (.error (.panic "nil pointer dereference"), { vm with sp := vm.sp - 2 })) ∧
    (compiler.Compile (.Program (scenarios.unassignedGlobalProgram
      (.InfixExpression (.Identifier "a") ">" (.IntegerLiteral 1)))) compiler.New).1 = .ok () ∧
    scenarios.runFresh 16 (scenarios.unassignedGlobalProgram
      (.InfixExpression (.Identifier "a") ">" (.IntegerLiteral 1))) =
      some (.error (.panic "nil pointer dereference"), 0, 1) := by
  have h1 : vm.sp ≤ vm.stack.len := by rw [hlen]; exact_mod_cast hmax
  refine ⟨?_, ?_, ?_, ?_, by decide!, by decide!, by decide!, by decide!, by decide!,
    by decide!, ?_, by decide!, by decide!⟩
  · intro o
    have := push_top { vm with sp := vm.sp - 2 } o (by show (0 : Int) ≤ vm.sp - 2; omega)
      (by show vm.sp - 2 < 2048; omega) hlen
    refine ⟨this.1, this.2.1, ?_⟩
    rw [this.2.2.1]
    show vm.sp - 2 + 1 = vm.sp - 1
    ring
  · intro rl a rr b hL hR
    subst hL hR
    simp only [execute_OpEqual, execute_OpNotEqual, execute_OpGreaterThan,
      executeComparison_eq vm _ hsp h1, hl, hr]
    refine ⟨?_, ?_, ?_⟩
    · by_cases hab : a = b
      · subst hab
        simp [executeIntegerComparison, integerValue, bothIntegers, bind, GoM.bind, GoM.lift,
          Object.Type_, pure, GoM.pure, nativeBooleanToBooleanObject, True, False]
      · have hba : ¬ b = a := fun h => hab h.symm
        simp [executeIntegerComparison, integerValue, bothIntegers, bind, GoM.bind, GoM.lift,
          Object.Type_, pure, GoM.pure, nativeBooleanToBooleanObject, True, False, hab, hba]
    · by_cases hab : a = b
      · subst hab
        simp [executeIntegerComparison, integerValue, bothIntegers, bind, GoM.bind, GoM.lift,
          Object.Type_, pure, GoM.pure, nativeBooleanToBooleanObject, True, False]
      · have hba : ¬ b = a := fun h => hab h.symm
        simp [executeIntegerComparison, integerValue, bothIntegers, bind, GoM.bind, GoM.lift,
          Object.Type_, pure, GoM.pure, nativeBooleanToBooleanObject, True, False, hab, hba]
    · by_cases hab : b < a <;>
        simp [executeIntegerComparison, integerValue, bothIntegers, bind, GoM.bind, GoM.lift,
          Object.Type_, pure, GoM.pure, nativeBooleanToBooleanObject, True, False, hab]
  · intro p q hL hR
    subst hL hR
    simp only [execute_OpEqual, execute_OpNotEqual, executeComparison_eq vm _ hsp h1, hl, hr]
    refine ⟨?_, ?_⟩ <;> cases p <;> cases q <;>
      simp [bothIntegers, bind, GoM.bind, GoM.lift, Object.Type_, pure, GoM.pure,
        nativeBooleanToBooleanObject, True, False, Object.identity, INTEGER_OBJ, BOOLEAN_OBJ]
  · intro lt rt hL hR hni
    rw [execute_OpGreaterThan, executeComparison_eq vm _ hsp h1, hl, hr]
    by_cases hlt : lt = INTEGER_OBJ
    · have hrt : ¬ rt = INTEGER_OBJ := fun h => hni ⟨hlt, h⟩
      simp [bothIntegers, hL, hR, hlt, hrt, bind, GoM.bind, GoM.lift, GoM.fail, pure, GoM.pure]
      rfl
    · simp [bothIntegers, hL, hR, hlt, bind, GoM.bind, GoM.lift, GoM.fail, pure, GoM.pure]
      rfl
  · intro hnil
    rw [execute_OpGreaterThan, executeComparison_eq vm _ hsp h1, hl, hr]
    rcases hnil with h | h
    · subst h
      rfl
    · subst h
      cases left <;> rfl

/-- Witness of C21: `OpGreaterThan` on the operands 2 and 1 leaves TRUE on top of the stack. -/
theorem comparison_semantics_witness :
    (2 : Int) ≤
        (scenarios.operandsVM (.Integer (.constant 0) 2) (.Integer (.constant 1) 1)).sp ∧
      StackTop (execute code.OpGreaterThan [] 0
        (scenarios.operandsVM (.Integer (.constant 0) 2) (.Integer (.constant 1) 1))).2 =
        .ok (.Boolean (decide ((2 : Int) > 1))) := by
  have h := comparison_semantics
    (scenarios.operandsVM (.Integer (.constant 0) 2) (.Integer (.constant 1) 1)) [] 0
    (.Integer (.constant 0) 2) (.Integer (.constant 1) 1)
    (by decide) (by decide) rfl rfl rfl
  refine ⟨by decide, ?_⟩
  rw [(h.2.1 _ _ _ _ rfl rfl).2.2]
  exact (h.1 _).2.1

theorem pop_then (vm : VM) (f : Object → GoM VM Unit)
    (h0 : 1 ≤ vm.sp) (h1 : vm.sp ≤ vm.stack.len) :
    (do let operand ← pop; f operand) vm =
      f (vm.stack.get (vm.sp - 1).toNat) { vm with sp := vm.sp - 1 } := by
  simp only [bind, GoM.bind]
  rw [pop_eq vm h0 h1]

/-- C22: `OpBang` removes the value on top of the stack and pushes FALSE when
it is TRUE, TRUE when it is FALSE and FALSE for every other value (Null, the
nil interface, every Integer, 0 included); on Booleans the double negation
`!!b` yields `b`. -/
theorem bang_semantics (vm : VM) (ins : code.Instructions) (ip : Int) (operand : Object)
    (hsp : 1 ≤ vm.sp) (hmax : vm.sp ≤ 2048) (hlen : vm.stack.len = 2048)
    (ht : vm.stack.get (vm.sp - 1).toNat = operand) :
    (∀ o, (push o { vm with sp := vm.sp - 1 }).1 = .ok () ∧
      StackTop (push o { vm with sp := vm.sp - 1 }).2 = .ok o ∧
      (push o { vm with sp := vm.sp - 1 }).2.sp = vm.sp) ∧
    (operand = True → execute code.OpBang ins ip vm = push False { vm with sp := vm.sp - 1 }) ∧
    (operand = False → execute code.OpBang ins ip vm = push True { vm with sp := vm.sp - 1 }) ∧
    (operand ≠ True → operand ≠ False →
      execute code.OpBang ins ip vm = push False { vm with sp := vm.sp - 1 }) ∧
    Null ≠ True ∧ Null ≠ False ∧ (∀ r v, Object.Integer r v ≠ True ∧ Object.Integer r v ≠ False) ∧
    (∀ b, outcome (compileAndRun 8 (scenarios.doubleBangProgram b)) = some (.ok (.Boolean b))) ∧
    outcome (compileAndRun 8 (scenarios.bangProgram (.IntegerLiteral 0))) =
      some (.ok (.Boolean false)) ∧
    outcome (compileAndRun 8 (scenarios.bangProgram (.IntegerLiteral 5))) =
      some (.ok (.Boolean false)) := by
  have h1 : vm.sp ≤ vm.stack.len := by rw [hlen]; exact_mod_cast hmax
  have e : execute code.OpBang ins ip vm =
      (if operand.identity = True.identity then push False
        else if operand.identity = False.identity then push True
        else push False) { vm with sp := vm.sp - 1 } := by
    rw [execute_OpBang, ← ht]
    exact pop_then vm _ hsp h1
  refine ⟨?_, ?_, ?_, ?_, by simp [Null, True], by simp [Null, False],
    fun r v => ⟨by simp [True], by simp [False]⟩, ?_, by decide!, by decide!⟩
  · intro o
    have := push_top { vm with sp := vm.sp - 1 } o (by show (0 : Int) ≤ vm.sp - 1; omega)
      (by show vm.sp - 1 < 2048; omega) hlen
    refine ⟨this.1, this.2.1, ?_⟩
    rw [this.2.2.1]
    show vm.sp - 1 + 1 = vm.sp
    ring
  · intro h; subst h; rw [e]; simp [True, Object.identity]
  · intro h; subst h; rw [e]; simp [True, False, Object.identity]
  · intro hT hF
    rw [e]
    cases operand with
    | Boolean b => cases b <;> simp [True, False] at hT hF
    | _ => simp [True, False, Object.identity]
  · intro b
    cases b
    · decide!
    · decide!

/-- Witness of C22: `OpBang` on Null. -/
theorem bang_semantics_witness :
    (1 : Int) ≤ (scenarios.operandsVM Null Null).sp ∧
      execute code.OpBang [] 0 (scenarios.operandsVM Null Null) =
        push False { scenarios.operandsVM Null Null with
          sp := (scenarios.operandsVM Null Null).sp - 1 } :=
  ⟨by decide,
    (bang_semantics (scenarios.operandsVM Null Null) [] 0 Null (by decide) (by decide) rfl
      rfl).2.2.2.1 (by simp [Null, True]) (by simp [Null, False])⟩

end vm

namespace vm

open object

/-- The effect of the `OpCall` case up to the call of `executeCall`: the
operand is read and the `ip` of the current frame moves past it. -/
theorem execute_OpCall_eq (vm : VM) (ins : code.Instructions) (ip k : Int) (caller : Frame)
    (rest : List Frame) (hframes : vm.frames = caller :: rest)
    (hop : readUint8At ins ip = .ok k) :
    execute code.OpCall ins ip vm =
      executeCall k { vm with frames := { caller with ip := caller.ip + 1 } :: rest } := by
  rw [execute_OpCall]
  simp only [bind, GoM.bind, GoM.lift, hop, advance, currentFrame, setCurrentFrame, hframes]

/-- C24: `OpCall argCount` fails with an error, pushing no frame and leaving
`sp` as it was (only the `ip` of the current frame has moved past the
operand), when the callee slot holds a compiled function with another number
of parameters, or a value that is neither a compiled function nor a builtin.
`let f = fn(a) { a }; f(1, 2);` and `1(2);` end with these errors. -/
theorem call_errors (vm : VM) (ins : code.Instructions) (ip k : Int) (caller : Frame)
    (rest : List Frame) (callee : Object)
    (hframes : vm.frames = caller :: rest) (hop : readUint8At ins ip = .ok k)
    (hk0 : 0 ≤ vm.sp - 1 - k) (hk1 : vm.sp - 1 - k < vm.stack.len)
    (hcallee : vm.stack.get (vm.sp - 1 - k).toNat = callee) :
    (∀ ref fn, callee = .CompiledFunction ref fn → fn.NumParameters ≠ k →
      execute code.OpCall ins ip vm =
        (.error (.error ("wrong number of arguments: want=" ++ toString fn.NumParameters ++
          ", got=" ++ toString k)),
          { vm with frames := { caller with ip := caller.ip + 1 } :: rest })) ∧
    ((∀ ref fn, callee ≠ .CompiledFunction ref fn) → (∀ i, callee ≠ .Builtin i) →
      execute code.OpCall ins ip vm =
        (.error (.error "calling non-function and non-built-in"),
          { vm with frames := { caller with ip := caller.ip + 1 } :: rest })) ∧
    scenarios.runFresh 16 scenarios.wrongArgumentCountProgram =
      some (.error (.error "wrong number of arguments: want=1, got=2"), 3, 1) ∧
    scenarios.runFresh 16 scenarios.callIntegerProgram =
      some (.error (.error "calling non-function and non-built-in"), 2, 1) := by
  have hidx : ¬ (vm.sp - 1 - k < 0 ∨ vm.sp - 1 - k ≥ (vm.stack.len : Int)) := by omega
  have e : execute code.OpCall ins ip vm =
      (match callee with
        | .CompiledFunction _ fn => callFunction fn k
        | .Builtin i => callBuiltin i k
        | _ => GoM.fail (.error "calling non-function and non-built-in"))
        { vm with frames := { caller with ip := caller.ip + 1 } :: rest } := by
    rw [execute_OpCall_eq vm ins ip k caller rest hframes hop]
    simp only [executeCall, bind, GoM.bind, GoM.get, GoM.lift, Slice.index, if_neg hidx, hcallee]
  refine ⟨?_, ?_, by decide!, by decide!⟩
  · intro ref fn hc hn
    subst hc
    rw [e]
    have hn2 : k ≠ fn.NumParameters := fun h => hn h.symm
    simp [callFunction, hn2, GoM.fail]
  · intro hc hb
    rw [e]
    cases callee with
    | CompiledFunction ref fn => exact absurd rfl (hc ref fn)
    | Builtin i => exact absurd rfl (hb i)
    | _ => rfl

/-- Witness of C24: `OpCall 1` with the Integer 7 in the callee slot. -/
theorem call_errors_witness :
    readUint8At [23, 1] 0 = .ok 1 ∧
    execute code.OpCall [23, 1] 0 (scenarios.stackVM [NewFrame ⟨[23, 1], 0, 0⟩ 0] [.Integer (.constant 0) 7] Null) =
      (.error (.error "calling non-function and non-built-in"),
        { (scenarios.stackVM [NewFrame ⟨[23, 1], 0, 0⟩ 0] [.Integer (.constant 0) 7] Null) with frames := [{ NewFrame ⟨[23, 1], 0, 0⟩ 0 with ip := -1 + 1 }] }) :=
  ⟨by decide,
    (call_errors (scenarios.stackVM [NewFrame ⟨[23, 1], 0, 0⟩ 0] [.Integer (.constant 0) 7] Null) [23, 1] 0 1 (NewFrame ⟨[23, 1], 0, 0⟩ 0) [] (.Integer (.constant 0) 7) rfl
      (by decide) (by decide) (by decide) rfl).2.1
      (fun _ _ h => by cases h) (fun _ h => by cases h)⟩

/-- C23, as the code behaves: `OpCall argCount` with a compiled function of
`argCount` parameters in the callee slot (and fewer than 1024 live frames)
pushes a frame with `ip = -1` and `basePointer = sp - argCount`, sets `sp` to
`basePointer + NumLocals` and leaves the stack as it is.  `OpReturnValue` in
a frame with base pointer `bp` pops the frame, writes the value from the top
of the stack into slot `bp - 1`, sets `sp` to `bp` and leaves every other
slot as it is; `OpReturn` does the same with Null.  `OpGetLocal i` in
that frame pushes the slot `bp + i`, so the arguments are the locals
0 … argCount-1.  After `let add = fn(a, b) { a + b; }; add(3, 4);` the
stack pointer is 0 and one frame is live.  The slots below `bp - 1` are
not safe between the call and the return: an empty block compiles to no
instruction, so each `if (true) { }` of a body pops one value more than it
pushes, and in `let f = fn() { if (true) { }; if (true) { }; if (true) { } };
[4, 5, f()]` the call of `f` overwrites the slot of the element 5 with TRUE
and returns the element 4: the array is `[4, true, 4]`. -/
theorem call_and_return_frames (vm : VM) (ins : code.Instructions) (ip k : Int)
    (caller : Frame) (rest : List Frame) (ref : Addr) (fn : CompiledFunction)
    (vm2 : VM) (ins2 : code.Instructions) (ip2 : Int) (frame : Frame) (rest2 : List Frame)
    (value : Object)
    (hframes : vm.frames = caller :: rest) (hmaxf : vm.frames.length < 1024)
    (hop : readUint8At ins ip = .ok k)
    (hk0 : 0 ≤ vm.sp - 1 - k) (hk1 : vm.sp - 1 - k < vm.stack.len)
    (hcallee : vm.stack.get (vm.sp - 1 - k).toNat = .CompiledFunction ref fn)
    (hparams : fn.NumParameters = k)
    (hframes2 : vm2.frames = frame :: rest2)
    (hbp0 : 1 ≤ frame.basePointer) (hbp1 : frame.basePointer ≤ 2048)
    (hlen2 : vm2.stack.len = 2048) (hsp0 : 1 ≤ vm2.sp) (hsp1 : vm2.sp ≤ 2048)
    (htop : vm2.stack.get (vm2.sp - 1).toNat = value)
    (i : Int) (hopi : readUint8At ins2 ip2 = .ok i)
    (hi0 : 0 ≤ frame.basePointer + i) (hi1 : frame.basePointer + i < 2048) :
    execute code.OpCall ins ip vm =
      (.ok (),
        { vm with
          frames := { fn := fn, ip := -1, basePointer := vm.sp - k } ::
            { caller with ip := caller.ip + 1 } :: rest,
          sp := vm.sp - k + fn.NumLocals }) ∧
    execute code.OpReturnValue ins2 ip2 vm2 =
      (.ok (),
        { vm2 with
          frames := rest2,
          sp := frame.basePointer,
          stack := { vm2.stack with
            get := fun j => if j = (frame.basePointer - 1).toNat then value
              else vm2.stack.get j } }) ∧
    execute code.OpReturn ins2 ip2 vm2 =
      (.ok (),
        { vm2 with
          frames := rest2,
          sp := frame.basePointer,
          stack := { vm2.stack with
            get := fun j => if j = (frame.basePointer - 1).toNat then Null
              else vm2.stack.get j } }) ∧
    execute code.OpGetLocal ins2 ip2 vm2 =
      push (vm2.stack.get (frame.basePointer + i).toNat)
        { vm2 with frames := { frame with ip := frame.ip + 1 } :: rest2 } ∧
    scenarios.runFresh 32 (scenarios.addProgram 3 4) = some (.ok (), 0, 1) ∧
    scenarios.compiledFunctions (.Program (scenarios.clobberedSlotProgram 1)) compiler.New =
      [{ Instructions := [6, 13, 0, 7, 14, 0, 8, 15, 2, 6, 13, 0, 16, 14, 0, 17, 15, 2,
          6, 13, 0, 25, 14, 0, 26, 15, 24],
         NumLocals := 0, NumParameters := 0 }] ∧
    outcome (compileAndRun 64 (scenarios.clobberedSlotProgram 0)) = some (.ok (.Integer 4)) ∧
    outcome (compileAndRun 64 (scenarios.clobberedSlotProgram 1)) = some (.ok (.Boolean true)) ∧
    outcome (compileAndRun 64 (scenarios.clobberedSlotProgram 2)) = some (.ok (.Integer 4)) := by
  have hidx : ¬ (vm.sp - 1 - k < 0 ∨ vm.sp - 1 - k ≥ (vm.stack.len : Int)) := by omega
  have hlen : ((caller :: rest).length : Int) < 1024 := by
    rw [← hframes]; exact_mod_cast hmaxf
  have hpush : ∀ o : Object,
      push o { vm2 with frames := rest2, sp := frame.basePointer - 1 } =
        (.ok (),
          { vm2 with
            frames := rest2,
            sp := frame.basePointer,
            stack := { vm2.stack with
              get := fun j => if j = (frame.basePointer - 1).toNat then o
                else vm2.stack.get j } }) := by
    intro o
    rw [push_ok { vm2 with frames := rest2, sp := frame.basePointer - 1 } o
      (by show (0 : Int) ≤ frame.basePointer - 1; omega)
      (by show frame.basePointer - 1 < 2048; omega) hlen2]
    simp
  refine ⟨?_, ?_, ?_, ?_, by decide!, by decide!, by decide!, by decide!, by decide!⟩
  · rw [execute_OpCall_eq vm ins ip k caller rest hframes hop]
    have hf : ¬ (((({ caller with ip := caller.ip + 1 } :: rest : List Frame).length : Nat)
        : Int) ≥ 1024) := by
      simp only [List.length_cons] at hlen ⊢
      omega
    simp only [executeCall, bind, GoM.bind, GoM.get, GoM.lift, Slice.index, if_neg hidx,
      hcallee, callFunction, hparams, ne_eq, not_true_eq_false, if_false, pushFrame,
      VM.framesIndex, MaxFrames, if_neg hf, GoM.modify, NewFrame]
  · rw [execute_OpReturnValue]
    have hp := pop_then vm2 (fun returnValue => do
      let frame ← popFrame
      GoM.modify (fun vm => { vm with sp := frame.basePointer - 1 })
      push returnValue) hsp0 (by rw [hlen2]; exact_mod_cast hsp1)
    rw [hp, htop]
    simp only [bind, GoM.bind, popFrame, hframes2, GoM.modify]
    exact hpush value
  · rw [execute_OpReturn]
    simp only [bind, GoM.bind, popFrame, hframes2, GoM.modify]
    exact hpush Null
  · have hloc : ¬ (frame.basePointer + i < 0 ∨
        frame.basePointer + i ≥ ((vm2.stack.len : Nat) : Int)) := by
      rw [hlen2]; omega
    rw [execute_OpGetLocal]
    simp only [bind, GoM.bind, GoM.lift, hopi, advance, currentFrame, setCurrentFrame, hframes2,
      GoM.get, Slice.index, if_neg hloc]

/-- Witness of C23: `OpCall 1` on a function of one parameter and one local,
and `OpReturnValue` in the frame of such a call. -/
theorem call_and_return_frames_witness :
    readUint8At [23, 1] 0 = .ok 1 ∧
    execute code.OpCall [23, 1] 0 (scenarios.stackVM [NewFrame ⟨[23, 1], 0, 0⟩ 0]
      [.CompiledFunction (.constant 0) ⟨[25], 1, 1⟩] Null) =
      (.ok (),
        { (scenarios.stackVM [NewFrame ⟨[23, 1], 0, 0⟩ 0]
      [.CompiledFunction (.constant 0) ⟨[25], 1, 1⟩] Null) with
          frames := [{ fn := ⟨[25], 1, 1⟩, ip := -1, basePointer := (scenarios.stackVM [NewFrame ⟨[23, 1], 0, 0⟩ 0]
      [.CompiledFunction (.constant 0) ⟨[25], 1, 1⟩] Null).sp - 1 },
            { NewFrame ⟨[23, 1], 0, 0⟩ 0 with ip := -1 + 1 }],
          sp := (scenarios.stackVM [NewFrame ⟨[23, 1], 0, 0⟩ 0]
      [.CompiledFunction (.constant 0) ⟨[25], 1, 1⟩] Null).sp - 1 + 1 }) :=
  ⟨by decide,
    (call_and_return_frames (scenarios.stackVM [NewFrame ⟨[23, 1], 0, 0⟩ 0]
      [.CompiledFunction (.constant 0) ⟨[25], 1, 1⟩] Null) [23, 1] 0 1 (NewFrame ⟨[23, 1], 0, 0⟩ 0) [] (.constant 0)
      ⟨[25], 1, 1⟩
      (scenarios.stackVM [NewFrame ⟨[24], 1, 1⟩ 1, NewFrame ⟨[23, 1], 0, 0⟩ 0]
      [.CompiledFunction (.constant 0) ⟨[24], 1, 1⟩] True) [18, 0] 0 (NewFrame ⟨[24], 1, 1⟩ 1) [NewFrame ⟨[23, 1], 0, 0⟩ 0] True
      rfl (by decide) (by decide) (by decide) (by decide) rfl rfl
      rfl (by decide) (by decide) rfl (by decide) (by decide) rfl
      0 (by decide) (by decide) (by decide)).1⟩

end vm

namespace vm

open object

/-- C25, as the code behaves: `*Hash` has a method `HashKey()` (it returns
the zero `HashKey`), so a Hash is accepted as a key by `OpHash` and as an
index by `OpIndex`: `{{}: 1};` runs without error and
`{1: 2}[{}];` yields Null.  Values of kind Array,
CompiledFunction, Builtin, Null (and Error, and the nil interface) have no
hash key: as the first key of `buildHash` and as index of `executeHashIndex`
they give an error. -/
theorem hash_is_accepted_as_hash_key (r : Addr)
    (pairs : HashKey → Option (Object × Object)) :
    (Object.Hash r pairs).HashKey = some ⟨"", 0⟩ ∧
    scenarios.runFresh 16 (scenarios.hashKeyProgram (.HashLiteral [])) = some (.ok (), 0, 1) ∧
    outcome (compileAndRun 16 (scenarios.hashIndexProgram (.HashLiteral []))) =
      some (.ok .Null) ∧
    (∀ o : Object, o.HashKey = none ↔
      (o = .nil ∨ o = .Null ∨ (∃ a els, o = .Array a els) ∨ (∃ a fn, o = .CompiledFunction a fn) ∨
        (∃ i, o = .Builtin i) ∨ (∃ a m, o = .Error a m))) ∧
    (∀ (stack : Slice Object) (i : Int) (n : Nat) init key value t,
      stack.index i = .ok key → stack.index (i + 1) = .ok value → key.HashKey = none →
      key.Type_ = .ok t →
      buildHashLoop stack i (n + 1) init =
        .error (.error ("unusuable as hash key " ++ t ++ ":"))) ∧
    (∀ (vm : VM) a m index t, index.HashKey = none → index.Type_ = .ok t →
      executeHashIndex (.Hash a m) index vm =
        (.error (.error ("unusble as hash key: " ++ t)), vm)) ∧
    scenarios.runFresh 16 (scenarios.hashKeyProgram (.ArrayLiteral [])) =
      some (.error (.error "unusuable as hash key ARRAY:"), 2, 1) ∧
    scenarios.runFresh 16 (scenarios.hashKeyProgram (.FunctionLiteral [] (.mk []))) =
      some (.error (.error "unusuable as hash key COMPILED_FUNCTION_OBJ:"), 2, 1) ∧
    scenarios.runFresh 16 (scenarios.hashKeyProgram (.IfExpression (.Boolean false) (.mk []) none)) =
      some (.error (.error "unusuable as hash key NULL:"), 2, 1) ∧
    outcome (compileAndRun 16 (scenarios.hashIndexProgram (.ArrayLiteral []))) =
      some (.error (.error "unusble as hash key: ARRAY")) := by
  refine ⟨rfl, by decide!, by decide!, ?_, ?_, ?_, by decide!, by decide!, by decide!,
    by decide!⟩
  · intro o
    cases o <;> simp [Object.HashKey]
  · intro stack i n init key value t h1 h2 h3 h4
    simp only [buildHashLoop, h1, h2, h3, h4]
  · intro vm a m index t h1 h2
    simp only [executeHashIndex, h1, h2, bind, GoM.bind, GoM.lift, GoM.fail]

end vm

namespace vm

open object

/-- C26, as the code behaves: `[1 < 2];` compiles without error (the error
"unknown operator <" of the element is dropped by the array literal, after
four `OpConstant` have been emitted, and `OpArray` is skipped) and runs
without error, and `Run` returns with `sp = 3`.
`let f = fn() { if (false) { undefinedVar } }; f();` compiles and runs
without error and `Run` returns inside the frame of `f` (two live frames)
with `sp = 1`.  The examples without a dropped error end with `sp = 0` and
one live frame. -/
theorem stack_pointer_after_dropped_error :
    scenarios.compiled (.Program scenarios.arrayLessProgram) compiler.New =
      (.ok (), .ok [0, 0, 0, 0, 0, 1, 0, 0, 2, 0, 0, 3, 2],
        [.Integer 2, .Integer 1, .Integer 1, .Integer 2]) ∧
    scenarios.runFresh 16 scenarios.arrayLessProgram = some (.ok (), 3, 1) ∧
    (compiler.Compile (.Program scenarios.abandonedFrameProgram) compiler.New).1 = .ok () ∧
    scenarios.compiledFunctions (.Program scenarios.abandonedFrameProgram) compiler.New =
      [{ Instructions := [7, 13, 39, 15, 24], NumLocals := 0, NumParameters := 0 }] ∧
    scenarios.runFresh 16 scenarios.abandonedFrameProgram = some (.ok (), 1, 2) ∧
    scenarios.runFresh 32 (scenarios.addProgram 3 4) = some (.ok (), 0, 1) ∧
    scenarios.runFresh 16 scenarios.oneTwoProgram = some (.ok (), 0, 1) ∧
    scenarios.runFresh 16 scenarios.ifProgram = some (.ok (), 0, 1) ∧
    scenarios.runFresh 32 scenarios.arrayProgram = some (.ok (), 0, 1) ∧
    scenarios.runFresh 32 scenarios.hashProgram = some (.ok (), 0, 1) :=
  ⟨by decide!, by decide!, by decide!, by decide!, by decide!, by decide!, by decide!,
    by decide!, by decide!, by decide!⟩

/-- C27, as the code behaves: `1 / 0;`, `return 1;` and `if (true) { };`
compile without error and their runs end in a run-time panic, not in an
error returned by `Run`: the integer division by zero, the write to
`stack[-1]` after the only frame has been popped, and the read of
`stack[-1]` by `pop` on the empty stack.  A global that was defined but never
assigned holds the nil interface: `if (false) { let a = 1; }; a;` leaves nil
as last popped value, and `a + 1`, `a > 1`, `-a` panic when the type of the
operand is asked for.  Nothing guards the divisor, the frame index or the
index of `pop`: a division by 0 panics for every dividend, `pushFrame` with
1024 live frames panics, and `pop` with `sp = 0` panics.  Only `push` at
`sp ≥ 2048` returns an error. -/
theorem unguarded_operations_panic :
    (compiler.Compile (.Program (scenarios.infixProgram 1 "/" 0)) compiler.New).1 = .ok () ∧
    scenarios.runFresh 16 (scenarios.infixProgram 1 "/" 0) =
      some (.error (.panic "integer divide by zero"), 0, 1) ∧
    (compiler.Compile (.Program scenarios.topLevelReturnProgram) compiler.New).1 = .ok () ∧
    scenarios.runFresh 16 scenarios.topLevelReturnProgram =
      some (.error (.panic "index out of range"), -1, 0) ∧
    (compiler.Compile (.Program scenarios.emptyIfProgram) compiler.New).1 = .ok () ∧
    scenarios.runFresh 16 scenarios.emptyIfProgram =
      some (.error (.panic "index out of range"), 0, 1) ∧
    outcome (compileAndRun 16 (scenarios.unassignedGlobalProgram (.Identifier "a"))) =
      some (.ok .nil) ∧
    scenarios.runFresh 16 (scenarios.unassignedGlobalProgram
      (.InfixExpression (.Identifier "a") "+" (.IntegerLiteral 1))) =
      some (.error (.panic "nil pointer dereference"), 0, 1) ∧
    scenarios.runFresh 16 (scenarios.unassignedGlobalProgram
      (.InfixExpression (.Identifier "a") ">" (.IntegerLiteral 1))) =
      some (.error (.panic "nil pointer dereference"), 0, 1) ∧
    scenarios.runFresh 16 (scenarios.unassignedGlobalProgram
      (.PrefixExpression "-" (.Identifier "a"))) =
      some (.error (.panic "nil pointer dereference"), 0, 1) ∧
    (∀ (vm : VM) rl a rr,
      executeBinaryIntegerOperation code.OpDiv (.Integer rl a) (.Integer rr 0) vm =
        (.error (.panic "integer divide by zero"), vm)) ∧
    (∀ (vm : VM) f, vm.frames.length = 1024 →
      pushFrame f vm = (.error (.panic "index out of range"), vm)) ∧
    (∀ vm : VM, vm.sp = 0 → pop vm = (.error (.panic "index out of range"), vm)) ∧
    (∀ (vm : VM) o, vm.sp ≥ 2048 → push o vm = (.error (.error "stack overFlow"), vm)) := by
  refine ⟨by decide!, by decide!, by decide!, by decide!, by decide!, by decide!, by decide!,
    by decide!, by decide!, by decide!, ?_, ?_, ?_, ?_⟩
  · intro vm rl a rr
    simp [executeBinaryIntegerOperation, integerValue, bind, GoM.bind, GoM.lift, GoM.fail]
  · intro vm f h
    have hf : vm.framesIndex ≥ MaxFrames := by
      simp only [VM.framesIndex, MaxFrames, h]
      decide
    simp only [pushFrame, if_pos hf]
  · intro vm h
    have hi : vm.sp - 1 < 0 ∨ vm.sp - 1 ≥ (vm.stack.len : Int) := by omega
    simp only [pop, Slice.index, if_pos hi]
  · intro vm o h
    have hs : vm.sp ≥ StackSize := by simpa [StackSize] using h
    simp only [push, if_pos hs]

end vm

namespace object

/-- C29: `push` on an Array of `n` elements and a value returns a new Array
(its own identity) whose elements are those of the argument, in order,
followed by the value: `n + 1` elements, the first `n` as before, the last
one the value.  After `let a = [1, 2]; let b = push(a, 3);` the array `b`
has 3 elements with `b[0]` = 1 and `b[2]` = 3, and `a` still has 2 elements
(`a[2]` is Null). -/
theorem push_array_appends (ref r : Addr) (elements : List Object) (v : Object) :
    pushFn ref [.Array r elements, v] = .ok (.Array ref (elements ++ [v])) ∧
    (elements ++ [v]).length = elements.length + 1 ∧
    (elements ++ [v]).take elements.length = elements ∧
    (elements ++ [v])[elements.length]? = some v ∧
    outcome (repl.handleNormalCommand 32 (scenarios.pushArrayProgram (.Identifier "b"))
      repl.newSession).1 = some (.ok (.Array 3)) ∧
    outcome (repl.handleNormalCommand 32 (scenarios.pushArrayProgram
      (.IndexExpression (.Identifier "b") (.IntegerLiteral 0))) repl.newSession).1 =
      some (.ok (.Integer 1)) ∧
    outcome (repl.handleNormalCommand 32 (scenarios.pushArrayProgram
      (.IndexExpression (.Identifier "b") (.IntegerLiteral 2))) repl.newSession).1 =
      some (.ok (.Integer 3)) ∧
    outcome (repl.handleNormalCommand 32 (scenarios.pushArrayProgram (.Identifier "a"))
      repl.newSession).1 = some (.ok (.Array 2)) ∧
    outcome (repl.handleNormalCommand 32 (scenarios.pushArrayProgram
      (.IndexExpression (.Identifier "a") (.IntegerLiteral 2))) repl.newSession).1 =
      some (.ok .Null) := by
  refine ⟨?_, by simp, by simp, by simp, by decide!, by decide!, by decide!, by decide!,
    by decide!⟩
  simp [pushFn]

/-- C28, as the code behaves: `push` on a Hash stores the new pair under the
hash key made of the type of the key and the digest 0, whatever the content
of the key (and whatever its kind: an Array is accepted).  So
`push({}, 1, 2)[1]` yields Null, not 2, `push({}, 0, 2)[0]`
yields 2, and `push({0: 7}, 5, 8)[0]` yields 8, not the 7 that the
argument holds under 0. -/
theorem push_hash_key_ignores_content (ref r : Addr)
    (pairs : HashKey → Option (Object × Object)) (key value : Object) (t : ObjectType)
    (a : Addr) (v : Int) :
    (key.Type_ = .ok t →
      pushFn ref [.Hash r pairs, key, value] =
        .ok (.Hash ref (mapSet pairs ⟨t, 0⟩ (key, value)))) ∧
    (Object.Integer a v).HashKey = some ⟨INTEGER_OBJ, uint64 v⟩ ∧
    outcome (repl.handleNormalCommand 32 (scenarios.pushHashIndexProgram (.HashLiteral [])
      (.IntegerLiteral 1) (.IntegerLiteral 2) (.IntegerLiteral 1)) repl.newSession).1 =
      some (.ok .Null) ∧
    outcome (repl.handleNormalCommand 32 (scenarios.pushHashIndexProgram (.HashLiteral [])
      (.IntegerLiteral 0) (.IntegerLiteral 2) (.IntegerLiteral 0)) repl.newSession).1 =
      some (.ok (.Integer 2)) ∧
    outcome (repl.handleNormalCommand 32 (scenarios.pushHashIndexProgram
      (.HashLiteral [(.IntegerLiteral 0, .IntegerLiteral 7)])
      (.IntegerLiteral 5) (.IntegerLiteral 8) (.IntegerLiteral 0)) repl.newSession).1 =
      some (.ok (.Integer 8)) ∧
    outcome (repl.handleNormalCommand 32 (scenarios.pushCallProgram
      [.HashLiteral [], .ArrayLiteral [], .IntegerLiteral 2]) repl.newSession).1 =
      some (.ok .Hash) := by
  refine ⟨?_, rfl, by decide!, by decide!, by decide!, by decide!⟩
  intro h
  simp [pushFn, h]

/-- C30, as the code behaves: on arguments none of which is the nil
interface, `push` never fails: it returns a value, which is an Error exactly
in the specified cases (neither 2 nor 3 arguments, also none; an Array first
with other than 2 arguments; a Hash first with other than 3; a first argument
that is neither) and an Array or a Hash in every other case.  With the nil
interface as first argument (which is neither an Array nor a Hash), or as the
key of a hash push, it panics when the type is asked for, and an argument is
nil when it is read from a global that was never assigned:
`if (false) { let a = 1; }; push(a, 1);` panics. -/
theorem push_error_cases (ref : Addr) (args : List Object) (hnil : ∀ a ∈ args, a ≠ .nil) :
    (∃ result, pushFn ref args = .ok result ∧
      scenarios.isError result = scenarios.pushErrorCase args ∧
      (scenarios.isError result = false →
        scenarios.isArray result = true ∨ scenarios.isHash result = true)) ∧
    (∀ v, scenarios.pushErrorCase [.nil, v] = true ∧
      pushFn ref [.nil, v] = .error (.panic "nil pointer dereference")) ∧
    (∀ r pairs v, scenarios.pushErrorCase [.Hash r pairs, .nil, v] = false ∧
      pushFn ref [.Hash r pairs, .nil, v] = .error (.panic "nil pointer dereference")) ∧
    outcome (repl.handleNormalCommand 32 (scenarios.unassignedGlobalProgram
      (.CallExpression (.Identifier "push") [.Identifier "a", .IntegerLiteral 1]))
      repl.newSession).1 = some (.error (.panic "nil pointer dereference")) := by
  refine ⟨?_, fun v => ⟨rfl, rfl⟩, fun r pairs v => ⟨rfl, rfl⟩, by decide!⟩
  rcases args with _ | ⟨a, _ | ⟨b, _ | ⟨c, _ | ⟨d, rest⟩⟩⟩⟩
  · exact ⟨_, rfl, rfl, by simp [scenarios.isError, newError]⟩
  · exact ⟨_, rfl, rfl, by simp [scenarios.isError, newError]⟩
  · have ha : a ≠ .nil := hnil a (by simp)
    cases a <;> first
      | exact absurd rfl ha
      | exact ⟨_, rfl, rfl, by simp [scenarios.isError, scenarios.isArray, newError]⟩
  · have ha : a ≠ .nil := hnil a (by simp)
    have hb : b ≠ .nil := hnil b (by simp)
    cases a <;> first
      | exact absurd rfl ha
      | exact ⟨_, rfl, rfl, by simp [scenarios.isError, scenarios.isArray, newError]⟩
      | (cases b <;> first
          | exact absurd rfl hb
          | exact ⟨_, rfl, rfl, by simp [scenarios.isError, scenarios.isHash]⟩)
  · refine ⟨newError ref ("wrong number of arguments. got=" ++
      toString (a :: b :: c :: d :: rest).length ++ ", want=2 or 3"), ?_, ?_, ?_⟩
    · simp [pushFn]
    · simp [scenarios.isError, newError, scenarios.pushErrorCase]
    · simp [scenarios.isError, newError]

/-- Witness of C30: `push(1, null)` returns an Error. -/
theorem push_error_cases_witness :
    (∀ a ∈ [Object.Integer (.constant 0) 1, Object.Null], a ≠ Object.nil) ∧
    ∃ result, pushFn (.runtime 0) [.Integer (.constant 0) 1, .Null] = .ok result ∧
      scenarios.isError result =
        scenarios.pushErrorCase [.Integer (.constant 0) 1, .Null] ∧
      (scenarios.isError result = false →
        scenarios.isArray result = true ∨ scenarios.isHash result = true) :=
  ⟨by intro a ha; simp at ha; rcases ha with rfl | rfl <;> simp,
    (push_error_cases (.runtime 0) [.Integer (.constant 0) 1, .Null]
      (by intro a ha; simp at ha; rcases ha with rfl | rfl <;> simp)).1⟩

end object
namespace vm

open object

/-- C38: in every VM state with `0 < sp` (and `sp` within the stack), `pop`
returns the value of slot `sp - 1` and only decrements `sp`: the stack is
left as it is, so `LastPoppedStackElem()` right after the pop returns the
value that was popped.  The same holds after the instruction `OpPop`. -/
theorem last_popped_after_pop (vm : VM) (ins : code.Instructions) (ip : Int)
    (h0 : 0 < vm.sp) (h1 : vm.sp ≤ vm.stack.len) :
    pop vm = (.ok (vm.stack.get (vm.sp - 1).toNat), { vm with sp := vm.sp - 1 }) ∧
    (pop vm).2.stack = vm.stack ∧
    LastPoppedStackElem (pop vm).2 = (pop vm).1 ∧
    execute code.OpPop ins ip vm = (.ok (), { vm with sp := vm.sp - 1 }) ∧
    LastPoppedStackElem (execute code.OpPop ins ip vm).2 =
      .ok (vm.stack.get (vm.sp - 1).toNat) := by
  have hp := pop_eq vm (by omega) h1
  have hidx : ¬ (vm.sp - 1 < 0 ∨ vm.sp - 1 ≥ ((vm.stack.len : Nat) : Int)) := by omega
  have hl : LastPoppedStackElem { vm with sp := vm.sp - 1 } =
      .ok (vm.stack.get (vm.sp - 1).toNat) := by
    simp only [LastPoppedStackElem, Slice.index, if_neg hidx]
  have he : execute code.OpPop ins ip vm = (.ok (), { vm with sp := vm.sp - 1 }) := by
    rw [execute_OpPop]
    simp only [bind, GoM.bind, hp, pure, GoM.pure]
  refine ⟨hp, ?_, ?_, he, ?_⟩
  · rw [hp]
  · rw [hp]; exact hl
  · rw [he]; exact hl

/-- Witness of C38: popping the top of a stack that holds 7 and TRUE. -/
theorem last_popped_after_pop_witness :
    (0 : Int) < (scenarios.operandsVM (.Integer (.constant 0) 7) True).sp ∧
    LastPoppedStackElem (pop (scenarios.operandsVM (.Integer (.constant 0) 7) True)).2 =
      (pop (scenarios.operandsVM (.Integer (.constant 0) 7) True)).1 :=
  ⟨by decide,
    (last_popped_after_pop (scenarios.operandsVM (.Integer (.constant 0) 7) True) [] 0
      (by decide) (by decide)).2.2.1⟩

end vm
namespace repl

theorem isCompleteInputLoop_eq (l : List Char) (b p : Int) :
    isCompleteInputLoop l b p =
      (b + l.count (Char.ofNat 123) - l.count (Char.ofNat 125),
        p + l.count (Char.ofNat 40) - l.count (Char.ofNat 41)) := by
  induction l generalizing b p with
  | nil => simp [isCompleteInputLoop]
  | cons c rest ih =>
    have d1 : Char.ofNat 123 ≠ Char.ofNat 125 := by decide
    have d2 : Char.ofNat 123 ≠ Char.ofNat 40 := by decide
    have d3 : Char.ofNat 123 ≠ Char.ofNat 41 := by decide
    have d4 : Char.ofNat 125 ≠ Char.ofNat 40 := by decide
    have d5 : Char.ofNat 125 ≠ Char.ofNat 41 := by decide
    have d6 : Char.ofNat 40 ≠ Char.ofNat 41 := by decide
    unfold isCompleteInputLoop
    by_cases h1 : c = Char.ofNat 123
    · subst h1
      simp only [if_true, ih, List.count_cons, beq_self_eq_true, beq_iff_eq, d1, d2, d3, if_false,
        Prod.mk.injEq]
      constructor <;> push_cast <;> ring
    · by_cases h2 : c = Char.ofNat 125
      · subst h2
        simp only [if_neg h1, if_true, ih, List.count_cons, beq_self_eq_true, beq_iff_eq, d1.symm,
          d4, d5, if_false, Prod.mk.injEq]
        constructor <;> push_cast <;> ring
      · by_cases h3 : c = Char.ofNat 40
        · subst h3
          simp only [if_neg h1, if_neg h2, if_true, ih, List.count_cons, beq_self_eq_true,
            beq_iff_eq, d2.symm, d4.symm, d6, if_false, Prod.mk.injEq]
          constructor <;> push_cast <;> ring
        · by_cases h4 : c = Char.ofNat 41
          · subst h4
            simp only [if_neg h1, if_neg h2, if_neg h3, if_true, ih, List.count_cons,
              beq_self_eq_true, beq_iff_eq, d3.symm, d5.symm, d6.symm, if_false, Prod.mk.injEq]
            constructor <;> push_cast <;> ring
          · simp only [if_neg h1, if_neg h2, if_neg h3, if_neg h4, ih, List.count_cons,
              beq_iff_eq, if_false, Prod.mk.injEq]
            constructor <;> push_cast <;> ring

theorem balancedFrom_counts (l : List Char) (b p : Nat) (h : scenarios.balancedFrom l b p = true) :
    b + l.count (Char.ofNat 123) = l.count (Char.ofNat 125) ∧
      p + l.count (Char.ofNat 40) = l.count (Char.ofNat 41) := by
  induction l generalizing b p with
  | nil =>
    simp [scenarios.balancedFrom] at h
    simp [h]
  | cons c rest ih =>
    have d1 : Char.ofNat 123 ≠ Char.ofNat 125 := by decide
    have d2 : Char.ofNat 123 ≠ Char.ofNat 40 := by decide
    have d3 : Char.ofNat 123 ≠ Char.ofNat 41 := by decide
    have d4 : Char.ofNat 125 ≠ Char.ofNat 40 := by decide
    have d5 : Char.ofNat 125 ≠ Char.ofNat 41 := by decide
    have d6 : Char.ofNat 40 ≠ Char.ofNat 41 := by decide
    unfold scenarios.balancedFrom at h
    by_cases h1 : c = Char.ofNat 123
    · subst h1
      simp only [if_true] at h
      have := ih _ _ h
      simp only [List.count_cons, beq_self_eq_true, beq_iff_eq, d1, d2, d3, if_false, if_true]
      omega
    · by_cases h2 : c = Char.ofNat 125
      · subst h2
        simp only [if_neg h1, if_true] at h
        by_cases hb : b = 0
        · simp [hb] at h
        · simp only [if_neg hb] at h
          have := ih _ _ h
          simp only [List.count_cons, beq_self_eq_true, beq_iff_eq, d1.symm, d4, d5, if_false,
            if_true]
          omega
      · by_cases h3 : c = Char.ofNat 40
        · subst h3
          simp only [if_neg h1, if_neg h2, if_true] at h
          have := ih _ _ h
          simp only [List.count_cons, beq_self_eq_true, beq_iff_eq, d2.symm, d4.symm, d6,
            if_false, if_true]
          omega
        · by_cases h4 : c = Char.ofNat 41
          · subst h4
            simp only [if_neg h1, if_neg h2, if_neg h3, if_true] at h
            by_cases hp : p = 0
            · simp [hp] at h
            · simp only [if_neg hp] at h
              have := ih _ _ h
              simp only [List.count_cons, beq_self_eq_true, beq_iff_eq, d3.symm, d5.symm,
                d6.symm, if_false, if_true]
              omega
          · simp only [if_neg h1, if_neg h2, if_neg h3, if_neg h4] at h
            have := ih _ _ h
            simp only [List.count_cons, beq_iff_eq, h1, h2, h3, h4, if_false]
            omega

/-- C35, as the claim states it, fails: the input `}{` (and likewise `)(`)
is complete for `isCompleteInput`, although its closing brace closes
nothing and its opening brace stays open. -/
theorem isCompleteInput_unbalanced_counterexample :
    isCompleteInput "\x7d\x7b" = true ∧ scenarios.balanced "\x7d\x7b" = false ∧
    isCompleteInput ")(" = true ∧ scenarios.balanced ")(" = false :=
  ⟨by decide, by decide, by decide, by decide⟩

/-- C35 (amended): `isCompleteInput(s)` is true exactly when `s` holds as many
opening as closing braces and as many opening as closing parentheses,
wherever they stand.  Every input whose braces and parentheses are balanced
is complete; an input with an opening brace or parenthesis more (such as
`fn(x) {`) is not. -/
theorem isCompleteInput_iff_equal_counts (input : GoString) :
    (isCompleteInput input = true ↔
      (input.toList.count (Char.ofNat 123) = input.toList.count (Char.ofNat 125) ∧
        input.toList.count (Char.ofNat 40) = input.toList.count (Char.ofNat 41))) ∧
    (scenarios.balanced input = true → isCompleteInput input = true) ∧
    isCompleteInput "fn(x) \x7b x \x7d" = true ∧ isCompleteInput "fn(x) \x7b" = false ∧
    isCompleteInput "" = true := by
  have key : isCompleteInput input = true ↔
      (input.toList.count (Char.ofNat 123) = input.toList.count (Char.ofNat 125) ∧
        input.toList.count (Char.ofNat 40) = input.toList.count (Char.ofNat 41)) := by
    simp only [isCompleteInput, isCompleteInputLoop_eq, Bool.and_eq_true, beq_iff_eq]
    constructor
    · rintro ⟨h1, h2⟩
      constructor <;> omega
    · rintro ⟨h1, h2⟩
      constructor <;> omega
  refine ⟨key, ?_, by decide, by decide, by decide⟩
  intro hb
  rw [key]
  have := balancedFrom_counts input.toList 0 0 hb
  omega

end repl
namespace code

theorem ReadOperands_of_length (b : Nat) (d : Definition) (rest : Instructions)
    (hd : definitions b = some d) (hlen : d.OperandWidths.sum ≤ rest.length) :
    ∃ operands, ReadOperands d rest = .ok (operands, d.OperandWidths.sum) := by
  rcases widths_cases b d hd with h | h | h
  · exact ⟨[], by simp [ReadOperands, readLoop, h]⟩
  · rw [h] at hlen
    match rest, hlen with
    | x :: xs, _ => exact ⟨[((x % 256 : Nat) : Int)], by
        simp [ReadOperands, readLoop, h, sliceFrom, ReadUint8]⟩
  · rw [h] at hlen
    match rest, hlen with
    | x :: y :: xs, _ => exact ⟨[(((x % 256) * 256 + y % 256 : Nat) : Int)], by
        simp [ReadOperands, readLoop, h, sliceFrom, ReadUint16]⟩

theorem ReadOperands_read_le (b : Nat) (d : Definition) (rest : Instructions)
    (operands : List Int) (read : Nat)
    (hd : definitions b = some d) (hr : ReadOperands d rest = .ok (operands, read)) :
    read ≤ rest.length := by
  rcases widths_cases b d hd with h | h | h
  · simp [ReadOperands, readLoop, h] at hr
    omega
  · match rest with
    | [] => simp [ReadOperands, readLoop, h, sliceFrom, ReadUint8] at hr
    | x :: xs =>
      simp [ReadOperands, readLoop, h, sliceFrom, ReadUint8] at hr
      simp only [List.length_cons]
      omega
  · match rest with
    | [] => simp [ReadOperands, readLoop, h, sliceFrom, ReadUint16] at hr
    | [x] => simp [ReadOperands, readLoop, h, sliceFrom, ReadUint16] at hr
    | x :: y :: xs =>
      simp [ReadOperands, readLoop, h, sliceFrom, ReadUint16] at hr
      simp only [List.length_cons]
      omega

theorem getElem?_of_drop (ins : Instructions) (i : Nat) (b : Nat) (rest : Instructions)
    (h : ins.drop i = b :: rest) :
    ins[i]? = some b ∧ i + 1 ≤ ins.length ∧ ins.drop (i + 1) = rest := by
  have h1 : ins[i]? = some b := by
    have := List.getElem?_drop (L := ins) (i := i) (j := 0)
    rw [h] at this
    simpa using this.symm
  have h2 : i < ins.length := (List.getElem?_eq_some_iff.mp h1).1
  refine ⟨h1, h2, ?_⟩
  have : ins.drop (i + 1) = (ins.drop i).drop 1 := by
    rw [List.drop_drop]
  rw [this, h]
  rfl

theorem stringLoop_of_decodes (ins : Instructions) :
    ∀ (n fuel i : Nat) (out : GoString), n < fuel → i ≤ ins.length →
      decodes n (ins.drop i) = true →
      stringLoop fuel ins i out = some (.error (.panic "index out of range")) := by
  intro n
  induction n with
  | zero =>
    intro fuel i out hf hi hdec
    obtain ⟨f, rfl⟩ : ∃ f, fuel = f + 1 := ⟨fuel - 1, by omega⟩
    match hdrop : ins.drop i with
    | [] =>
      have hlen : ins.length ≤ i := List.drop_eq_nil_iff.mp hdrop
      have hnone : ins[i]? = none := List.getElem?_eq_none hlen
      simp only [stringLoop, if_pos hi, hnone]
    | b :: rest =>
      rw [hdrop] at hdec
      simp [decodes] at hdec
  | succ n ih =>
    intro fuel i out hf hi hdec
    obtain ⟨f, rfl⟩ : ∃ f, fuel = f + 1 := ⟨fuel - 1, by omega⟩
    match hdrop : ins.drop i with
    | [] =>
      have hlen : ins.length ≤ i := List.drop_eq_nil_iff.mp hdrop
      have hnone : ins[i]? = none := List.getElem?_eq_none hlen
      simp only [stringLoop, if_pos hi, hnone]
    | b :: rest =>
      rw [hdrop] at hdec
      obtain ⟨hget, hi1, hrest⟩ := getElem?_of_drop ins i b rest hdrop
      unfold decodes at hdec
      match hd : definitions b with
      | none => simp [hd] at hdec
      | some d =>
        simp only [hd, Bool.and_eq_true, decide_eq_true_eq] at hdec
        obtain ⟨operands, hops⟩ := ReadOperands_of_length b d rest hd hdec.1
        have hl : Lookup b = .ok d := (Lookup_ok_iff b d).mpr hd
        have hs : sliceFrom ins (i + 1) = .ok rest := by
          simp only [sliceFrom, if_pos hi1, hrest]
        have hnext : ins.drop (i + 1 + d.OperandWidths.sum) = rest.drop d.OperandWidths.sum := by
          rw [← hrest, List.drop_drop]
        have hle : i + 1 + d.OperandWidths.sum ≤ ins.length := by
          have : rest.length = ins.length - (i + 1) := by rw [← hrest, List.length_drop]
          omega
        simp only [stringLoop, if_pos hi, hget, hl, hs, hops]
        exact ih f _ _ (by omega) hle (by rw [hnext]; exact hdec.2)

theorem stringLoop_never_returns (ins : Instructions) :
    ∀ (fuel i : Nat) (out s : GoString), i ≤ ins.length →
      stringLoop fuel ins i out ≠ some (.ok s) := by
  intro fuel
  induction fuel with
  | zero => intro i out s _; simp [stringLoop]
  | succ f ih =>
    intro i out s hi
    simp only [stringLoop, if_pos hi]
    match hget : ins[i]? with
    | none => simp
    | some b =>
      have hi1 : i + 1 ≤ ins.length := (List.getElem?_eq_some_iff.mp hget).1
      simp only []
      match hl : Lookup b with
      | .error (.error msg) => exact ih _ _ _ hi
      | .error (.panic msg) => simp
      | .ok d =>
        have hd : definitions b = some d := (Lookup_ok_iff b d).mp hl
        have hs : sliceFrom ins (i + 1) = .ok (ins.drop (i + 1)) := by
          simp only [sliceFrom, if_pos hi1]
        simp only [hs]
        match hr : ReadOperands d (ins.drop (i + 1)) with
        | .error e => simp
        | .ok (operands, read) =>
          have := ReadOperands_read_le b d _ operands read hd hr
          rw [List.length_drop] at this
          exact ih _ _ _ (by omega)

theorem Make_shape (op : Nat) (d : Definition) (operands : List Int)
    (hd : definitions op = some d) (hlen : operands.length = d.OperandWidths.length) :
    ∃ bytes, Make op operands = .ok (op :: bytes) ∧ bytes.length = d.OperandWidths.sum := by
  have hlt : op < 27 := definitions_some_lt op d hd
  have hmod : op % 256 = op := by omega
  rcases widths_cases op d hd with h | h | h
  · rw [h] at hlen
    have : operands = [] := List.length_eq_zero.mp hlen
    subst this
    exact ⟨[], by simp [Make, hd, h, makeLoop, hmod], by simp [h]⟩
  · rw [h] at hlen
    match operands, hlen with
    | [o], _ =>
      exact ⟨[byte o], by simp [Make, hd, h, makeLoop, setByte, hmod], by simp [h]⟩
  · rw [h] at hlen
    match operands, hlen with
    | [o], _ =>
      exact ⟨[uint16 o / 256 % 256, uint16 o % 256], by
        simp [Make, hd, h, makeLoop, PutUint16, hmod], by simp [h]⟩

theorem assemble_decodes (prog : List (Opcode × List Int))
    (hprog : ∀ x ∈ prog, ∃ d, definitions x.1 = some d ∧ x.2.length = d.OperandWidths.length) :
    decodes prog.length (assemble prog) = true := by
  induction prog with
  | nil => simp [assemble, decodes]
  | cons x rest ih =>
    obtain ⟨op, operands⟩ := x
    obtain ⟨d, hd, hlen⟩ := hprog (op, operands) (by simp)
    obtain ⟨bytes, hmake, hbytes⟩ := Make_shape op d operands hd hlen
    have ih2 := ih (fun y hy => hprog y (by simp [hy]))
    simp only [assemble, hmake, List.length_cons, List.cons_append, decodes, hd,
      Bool.and_eq_true, decide_eq_true_eq, List.length_append]
    refine ⟨by omega, ?_⟩
    rw [← hbytes, List.drop_left]
    exact ih2

/-- C31, as the code behaves: the loop of `Instructions.String()` runs while
`i <= len(ins)`, so after the last instruction of a stream that is a
concatenation of `Make` outputs (also of the empty stream) it reads `ins[i]`
with `i = len(ins)` and the call ends in a run-time panic; on no byte
sequence does `String()` return a text.  The lines it writes before have
`NAME, OP1` with a comma after the name, and the names of `OpAdd` and `OpJump` in
the table are `opAdd` and `Opjump`. -/
theorem String_panics_at_the_end (prog : List (Opcode × List Int))
    (hprog : ∀ x ∈ prog, ∃ d, definitions x.1 = some d ∧ x.2.length = d.OperandWidths.length) :
    (∀ k, Instructions.String (prog.length + 1 + k) (assemble prog) =
      some (.error (.panic "index out of range"))) ∧
    (∀ (ins : Instructions) (fuel : Nat) (s : GoString),
      Instructions.String fuel ins ≠ some (.ok s)) ∧
    Instructions.String 1 [] = some (.error (.panic "index out of range")) ∧
    assemble [(OpConstant, [0]), (OpConstant, [1]), (OpAdd, []), (OpPop, [])] =
      [0, 0, 0, 0, 0, 1, 1, 2] ∧
    Instructions.String 5 [0, 0, 0, 0, 0, 1, 1, 2] =
      some (.error (.panic "index out of range")) ∧
    fmt04d 3 ++ " " ++ fmtInstruction ⟨"OpConstant", [2]⟩ [1] ++ "\n" = "0003 OpConstant, 1\n" ∧
    (definitions OpAdd).map (fun d => d.Name) = some "opAdd" ∧
    (definitions OpJump).map (fun d => d.Name) = some "Opjump" := by
  refine ⟨?_, ?_, by decide, by decide, by decide, by decide, by decide, by decide⟩
  · intro k
    exact stringLoop_of_decodes (assemble prog) prog.length _ 0 "" (by omega) (by omega)
      (by rw [List.drop_zero]; exact assemble_decodes prog hprog)
  · intro ins fuel s
    exact stringLoop_never_returns ins fuel 0 "" s (by omega)

/-- Witness of C31: the stream of `OpConstant 0`, `OpAdd`. -/
theorem String_panics_at_the_end_witness :
    (∀ x ∈ [(OpConstant, [(0 : Int)]), (OpAdd, [])],
      ∃ d, definitions x.1 = some d ∧ x.2.length = d.OperandWidths.length) ∧
    Instructions.String (2 + 1 + 0) (assemble [(OpConstant, [(0 : Int)]), (OpAdd, [])]) =
      some (.error (.panic "index out of range")) :=
  ⟨by decide,
    (String_panics_at_the_end [(OpConstant, [(0 : Int)]), (OpAdd, [])] (by decide)).1 0⟩

end code
namespace repl

/-- C32, as the code behaves: when the loop of `formatInstructions` or of
`code.Instructions.String` reaches a byte that is not a defined opcode, it
writes the line `ERROR: opcode … undefined` and takes `continue` without
moving the index, so the next iteration reads the same byte again: the line
is written over and over and the loop never ends (no number of iterations
suffices).  Nor do the disassemblers terminate normally on every byte
sequence otherwise: on an instruction whose operand is cut off,
`ReadOperands` panics before the test for the unexpected end is reached. -/
theorem disassemblers_loop_on_undefined_opcode (ins : code.Instructions) (i b : Nat)
    (hi : ins[i]? = some b) (hb : code.definitions b = none) :
    (∀ fuel out, formatInstructionsLoop (fuel + 1) ins i out =
      formatInstructionsLoop fuel ins i
        (out ++ "ERROR: " ++ ("opcode " ++ toString b ++ " undefined") ++ "\n")) ∧
    (∀ fuel out, formatInstructionsLoop fuel ins i out = none) ∧
    (∀ fuel out, code.stringLoop (fuel + 1) ins i out =
      code.stringLoop fuel ins i
        (out ++ "ERROR: " ++ ("opcode " ++ toString b ++ " undefined") ++ "\n")) ∧
    (∀ fuel out, code.stringLoop fuel ins i out = none) ∧
    code.definitions 27 = none ∧
    (∀ fuel, formatInstructions fuel [27] = none) ∧
    (∀ fuel, formatInstructions fuel [1, 27] = none) ∧
    formatInstructions 4 [0] = some (.error (.panic "index out of range")) ∧
    formatInstructions 4 [0, 1] = some (.error (.panic "index out of range")) ∧
    formatInstructions 4 [23] = some (.error (.panic "index out of range")) := by
  have hlt : i < ins.length := (List.getElem?_eq_some_iff.mp hi).1
  have hl : code.Lookup b = .error (.error ("opcode " ++ toString b ++ " undefined")) := by
    simp only [code.Lookup, hb]
  have s1 : ∀ fuel out, formatInstructionsLoop (fuel + 1) ins i out =
      formatInstructionsLoop fuel ins i
        (out ++ "ERROR: " ++ ("opcode " ++ toString b ++ " undefined") ++ "\n") := by
    intro fuel out
    simp only [formatInstructionsLoop, if_pos hlt, hi, hl]
  have s2 : ∀ fuel out, code.stringLoop (fuel + 1) ins i out =
      code.stringLoop fuel ins i
        (out ++ "ERROR: " ++ ("opcode " ++ toString b ++ " undefined") ++ "\n") := by
    intro fuel out
    simp only [code.stringLoop, if_pos (Nat.le_of_lt hlt), hi, hl]
  have n1 : ∀ fuel out, formatInstructionsLoop fuel ins i out = none := by
    intro fuel
    induction fuel with
    | zero => intro out; simp [formatInstructionsLoop]
    | succ f ih => intro out; rw [s1]; exact ih _
  have n2 : ∀ fuel out, code.stringLoop fuel ins i out = none := by
    intro fuel
    induction fuel with
    | zero => intro out; simp [code.stringLoop]
    | succ f ih => intro out; rw [s2]; exact ih _
  have l27 : ∀ fuel out, formatInstructionsLoop fuel [27] 0 out = none := by
    intro fuel
    induction fuel with
    | zero => intro out; simp [formatInstructionsLoop]
    | succ f ih =>
      intro out
      have : code.Lookup 27 = .error (.error "opcode 27 undefined") := by decide
      simp only [formatInstructionsLoop, List.length_singleton, Nat.lt_one_iff, if_true,
        List.getElem?_cons_zero, this]
      exact ih _
  have l127 : ∀ fuel out, formatInstructionsLoop fuel [1, 27] 1 out = none := by
    intro fuel
    induction fuel with
    | zero => intro out; simp [formatInstructionsLoop]
    | succ f ih =>
      intro out
      have : code.Lookup 27 = .error (.error "opcode 27 undefined") := by decide
      have h2 : (1 : Nat) < [1, 27].length := by decide
      have h3 : ([1, 27] : List Nat)[1]? = some 27 := by decide
      simp only [formatInstructionsLoop, if_pos h2, h3, this]
      exact ih _
  refine ⟨s1, n1, s2, n2, by decide, ?_, ?_, by decide, by decide, by decide⟩
  · intro fuel
    exact l27 fuel ""
  · intro fuel
    cases fuel with
    | zero => rfl
    | succ f =>
      have h2 : (0 : Nat) < [1, 27].length := by decide
      have h3 : ([1, 27] : List Nat)[0]? = some 1 := by decide
      have h4 : code.Lookup 1 = .ok ⟨"opAdd", []⟩ := by decide
      have h5 : code.sliceFrom [1, 27] (0 + 1) = .ok [27] := by decide
      have h6 : code.ReadOperands ⟨"opAdd", []⟩ [27] = .ok ([], 0) := by decide
      have h7 : ¬ (0 > ([27] : List Nat).length) := by decide
      simp only [formatInstructions, formatInstructionsLoop, if_pos h2, h3, h4, h5, h6, if_neg h7]
      exact l127 f _

/-- Witness of C32: the byte 200 at index 1 of the stream `OpTrue`, 200. -/
theorem disassemblers_loop_on_undefined_opcode_witness :
    ([6, 200] : List Nat)[1]? = some 200 ∧ code.definitions 200 = none ∧
    ∀ fuel out, formatInstructionsLoop fuel [6, 200] 1 out = none :=
  ⟨by decide, by decide,
    (disassemblers_loop_on_undefined_opcode [6, 200] 1 200 (by decide) (by decide)).2.1⟩

/-- C33, as the code behaves: the disassembly of `1 + 2` lists four
instructions at the offsets 0000, 0003, 0006, 0007, but the third line is
`0006 opAdd`, not `0006 OpAdd`: the definition table spells the name of
`OpAdd` with a small `o` (and the name of `OpJump` as `Opjump`, as the
disassembly of `if (true) { 10 }; 3333;` shows). -/
theorem disassembly_of_one_plus_two :
    disassembledInstructions 5 (scenarios.infixProgram 1 "+" 2) =
      some (.ok "0000 OpConstant 0\n0003 OpConstant 1\n0006 opAdd\n0007 OpPop\n") ∧
    disassembledInstructions 5 (scenarios.infixProgram 1 "+" 2) ≠
      some (.ok "0000 OpConstant 0\n0003 OpConstant 1\n0006 OpAdd\n0007 OpPop\n") ∧
    scenarios.compiled (.Program (scenarios.infixProgram 1 "+" 2)) compiler.New =
      (.ok (), .ok [0, 0, 0, 0, 0, 1, 1, 2], [.Integer 1, .Integer 2]) ∧
    code.Lookup code.OpAdd = .ok ⟨"opAdd", []⟩ ∧
    code.Lookup code.OpJump = .ok ⟨"Opjump", [2]⟩ ∧
    disassembledInstructions 9 scenarios.ifThenProgram =
      some (.ok ("0000 OpTrue\n0001 OpJumpNotTruthy 10\n0004 OpConstant 0\n0007 Opjump 11\n" ++
        "0010 OpNull\n0011 OpPop\n0012 OpConstant 1\n0015 OpPop\n")) :=
  ⟨by decide!, by decide!, by decide!, by decide, by decide, by decide!⟩

end repl
namespace repl

/-- C34, as the code behaves: the symbol table is one object shared by all
inputs, and `Define` writes to it while the statement is being compiled.  For
the input `if (true) { 1 } else { let a = 1; undefinedVar };` the call of
`Compile` returns the error "undefined variable undefinedVar", yet afterwards
the table of the session holds `a` as global 0 and `numDefinitions` is 1.  A
later input `a;` compiles and runs (it reads the global that was never
assigned) where a fresh session reports "undefined variable a", and a later
`let b = 5;` gets the index 1 instead of 0.  The constants of the session are
left as they were. -/
theorem failed_statement_leaves_definition :
    outcome (handleNormalCommand 8 scenarios.failingElseProgram newSession).1 =
      some (.error (.error "undefined variable undefinedVar")) ∧
    newSession.symbolTable.Resolve "a" = (⟨"", "", 0⟩, false) ∧
    newSession.symbolTable.numDefinitions = 0 ∧
    (handleNormalCommand 8 scenarios.failingElseProgram newSession).2.symbolTable.Resolve "a" =
      (⟨"a", compiler.GlobalScope, 0⟩, true) ∧
    (handleNormalCommand 8 scenarios.failingElseProgram newSession).2.symbolTable.numDefinitions
      = 1 ∧
    (handleNormalCommand 8 scenarios.failingElseProgram newSession).2.constants.length = 0 ∧
    outcome (handleNormalCommand 8 (scenarios.readProgram "a")
      (handleNormalCommand 8 scenarios.failingElseProgram newSession).2).1 = some (.ok .nil) ∧
    outcome (handleNormalCommand 8 (scenarios.readProgram "a") newSession).1 =
      some (.error (.error "undefined variable a")) ∧
    (handleNormalCommand 8 (scenarios.letProgram "b" 5)
      (handleNormalCommand 8 scenarios.failingElseProgram newSession).2).2.symbolTable.Resolve "b" =
      (⟨"b", compiler.GlobalScope, 1⟩, true) ∧
    (handleNormalCommand 8 (scenarios.letProgram "b" 5) newSession).2.symbolTable.Resolve "b" =
      (⟨"b", compiler.GlobalScope, 0⟩, true) :=
  ⟨by decide!, by decide!, by decide!, by decide!, by decide!, by decide!, by decide!,
    by decide!, by decide!, by decide!⟩

end repl

namespace compiler

/-- C39, as the code behaves: `[fn() { undefinedVar }];` compiles without
error, because the array literal drops the error of its element, but the
function literal has returned before its `leaveScope`: after `Compile` the
`scopeIndex` is 1 instead of 0, there are two compilation scopes instead of
one, the current symbol table is the enclosed table of the function, and
`Bytecode()` returns the instructions of the scope of the function (the
`OpPop` of the statement) while the main scope is empty; running them panics
in `pop`.  An `enterScope` directly followed by `leaveScope` does restore the
compiler, and without a dropped error the scope is left:
`fn(a, b) { let c = a; c + b };` ends with `scopeIndex` 0 in one scope. -/
theorem scope_not_left_after_dropped_error (c : Compiler)
    (hscopes : c.scopeIndex + 1 = c.scopes.length) :
    ((do enterScope; leaveScope) : GoM Compiler code.Instructions) c = (.ok [], c) ∧
    (Compile (.Program scenarios.arrayFunctionErrorProgram) New).1 = .ok () ∧
    New.scopeIndex = 0 ∧ New.scopes.length = 1 ∧
    New.SymbolTable.map (fun t => t.Outer.isSome) = some false ∧
    (Compile (.Program scenarios.arrayFunctionErrorProgram) New).2.scopeIndex = 1 ∧
    (Compile (.Program scenarios.arrayFunctionErrorProgram) New).2.scopes.length = 2 ∧
    (Compile (.Program scenarios.arrayFunctionErrorProgram) New).2.SymbolTable.map
      (fun t => t.Outer.isSome) = some true ∧
    (Compile (.Program scenarios.arrayFunctionErrorProgram) New).2.scopes.map
      (fun sc => sc.instructions) = [[], [2]] ∧
    scenarios.compiled (.Program scenarios.arrayFunctionErrorProgram) New =
      (.ok (), .ok [2], []) ∧
    scenarios.runFresh 8 scenarios.arrayFunctionErrorProgram =
      some (.error (.panic "index out of range"), 0, 1) ∧
    (Compile (.Program scenarios.localsFunctionProgram) New).2.scopeIndex = 0 ∧
    (Compile (.Program scenarios.localsFunctionProgram) New).2.scopes.length = 1 ∧
    (Compile (.Program scenarios.localsFunctionProgram) New).2.SymbolTable.map
      (fun t => t.Outer.isSome) = some false := by
  refine ⟨?_, by decide!, by decide!, by decide!, by decide!, by decide!, by decide!, by decide!,
    by decide!, by decide!, by decide!, by decide!, by decide!, by decide!⟩
  obtain ⟨constants, table, scopes, scopeIndex⟩ := c
  simp only [] at hscopes
  have hidx : scopeIndex + 1 = ((scopes ++ [(⟨[], ⟨0, 0⟩, ⟨0, 0⟩⟩ : CompilationScope)]).length : Int) - 1 := by
    simp only [List.length_append, List.length_singleton, Nat.cast_add, Nat.cast_one]
    omega
  have h0 : ¬ (scopeIndex + 1 < 0) := by omega
  have hn : (scopeIndex + 1).toNat = scopes.length := by omega
  have hget : (scopes ++ [(⟨[], ⟨0, 0⟩, ⟨0, 0⟩⟩ : CompilationScope)])[(scopeIndex + 1).toNat]? =
      some ⟨[], ⟨0, 0⟩, ⟨0, 0⟩⟩ := by
    rw [hn]
    simp
  have hne : scopes ++ [(⟨[], ⟨0, 0⟩, ⟨0, 0⟩⟩ : CompilationScope)] ≠ [] := by simp
  simp only [bind, GoM.bind, enterScope, leaveScope, currentInstructions, currentScope, indexInt,
    if_neg h0, hget, pure, GoM.pure, GoM.get]
  cases hs : scopes ++ [(⟨[], ⟨0, 0⟩, ⟨0, 0⟩⟩ : CompilationScope)] with
  | nil => exact absurd hs hne
  | cons x xs =>
    simp only [GoM.set, NewEnclosedSymbolTable, NewSymbolTable, SymbolTable.Outer]
    rw [← hs]
    simp
    rfl

/-- Witness of C39: on the compiler that `New()` returns, `enterScope`
followed by `leaveScope` restores the compiler. -/
theorem scope_not_left_after_dropped_error_witness :
    New.scopeIndex + 1 = New.scopes.length ∧
    ((do enterScope; leaveScope) : GoM Compiler code.Instructions) New = (.ok [], New) :=
  ⟨by decide, (scope_not_left_after_dropped_error New (by decide)).1⟩

/-- C40, as the code behaves: the function of
`let f = fn() { if (false) { undefinedVar } }; f();` is added to the
constants with the instructions `OpFalse`, `OpJumpNotTruthy 9999`,
`OpReturnValue`: not empty, whole instructions, the last one a return.  But
the error in the consequence was dropped before the jump was patched: the
call of `f` jumps to 9999, the loop of `Run` ends with the frame of `f` still
live (two frames, the `ip` of the inner one 9998) and `Run` returns nil: the
frame has run past the end of its instructions without a return.  The
functions of `let add = fn(a, b) { a + b; }; add(3, 4);`,
`fn(a, b) { let c = a; c + b };` and `fn() { };` end with a return and a
frame of `add` leaves through it. -/
theorem function_frame_runs_past_its_end :
    (Compile (.Program scenarios.abandonedFrameProgram) New).1 = .ok () ∧
    scenarios.compiledFunctions (.Program scenarios.abandonedFrameProgram) New =
      [{ Instructions := [7, 13, 39, 15, 24], NumLocals := 0, NumParameters := 0 }] ∧
    code.decodes 3 [7, 13, 39, 15, 24] = true ∧
    code.ReadUint16 [39, 15] = .ok 9999 ∧
    scenarios.runFresh 16 scenarios.abandonedFrameProgram = some (.ok (), 1, 2) ∧
    scenarios.frameIps 16 scenarios.abandonedFrameProgram = some [9998, 10] ∧
    scenarios.compiledFunctions (.Program (scenarios.addProgram 3 4)) New =
      [{ Instructions := [18, 0, 18, 1, 1, 24], NumLocals := 2, NumParameters := 2 }] ∧
    code.decodes 4 [18, 0, 18, 1, 1, 24] = true ∧
    scenarios.runFresh 32 (scenarios.addProgram 3 4) = some (.ok (), 0, 1) ∧
    scenarios.compiledFunctions (.Program scenarios.localsFunctionProgram) New =
      [{ Instructions := [18, 0, 19, 2, 18, 2, 18, 1, 1, 24], NumLocals := 3,
         NumParameters := 2 }] ∧
    code.decodes 6 [18, 0, 19, 2, 18, 2, 18, 1, 1, 24] = true ∧
    scenarios.compiledFunctions (.Program scenarios.emptyFunctionProgram) New =
      [{ Instructions := [25], NumLocals := 0, NumParameters := 0 }] :=
  ⟨by decide!, by decide!, by decide!, by decide!, by decide!, by decide!, by decide!,
    by decide!, by decide!, by decide!, by decide!, by decide!⟩

end compiler
namespace compiler

open scenarios (appendsConstants)

theorem appends_pure {α : Type} (a : α) : appendsConstants (pure a : GoM Compiler α) :=
  fun c => List.prefix_refl _

theorem appends_bind {α β : Type} {m : GoM Compiler α} {f : α → GoM Compiler β}
    (hm : appendsConstants m) (hf : ∀ a, appendsConstants (f a)) :
    appendsConstants (m >>= f) := by
  intro c
  have h1 := hm c
  show c.constants <+: (GoM.bind m f c).2.constants
  unfold GoM.bind
  cases hr : m c with
  | mk r c2 =>
    rw [hr] at h1
    cases r with
    | error e => exact h1
    | ok a => exact List.IsPrefix.trans h1 (hf a c2)

theorem appends_of_constants_eq {α : Type} (m : GoM Compiler α)
    (h : ∀ c, (m c).2.constants = c.constants) : appendsConstants m := by
  intro c
  rw [h c]

theorem appends_lift {α : Type} (r : Except Err α) :
    appendsConstants (GoM.lift r : GoM Compiler α) :=
  fun c => List.prefix_refl _

theorem appends_fail {α : Type} (e : Err) : appendsConstants (GoM.fail e : GoM Compiler α) :=
  fun c => List.prefix_refl _

theorem appends_get : appendsConstants (GoM.get : GoM Compiler Compiler) :=
  fun c => List.prefix_refl _

theorem appends_currentScope : appendsConstants currentScope :=
  fun c => List.prefix_refl _

theorem appends_setCurrentScope (sc : CompilationScope) : appendsConstants (setCurrentScope sc) := by
  apply appends_of_constants_eq
  intro c
  unfold setCurrentScope
  split <;> rfl

theorem appends_nextRef : appendsConstants nextRef :=
  fun c => List.prefix_refl _

theorem appends_addConstant (obj : object.Object) : appendsConstants (addConstant obj) :=
  fun c => List.prefix_append _ _

theorem appends_define (name : GoString) : appendsConstants (define name) := by
  apply appends_of_constants_eq
  intro c
  unfold define
  split <;> rfl

theorem appends_resolve (name : GoString) : appendsConstants (resolve name) := by
  apply appends_of_constants_eq
  intro c
  unfold resolve
  split <;> rfl

theorem appends_numDefinitions : appendsConstants numDefinitions := by
  apply appends_of_constants_eq
  intro c
  unfold numDefinitions
  split <;> rfl

theorem appends_enterScope : appendsConstants enterScope :=
  fun c => List.prefix_refl _

theorem appends_set_of_eq (c2 : Compiler) (c : Compiler) (h : c2.constants = c.constants) :
    c.constants <+: ((GoM.set c2 : GoM Compiler Unit) c).2.constants := by
  show c.constants <+: c2.constants
  rw [h]

theorem appends_currentInstructions : appendsConstants currentInstructions := by
  unfold currentInstructions
  exact appends_bind appends_currentScope fun _ => appends_pure _

theorem appends_leaveScope : appendsConstants leaveScope := by
  apply appends_of_constants_eq
  intro c
  simp only [leaveScope, bind, GoM.bind, currentInstructions, currentScope, pure, GoM.pure,
    GoM.get]
  cases indexInt c.scopes c.scopeIndex with
  | error e => rfl
  | ok sc =>
    simp only []
    cases c.scopes with
    | nil => rfl
    | cons x xs =>
      simp only []
      cases c.SymbolTable with
      | none => rfl
      | some s => rfl

theorem appends_addInstruction (ins : List Nat) : appendsConstants (addInstruction ins) := by
  unfold addInstruction
  exact appends_bind appends_currentScope fun _ =>
    appends_bind (appends_setCurrentScope _) fun _ => appends_pure _

theorem appends_setLastInstruction (op : code.Opcode) (pos : Int) :
    appendsConstants (setLastInstruction op pos) := by
  unfold setLastInstruction
  exact appends_bind appends_currentScope fun _ =>
    appends_bind appends_currentScope fun _ =>
    appends_bind (appends_setCurrentScope _) fun _ =>
    appends_bind appends_currentScope fun _ => appends_setCurrentScope _

theorem appends_emit (op : code.Opcode) (operands : List Int) :
    appendsConstants (emit op operands) := by
  unfold emit
  exact appends_bind (appends_lift _) fun _ =>
    appends_bind (appends_addInstruction _) fun _ =>
    appends_bind (appends_setLastInstruction _ _) fun _ => appends_pure _

theorem appends_lastInstructionIs (op : code.Opcode) : appendsConstants (lastInstructionIs op) := by
  unfold lastInstructionIs
  refine appends_bind appends_currentInstructions fun ins => ?_
  split
  · exact appends_pure _
  · exact appends_bind appends_currentScope fun _ => appends_pure _

theorem appends_removeLastPop : appendsConstants removeLastPop := by
  unfold removeLastPop
  exact appends_bind appends_currentScope fun _ =>
    appends_bind appends_currentInstructions fun _ =>
    appends_bind (appends_lift _) fun _ =>
    appends_bind appends_currentScope fun _ =>
    appends_bind (appends_setCurrentScope _) fun _ =>
    appends_bind appends_currentScope fun _ => appends_setCurrentScope _

theorem appends_replaceInstruction (pos : Int) (newInstruction : List Nat) :
    appendsConstants (replaceInstruction pos newInstruction) := by
  unfold replaceInstruction
  exact appends_bind appends_currentScope fun _ =>
    appends_bind (appends_lift _) fun _ => appends_setCurrentScope _

theorem appends_changeOperand (opPos operand : Int) :
    appendsConstants (changeOperand opPos operand) := by
  unfold changeOperand
  exact appends_bind appends_currentInstructions fun _ =>
    appends_bind (appends_lift _) fun _ =>
    appends_bind (appends_lift _) fun _ => appends_replaceInstruction _ _

theorem appends_replaceLastPopWithReturn : appendsConstants replaceLastPopWithReturn := by
  unfold replaceLastPopWithReturn
  exact appends_bind appends_currentScope fun _ =>
    appends_bind (appends_lift _) fun _ =>
    appends_bind (appends_replaceInstruction _ _) fun _ =>
    appends_bind appends_currentScope fun _ => appends_setCurrentScope _

theorem appends_emit_unit (op : code.Opcode) (operands : List Int) :
    appendsConstants (do let _ ← emit op operands : GoM Compiler Unit) :=
  appends_bind (appends_emit _ _) fun _ => appends_pure _

theorem appends_loadSymbol (s : Symbol) : appendsConstants (loadSymbol s) := by
  unfold loadSymbol
  split
  · exact appends_emit_unit _ _
  · split
    · exact appends_emit_unit _ _
    · split
      · exact appends_emit_unit _ _
      · exact appends_pure _

theorem appends_defineParameters (ps : List GoString) : appendsConstants (defineParameters ps) := by
  induction ps with
  | nil => exact appends_pure _
  | cons p ps ih =>
    unfold defineParameters
    exact appends_bind (appends_define _) fun _ => ih

theorem appends_returnNilOnError (m next : GoM Compiler Unit)
    (hm : appendsConstants m) (hn : appendsConstants next) :
    appendsConstants (returnNilOnError m next) := by
  intro c
  have h1 := hm c
  unfold returnNilOnError
  cases hr : m c with
  | mk r c2 =>
    rw [hr] at h1
    cases r with
    | ok u => exact List.IsPrefix.trans h1 (hn c2)
    | error e =>
      cases e with
      | error msg => exact h1
      | panic msg => exact h1

theorem appends_sequence (ms : List (GoM Compiler Unit)) (h : ∀ m ∈ ms, appendsConstants m) :
    appendsConstants (sequence ms) := by
  induction ms with
  | nil => exact appends_pure _
  | cons m ms ih =>
    unfold sequence
    exact appends_bind (h m (by simp)) fun _ => ih fun x hx => h x (by simp [hx])

theorem appends_compileInfixExpression (operator : GoString) (left right : GoM Compiler Unit)
    (hl : appendsConstants left) (hr : appendsConstants right) :
    appendsConstants (compileInfixExpression operator left right) := by
  unfold compileInfixExpression
  dsimp only
  repeat' first
    | with_reducible exact appends_pure _
    | with_reducible exact appends_fail _
    | with_reducible exact appends_lift _
    | with_reducible exact appends_emit _ _
    | with_reducible exact appends_nextRef
    | with_reducible exact appends_addConstant _
    | with_reducible exact appends_define _
    | with_reducible exact appends_resolve _
    | with_reducible exact appends_numDefinitions
    | with_reducible exact appends_enterScope
    | with_reducible exact appends_leaveScope
    | with_reducible exact appends_defineParameters _
    | with_reducible exact appends_lastInstructionIs _
    | with_reducible exact appends_removeLastPop
    | with_reducible exact appends_replaceLastPopWithReturn
    | with_reducible exact appends_changeOperand _ _
    | with_reducible exact appends_currentInstructions
    | with_reducible exact appends_loadSymbol _
    | with_reducible exact h3 _ rfl
    | with_reducible assumption
    | with_reducible refine appends_bind ?_ (fun _ => ?_)
    | with_reducible apply appends_returnNilOnError
    | with_reducible apply appends_sequence
    | split

theorem appends_compileIntegerLiteral (value : Int) :
    appendsConstants (compileIntegerLiteral value) := by
  unfold compileIntegerLiteral
  dsimp only
  repeat' first
    | with_reducible exact appends_pure _
    | with_reducible exact appends_fail _
    | with_reducible exact appends_lift _
    | with_reducible exact appends_emit _ _
    | with_reducible exact appends_nextRef
    | with_reducible exact appends_addConstant _
    | with_reducible exact appends_define _
    | with_reducible exact appends_resolve _
    | with_reducible exact appends_numDefinitions
    | with_reducible exact appends_enterScope
    | with_reducible exact appends_leaveScope
    | with_reducible exact appends_defineParameters _
    | with_reducible exact appends_lastInstructionIs _
    | with_reducible exact appends_removeLastPop
    | with_reducible exact appends_replaceLastPopWithReturn
    | with_reducible exact appends_changeOperand _ _
    | with_reducible exact appends_currentInstructions
    | with_reducible exact appends_loadSymbol _
    | with_reducible exact h3 _ rfl
    | with_reducible assumption
    | with_reducible refine appends_bind ?_ (fun _ => ?_)
    | with_reducible apply appends_returnNilOnError
    | with_reducible apply appends_sequence
    | split

theorem appends_compileStringLiteral (value : GoString) :
    appendsConstants (compileStringLiteral value) := by
  unfold compileStringLiteral
  dsimp only
  repeat' first
    | with_reducible exact appends_pure _
    | with_reducible exact appends_fail _
    | with_reducible exact appends_lift _
    | with_reducible exact appends_emit _ _
    | with_reducible exact appends_nextRef
    | with_reducible exact appends_addConstant _
    | with_reducible exact appends_define _
    | with_reducible exact appends_resolve _
    | with_reducible exact appends_numDefinitions
    | with_reducible exact appends_enterScope
    | with_reducible exact appends_leaveScope
    | with_reducible exact appends_defineParameters _
    | with_reducible exact appends_lastInstructionIs _
    | with_reducible exact appends_removeLastPop
    | with_reducible exact appends_replaceLastPopWithReturn
    | with_reducible exact appends_changeOperand _ _
    | with_reducible exact appends_currentInstructions
    | with_reducible exact appends_loadSymbol _
    | with_reducible exact h3 _ rfl
    | with_reducible assumption
    | with_reducible refine appends_bind ?_ (fun _ => ?_)
    | with_reducible apply appends_returnNilOnError
    | with_reducible apply appends_sequence
    | split

theorem appends_compileBoolean (value : Bool) :
    appendsConstants (compileBoolean value) := by
  unfold compileBoolean
  dsimp only
  repeat' first
    | with_reducible exact appends_pure _
    | with_reducible exact appends_fail _
    | with_reducible exact appends_lift _
    | with_reducible exact appends_emit _ _
    | with_reducible exact appends_nextRef
    | with_reducible exact appends_addConstant _
    | with_reducible exact appends_define _
    | with_reducible exact appends_resolve _
    | with_reducible exact appends_numDefinitions
    | with_reducible exact appends_enterScope
    | with_reducible exact appends_leaveScope
    | with_reducible exact appends_defineParameters _
    | with_reducible exact appends_lastInstructionIs _
    | with_reducible exact appends_removeLastPop
    | with_reducible exact appends_replaceLastPopWithReturn
    | with_reducible exact appends_changeOperand _ _
    | with_reducible exact appends_currentInstructions
    | with_reducible exact appends_loadSymbol _
    | with_reducible exact h3 _ rfl
    | with_reducible assumption
    | with_reducible refine appends_bind ?_ (fun _ => ?_)
    | with_reducible apply appends_returnNilOnError
    | with_reducible apply appends_sequence
    | split

theorem appends_compilePrefixExpression (operator : GoString) (right : GoM Compiler Unit)
    (hr : appendsConstants right) :
    appendsConstants (compilePrefixExpression operator right) := by
  unfold compilePrefixExpression
  dsimp only
  repeat' first
    | with_reducible exact appends_pure _
    | with_reducible exact appends_fail _
    | with_reducible exact appends_lift _
    | with_reducible exact appends_emit _ _
    | with_reducible exact appends_nextRef
    | with_reducible exact appends_addConstant _
    | with_reducible exact appends_define _
    | with_reducible exact appends_resolve _
    | with_reducible exact appends_numDefinitions
    | with_reducible exact appends_enterScope
    | with_reducible exact appends_leaveScope
    | with_reducible exact appends_defineParameters _
    | with_reducible exact appends_lastInstructionIs _
    | with_reducible exact appends_removeLastPop
    | with_reducible exact appends_replaceLastPopWithReturn
    | with_reducible exact appends_changeOperand _ _
    | with_reducible exact appends_currentInstructions
    | with_reducible exact appends_loadSymbol _
    | with_reducible exact h3 _ rfl
    | with_reducible assumption
    | with_reducible refine appends_bind ?_ (fun _ => ?_)
    | with_reducible apply appends_returnNilOnError
    | with_reducible apply appends_sequence
    | split

theorem appends_compileIfExpression (condition consequence : GoM Compiler Unit)
    (alternative : Option (GoM Compiler Unit))
    (h1 : appendsConstants condition) (h2 : appendsConstants consequence)
    (h3 : ∀ alt, alternative = some alt → appendsConstants alt) :
    appendsConstants (compileIfExpression condition consequence alternative) := by
  unfold compileIfExpression
  dsimp only
  cases alternative <;> dsimp only <;>
  repeat' first
    | with_reducible exact appends_pure _
    | with_reducible exact appends_fail _
    | with_reducible exact appends_lift _
    | with_reducible exact appends_emit _ _
    | with_reducible exact appends_nextRef
    | with_reducible exact appends_addConstant _
    | with_reducible exact appends_define _
    | with_reducible exact appends_resolve _
    | with_reducible exact appends_numDefinitions
    | with_reducible exact appends_enterScope
    | with_reducible exact appends_leaveScope
    | with_reducible exact appends_defineParameters _
    | with_reducible exact appends_lastInstructionIs _
    | with_reducible exact appends_removeLastPop
    | with_reducible exact appends_replaceLastPopWithReturn
    | with_reducible exact appends_changeOperand _ _
    | with_reducible exact appends_currentInstructions
    | with_reducible exact appends_loadSymbol _
    | with_reducible exact h3 _ rfl
    | with_reducible assumption
    | with_reducible refine appends_bind ?_ (fun _ => ?_)
    | with_reducible apply appends_returnNilOnError
    | with_reducible apply appends_sequence
    | split

theorem appends_compileIdentifier (value : GoString) :
    appendsConstants (compileIdentifier value) := by
  unfold compileIdentifier
  dsimp only
  repeat' first
    | with_reducible exact appends_pure _
    | with_reducible exact appends_fail _
    | with_reducible exact appends_lift _
    | with_reducible exact appends_emit _ _
    | with_reducible exact appends_nextRef
    | with_reducible exact appends_addConstant _
    | with_reducible exact appends_define _
    | with_reducible exact appends_resolve _
    | with_reducible exact appends_numDefinitions
    | with_reducible exact appends_enterScope
    | with_reducible exact appends_leaveScope
    | with_reducible exact appends_defineParameters _
    | with_reducible exact appends_lastInstructionIs _
    | with_reducible exact appends_removeLastPop
    | with_reducible exact appends_replaceLastPopWithReturn
    | with_reducible exact appends_changeOperand _ _
    | with_reducible exact appends_currentInstructions
    | with_reducible exact appends_loadSymbol _
    | with_reducible exact h3 _ rfl
    | with_reducible assumption
    | with_reducible refine appends_bind ?_ (fun _ => ?_)
    | with_reducible apply appends_returnNilOnError
    | with_reducible apply appends_sequence
    | split

theorem appends_compileArrayLiteral (elements : List (GoM Compiler Unit))
    (h : ∀ m ∈ elements, appendsConstants m) :
    appendsConstants (compileArrayLiteral elements) := by
  unfold compileArrayLiteral
  dsimp only
  repeat' first
    | with_reducible exact appends_pure _
    | with_reducible exact appends_fail _
    | with_reducible exact appends_lift _
    | with_reducible exact appends_emit _ _
    | with_reducible exact appends_nextRef
    | with_reducible exact appends_addConstant _
    | with_reducible exact appends_define _
    | with_reducible exact appends_resolve _
    | with_reducible exact appends_numDefinitions
    | with_reducible exact appends_enterScope
    | with_reducible exact appends_leaveScope
    | with_reducible exact appends_defineParameters _
    | with_reducible exact appends_lastInstructionIs _
    | with_reducible exact appends_removeLastPop
    | with_reducible exact appends_replaceLastPopWithReturn
    | with_reducible exact appends_changeOperand _ _
    | with_reducible exact appends_currentInstructions
    | with_reducible exact appends_loadSymbol _
    | with_reducible exact h3 _ rfl
    | with_reducible assumption
    | with_reducible refine appends_bind ?_ (fun _ => ?_)
    | with_reducible apply appends_returnNilOnError
    | with_reducible apply appends_sequence
    | split

theorem appends_compileHashLiteral (pairs : List (GoString × GoM Compiler Unit))
    (h : ∀ p ∈ pairs, appendsConstants p.2) :
    appendsConstants (compileHashLiteral pairs) := by
  have h2 : ∀ m ∈ (sortSlice (fun a b => decide (a.1 < b.1)) pairs).map Prod.snd,
      appendsConstants m := by
    intro m hm
    obtain ⟨p, hp, rfl⟩ := List.mem_map.mp hm
    exact h p ((sortSlice_perm _ pairs).mem_iff.mp hp)
  unfold compileHashLiteral
  dsimp only
  repeat' first
    | with_reducible exact appends_pure _
    | with_reducible exact appends_fail _
    | with_reducible exact appends_lift _
    | with_reducible exact appends_emit _ _
    | with_reducible exact appends_nextRef
    | with_reducible exact appends_addConstant _
    | with_reducible exact appends_define _
    | with_reducible exact appends_resolve _
    | with_reducible exact appends_numDefinitions
    | with_reducible exact appends_enterScope
    | with_reducible exact appends_leaveScope
    | with_reducible exact appends_defineParameters _
    | with_reducible exact appends_lastInstructionIs _
    | with_reducible exact appends_removeLastPop
    | with_reducible exact appends_replaceLastPopWithReturn
    | with_reducible exact appends_changeOperand _ _
    | with_reducible exact appends_currentInstructions
    | with_reducible exact appends_loadSymbol _
    | with_reducible exact h3 _ rfl
    | with_reducible assumption
    | with_reducible refine appends_bind ?_ (fun _ => ?_)
    | with_reducible apply appends_returnNilOnError
    | with_reducible apply appends_sequence
    | split

theorem appends_compileIndexExpression (left index : GoM Compiler Unit)
    (hl : appendsConstants left) (hi : appendsConstants index) :
    appendsConstants (compileIndexExpression left index) := by
  unfold compileIndexExpression
  dsimp only
  repeat' first
    | with_reducible exact appends_pure _
    | with_reducible exact appends_fail _
    | with_reducible exact appends_lift _
    | with_reducible exact appends_emit _ _
    | with_reducible exact appends_nextRef
    | with_reducible exact appends_addConstant _
    | with_reducible exact appends_define _
    | with_reducible exact appends_resolve _
    | with_reducible exact appends_numDefinitions
    | with_reducible exact appends_enterScope
    | with_reducible exact appends_leaveScope
    | with_reducible exact appends_defineParameters _
    | with_reducible exact appends_lastInstructionIs _
    | with_reducible exact appends_removeLastPop
    | with_reducible exact appends_replaceLastPopWithReturn
    | with_reducible exact appends_changeOperand _ _
    | with_reducible exact appends_currentInstructions
    | with_reducible exact appends_loadSymbol _
    | with_reducible exact h3 _ rfl
    | with_reducible assumption
    | with_reducible refine appends_bind ?_ (fun _ => ?_)
    | with_reducible apply appends_returnNilOnError
    | with_reducible apply appends_sequence
    | split

theorem appends_compileFunctionLiteral (parameters : List GoString) (body : GoM Compiler Unit)
    (hb : appendsConstants body) :
    appendsConstants (compileFunctionLiteral parameters body) := by
  unfold compileFunctionLiteral
  dsimp only
  repeat' first
    | with_reducible exact appends_pure _
    | with_reducible exact appends_fail _
    | with_reducible exact appends_lift _
    | with_reducible exact appends_emit _ _
    | with_reducible exact appends_nextRef
    | with_reducible exact appends_addConstant _
    | with_reducible exact appends_define _
    | with_reducible exact appends_resolve _
    | with_reducible exact appends_numDefinitions
    | with_reducible exact appends_enterScope
    | with_reducible exact appends_leaveScope
    | with_reducible exact appends_defineParameters _
    | with_reducible exact appends_lastInstructionIs _
    | with_reducible exact appends_removeLastPop
    | with_reducible exact appends_replaceLastPopWithReturn
    | with_reducible exact appends_changeOperand _ _
    | with_reducible exact appends_currentInstructions
    | with_reducible exact appends_loadSymbol _
    | with_reducible exact h3 _ rfl
    | with_reducible assumption
    | with_reducible refine appends_bind ?_ (fun _ => ?_)
    | with_reducible apply appends_returnNilOnError
    | with_reducible apply appends_sequence
    | split

theorem appends_compileCallExpression (function : GoM Compiler Unit)
    (arguments : List (GoM Compiler Unit))
    (hf : appendsConstants function) (ha : ∀ m ∈ arguments, appendsConstants m) :
    appendsConstants (compileCallExpression function arguments) := by
  unfold compileCallExpression
  dsimp only
  repeat' first
    | with_reducible exact appends_pure _
    | with_reducible exact appends_fail _
    | with_reducible exact appends_lift _
    | with_reducible exact appends_emit _ _
    | with_reducible exact appends_nextRef
    | with_reducible exact appends_addConstant _
    | with_reducible exact appends_define _
    | with_reducible exact appends_resolve _
    | with_reducible exact appends_numDefinitions
    | with_reducible exact appends_enterScope
    | with_reducible exact appends_leaveScope
    | with_reducible exact appends_defineParameters _
    | with_reducible exact appends_lastInstructionIs _
    | with_reducible exact appends_removeLastPop
    | with_reducible exact appends_replaceLastPopWithReturn
    | with_reducible exact appends_changeOperand _ _
    | with_reducible exact appends_currentInstructions
    | with_reducible exact appends_loadSymbol _
    | with_reducible exact h3 _ rfl
    | with_reducible assumption
    | with_reducible refine appends_bind ?_ (fun _ => ?_)
    | with_reducible apply appends_returnNilOnError
    | with_reducible apply appends_sequence
    | split

theorem appends_compileExpressionStatement (expression : GoM Compiler Unit)
    (h : appendsConstants expression) :
    appendsConstants (compileExpressionStatement expression) := by
  unfold compileExpressionStatement
  dsimp only
  repeat' first
    | with_reducible exact appends_pure _
    | with_reducible exact appends_fail _
    | with_reducible exact appends_lift _
    | with_reducible exact appends_emit _ _
    | with_reducible exact appends_nextRef
    | with_reducible exact appends_addConstant _
    | with_reducible exact appends_define _
    | with_reducible exact appends_resolve _
    | with_reducible exact appends_numDefinitions
    | with_reducible exact appends_enterScope
    | with_reducible exact appends_leaveScope
    | with_reducible exact appends_defineParameters _
    | with_reducible exact appends_lastInstructionIs _
    | with_reducible exact appends_removeLastPop
    | with_reducible exact appends_replaceLastPopWithReturn
    | with_reducible exact appends_changeOperand _ _
    | with_reducible exact appends_currentInstructions
    | with_reducible exact appends_loadSymbol _
    | with_reducible exact h3 _ rfl
    | with_reducible assumption
    | with_reducible refine appends_bind ?_ (fun _ => ?_)
    | with_reducible apply appends_returnNilOnError
    | with_reducible apply appends_sequence
    | split

theorem appends_compileLetStatement (name : GoString) (value : GoM Compiler Unit)
    (h : appendsConstants value) :
    appendsConstants (compileLetStatement name value) := by
  unfold compileLetStatement
  dsimp only
  repeat' first
    | with_reducible exact appends_pure _
    | with_reducible exact appends_fail _
    | with_reducible exact appends_lift _
    | with_reducible exact appends_emit _ _
    | with_reducible exact appends_nextRef
    | with_reducible exact appends_addConstant _
    | with_reducible exact appends_define _
    | with_reducible exact appends_resolve _
    | with_reducible exact appends_numDefinitions
    | with_reducible exact appends_enterScope
    | with_reducible exact appends_leaveScope
    | with_reducible exact appends_defineParameters _
    | with_reducible exact appends_lastInstructionIs _
    | with_reducible exact appends_removeLastPop
    | with_reducible exact appends_replaceLastPopWithReturn
    | with_reducible exact appends_changeOperand _ _
    | with_reducible exact appends_currentInstructions
    | with_reducible exact appends_loadSymbol _
    | with_reducible exact h3 _ rfl
    | with_reducible assumption
    | with_reducible refine appends_bind ?_ (fun _ => ?_)
    | with_reducible apply appends_returnNilOnError
    | with_reducible apply appends_sequence
    | split

theorem appends_compileReturnStatement (returnValue : GoM Compiler Unit)
    (h : appendsConstants returnValue) :
    appendsConstants (compileReturnStatement returnValue) := by
  unfold compileReturnStatement
  dsimp only
  repeat' first
    | with_reducible exact appends_pure _
    | with_reducible exact appends_fail _
    | with_reducible exact appends_lift _
    | with_reducible exact appends_emit _ _
    | with_reducible exact appends_nextRef
    | with_reducible exact appends_addConstant _
    | with_reducible exact appends_define _
    | with_reducible exact appends_resolve _
    | with_reducible exact appends_numDefinitions
    | with_reducible exact appends_enterScope
    | with_reducible exact appends_leaveScope
    | with_reducible exact appends_defineParameters _
    | with_reducible exact appends_lastInstructionIs _
    | with_reducible exact appends_removeLastPop
    | with_reducible exact appends_replaceLastPopWithReturn
    | with_reducible exact appends_changeOperand _ _
    | with_reducible exact appends_currentInstructions
    | with_reducible exact appends_loadSymbol _
    | with_reducible exact h3 _ rfl
    | with_reducible assumption
    | with_reducible refine appends_bind ?_ (fun _ => ?_)
    | with_reducible apply appends_returnNilOnError
    | with_reducible apply appends_sequence
    | split

mutual

theorem appends_CompileExpression : (e : ast.Expression) → appendsConstants (CompileExpression e)
  | .InfixExpression left operator right => by
    rw [CompileExpression]
    exact appends_compileInfixExpression _ _ _ (appends_CompileExpression left)
      (appends_CompileExpression right)
  | .IntegerLiteral value => by
    rw [CompileExpression]; exact appends_compileIntegerLiteral _
  | .StringLiteral value => by
    rw [CompileExpression]; exact appends_compileStringLiteral _
  | .Boolean value => by
    rw [CompileExpression]; exact appends_compileBoolean _
  | .PrefixExpression operator right => by
    rw [CompileExpression]
    exact appends_compilePrefixExpression _ _ (appends_CompileExpression right)
  | .IfExpression condition consequence none => by
    rw [CompileExpression]
    exact appends_compileIfExpression _ _ _ (appends_CompileExpression condition)
      (appends_CompileBlockStatement consequence) (fun _ h => by cases h)
  | .IfExpression condition consequence (some alternative) => by
    rw [CompileExpression]
    exact appends_compileIfExpression _ _ _ (appends_CompileExpression condition)
      (appends_CompileBlockStatement consequence)
      (fun alt h => by cases h; exact appends_CompileBlockStatement alternative)
  | .Identifier value => by
    rw [CompileExpression]; exact appends_compileIdentifier _
  | .ArrayLiteral elements => by
    rw [CompileExpression]
    exact appends_compileArrayLiteral _ (appends_CompileExpressions elements)
  | .HashLiteral pairs => by
    rw [CompileExpression]
    exact appends_compileHashLiteral _ (appends_CompilePairs pairs)
  | .IndexExpression left index => by
    rw [CompileExpression]
    exact appends_compileIndexExpression _ _ (appends_CompileExpression left)
      (appends_CompileExpression index)
  | .FunctionLiteral parameters body => by
    rw [CompileExpression]
    exact appends_compileFunctionLiteral _ _ (appends_CompileBlockStatement body)
  | .CallExpression function arguments => by
    rw [CompileExpression]
    exact appends_compileCallExpression _ _ (appends_CompileExpression function)
      (appends_CompileExpressions arguments)
  | .WhileExpression _ _ => by
    rw [CompileExpression]; exact appends_pure _
  | .ForExpression _ _ _ _ => by
    rw [CompileExpression]; exact appends_pure _

theorem appends_CompileExpressions : (es : List ast.Expression) →
    ∀ m ∈ CompileExpressions es, appendsConstants m
  | [] => by
    rw [CompileExpressions]; intro m hm; cases hm
  | e :: es => by
    rw [CompileExpressions]
    intro m hm
    rcases List.mem_cons.mp hm with h | h
    · rw [h]; exact appends_CompileExpression e
    · exact appends_CompileExpressions es m h

theorem appends_CompilePairs : (ps : List (ast.Expression × ast.Expression)) →
    ∀ p ∈ CompilePairs ps, appendsConstants p.2
  | [] => by
    rw [CompilePairs]; intro m hm; cases hm
  | (k, v) :: rest => by
    rw [CompilePairs]
    intro p hp
    rcases List.mem_cons.mp hp with h | h
    · rw [h]
      exact appends_bind (appends_CompileExpression k) fun _ => appends_CompileExpression v
    · exact appends_CompilePairs rest p h

theorem appends_CompileStatement : (s : ast.Statement) → appendsConstants (CompileStatement s)
  | .ExpressionStatement expression => by
    rw [CompileStatement]
    exact appends_compileExpressionStatement _ (appends_CompileExpression expression)
  | .LetStatement name value => by
    rw [CompileStatement]
    exact appends_compileLetStatement _ _ (appends_CompileExpression value)
  | .ReturnStatement returnValue => by
    rw [CompileStatement]
    exact appends_compileReturnStatement _ (appends_CompileExpression returnValue)
  | .BreakStatement => by
    rw [CompileStatement]; exact appends_pure _
  | .ContinueStatement => by
    rw [CompileStatement]; exact appends_pure _

theorem appends_CompileBlockStatement : (b : ast.BlockStatement) →
    appendsConstants (CompileBlockStatement b)
  | .mk statements => by
    rw [CompileBlockStatement]
    exact appends_sequence _ (appends_CompileStatements statements)

theorem appends_CompileStatements : (ss : List ast.Statement) →
    ∀ m ∈ CompileStatements ss, appendsConstants m
  | [] => by
    rw [CompileStatements]; intro m hm; cases hm
  | s :: ss => by
    rw [CompileStatements]
    intro m hm
    rcases List.mem_cons.mp hm with h | h
    · rw [h]; exact appends_CompileStatement s
    · exact appends_CompileStatements ss m h

end

/-- C37: for every node and every compiler state, the constant pool before
`Compile` is a prefix of the constant pool after it, whether `Compile`
returns an error or not: constants are only appended.  So the entry at an
index below the old length is the same value afterwards, and in a session
the pool that the next input starts from extends the pool of the input
before. -/
theorem constants_only_appended (node : ast.Node) (c : Compiler) :
    c.constants <+: (Compile node c).2.constants ∧
    (∀ (i : Nat) (o : object.Object), c.constants[i]? = some o →
      (Compile node c).2.constants[i]? = some o) ∧
    (∀ (program : ast.Program) (s : SymbolTable) (constants : List object.Object),
      constants <+: (Compile (.Program program) (NewWithState (some s) constants)).2.constants) := by
  have key : ∀ (node : ast.Node) (c : Compiler), c.constants <+: (Compile node c).2.constants := by
    intro node c
    cases node with
    | Program p =>
      exact appends_sequence _ (appends_CompileStatements p.Statements) c
    | Statement s => exact appends_CompileStatement s c
    | BlockStatement b => exact appends_CompileBlockStatement b c
    | Expression e => exact appends_CompileExpression e c
  refine ⟨key node c, ?_, ?_⟩
  · intro i o h
    obtain ⟨t, ht⟩ := key node c
    rw [← ht]
    rw [List.getElem?_append_left (List.getElem?_eq_some_iff.mp h).1]
    exact h
  · intro program s constants
    exact key (.Program program) (NewWithState (some s) constants)

end compiler

namespace compiler

open scenarios (withScope)

theorem withScope_self (c : Compiler) (sc : CompilationScope)
    (hsc : c.scopes[c.scopeIndex.toNat]? = some sc) : withScope c sc = c := by
  obtain ⟨constants, table, scopes, idx⟩ := c
  simp only [] at hsc
  have h := List.getElem?_eq_some_iff.mp hsc
  simp only [withScope]
  congr 1
  apply List.ext_getElem?
  intro n
  rw [List.getElem?_set]
  split
  · rename_i hn
    subst hn
    simp [h.1, hsc]
  · rfl

theorem withScope_withScope (c : Compiler) (sc sc2 : CompilationScope) :
    withScope (withScope c sc) sc2 = withScope c sc2 := by
  simp only [withScope, List.set_set]

theorem withScope_getElem? (c : Compiler) (sc0 sc : CompilationScope)
    (hsc : c.scopes[c.scopeIndex.toNat]? = some sc0) :
    (withScope c sc).scopes[(withScope c sc).scopeIndex.toNat]? = some sc :=
  getElem?_set_self c.scopes c.scopeIndex.toNat sc0 sc hsc

theorem currentScope_withScope (c : Compiler) (sc0 sc : CompilationScope)
    (h0 : 0 ≤ c.scopeIndex) (hsc : c.scopes[c.scopeIndex.toNat]? = some sc0) :
    currentScope (withScope c sc) = (.ok sc, withScope c sc) :=
  currentScope_eq (withScope c sc) sc h0 (withScope_getElem? c sc0 sc hsc)

theorem setCurrentScope_withScope (c : Compiler) (sc0 sc new : CompilationScope)
    (h0 : 0 ≤ c.scopeIndex) (hsc : c.scopes[c.scopeIndex.toNat]? = some sc0) :
    setCurrentScope new (withScope c sc) = (.ok (), withScope c new) := by
  rw [setCurrentScope_eq (withScope c sc) sc new h0 (withScope_getElem? c sc0 sc hsc)]
  simp only [withScope, List.set_set]

theorem emit_withScope (c : Compiler) (sc0 sc : CompilationScope) (op : code.Opcode)
    (operands : List Int) (bytes : List Nat)
    (h0 : 0 ≤ c.scopeIndex) (hsc : c.scopes[c.scopeIndex.toNat]? = some sc0)
    (hm : code.Make op operands = .ok bytes) :
    emit op operands (withScope c sc) =
      (.ok (sc.instructions.length : Int),
        withScope c
          { instructions := sc.instructions ++ bytes,
            lastInstruction := { Opcode := op, Position := sc.instructions.length },
            previousInstruction := sc.lastInstruction }) := by
  rw [emit_eq (withScope c sc) sc op operands bytes h0 (withScope_getElem? c sc0 sc hsc) hm]
  simp only [withScope, List.set_set]

theorem lastInstructionIs_withScope (c : Compiler) (sc0 sc : CompilationScope) (op : code.Opcode)
    (h0 : 0 ≤ c.scopeIndex) (hsc : c.scopes[c.scopeIndex.toNat]? = some sc0) :
    lastInstructionIs op (withScope c sc) =
      (.ok (if sc.instructions.length = 0 then false else sc.lastInstruction.Opcode == op),
        withScope c sc) := by
  simp only [lastInstructionIs, currentInstructions, bind, GoM.bind,
    currentScope_withScope c sc0 sc h0 hsc, pure, GoM.pure]
  split <;> simp only [currentScope_withScope c sc0 sc h0 hsc, GoM.bind, GoM.pure]

theorem removeLastPop_withScope (c : Compiler) (sc0 sc : CompilationScope)
    (h0 : 0 ≤ c.scopeIndex) (hsc : c.scopes[c.scopeIndex.toNat]? = some sc0)
    (hp0 : 0 ≤ sc.lastInstruction.Position)
    (hp1 : sc.lastInstruction.Position.toNat ≤ sc.instructions.length) :
    removeLastPop (withScope c sc) =
      (.ok (),
        withScope c
          { instructions := sc.instructions.take sc.lastInstruction.Position.toNat,
            lastInstruction := sc.previousInstruction,
            previousInstruction := sc.previousInstruction }) := by
  have hs : sliceTo sc.instructions sc.lastInstruction.Position =
      .ok (sc.instructions.take sc.lastInstruction.Position.toNat) := by
    simp only [sliceTo, hp0, hp1, and_self, if_true]
  simp only [removeLastPop, currentInstructions, bind, GoM.bind,
    currentScope_withScope c sc0 _ h0 hsc, pure, GoM.pure, GoM.lift, hs,
    setCurrentScope_withScope c sc0 _ _ h0 hsc]

theorem setIndexInt_append (pre post : List Nat) (k : Nat) (v : Nat) (i : Int)
    (hi : i = (pre.length : Int) + k) (hk : k < post.length) :
    setIndexInt (pre ++ post) i v = .ok (pre ++ post.set k v) := by
  subst hi
  have n0 : ¬ ((pre.length : Int) + k < 0) := by omega
  have t0 : ((pre.length : Int) + k).toNat = pre.length + k := by omega
  have l0 : pre.length + k < (pre ++ post).length := by
    rw [List.length_append]; omega
  simp only [setIndexInt, if_neg n0, t0, if_pos l0]
  congr 1
  rw [List.set_append_right _ _ (by omega)]
  simp

theorem replaceLoop_three (pre post : List Nat) (a b d x y z : Nat) :
    replaceLoop [x, y, z] (pre ++ a :: b :: d :: post) (pre.length : Int) =
      .ok (pre ++ x :: y :: z :: post) := by
  have s0 := setIndexInt_append pre (a :: b :: d :: post) 0 x (pre.length : Int) (by simp)
    (by simp)
  have s1 := setIndexInt_append pre (x :: b :: d :: post) 1 y ((pre.length : Int) + 1) (by simp)
    (by simp)
  have s2 := setIndexInt_append pre (x :: y :: d :: post) 2 z ((pre.length : Int) + 1 + 1)
    (by push_cast; ring) (by simp)
  simp only [List.set_cons_zero, List.set_cons_succ] at s0 s1 s2
  simp only [replaceLoop, s0, s1, s2]

/-- The effect of `changeOperand` on a jump instruction at position
`pre.length` of the current scope: the two operand bytes are replaced by the
big-endian bytes of `operand` modulo 65536. -/
theorem changeOperand_withScope (c : Compiler) (sc0 : CompilationScope)
    (pre post : List Nat) (op a b : Nat) (name : String) (operand : Nat)
    (last previous : EmittedInstruction)
    (h0 : 0 ≤ c.scopeIndex) (hsc : c.scopes[c.scopeIndex.toNat]? = some sc0)
    (hop : code.definitions op = some ⟨name, [2]⟩) :
    changeOperand (pre.length : Int) (operand : Int)
        (withScope c ⟨pre ++ op :: a :: b :: post, last, previous⟩) =
      (.ok (),
        withScope c
          ⟨pre ++ op :: (operand / 256 % 256) :: (operand % 256) :: post, last, previous⟩) := by
  have hlt : op < 27 := code.definitions_some_lt op _ hop
  have hmod : op % 256 = op := by omega
  have hm : code.Make op [(operand : Int)] =
      .ok [op, operand / 256 % 256, operand % 256] := by
    have h3 : (((operand : Int) % 65536).toNat) = operand % 65536 := by omega
    have h4 : operand % 65536 / 256 % 256 = operand / 256 % 256 := by omega
    have h5 : operand % 65536 % 256 = operand % 256 := by omega
    simp [code.Make, hop, code.makeLoop, code.PutUint16, code.uint16, h3, h4, h5, hmod]
  have hidx : indexInt (pre ++ op :: a :: b :: post) (pre.length : Int) = .ok op := by
    have n0 : ¬ ((pre.length : Int) < 0) := by omega
    have t0 : ((pre.length : Int)).toNat = pre.length := by omega
    have g : (pre ++ op :: a :: b :: post)[pre.length]? = some op := by
      rw [List.getElem?_append_right (le_refl _)]
      simp
    simp only [indexInt, if_neg n0, t0, g]
  simp only [changeOperand, replaceInstruction, currentInstructions, bind, GoM.bind,
    currentScope_withScope c sc0 _ h0 hsc, pure, GoM.pure, GoM.lift, hidx, hm,
    replaceLoop_three, setCurrentScope_withScope c sc0 _ _ h0 hsc]

end compiler
theorem GoM.bind_ok {σ α β : Type} (m : GoM σ α) (f : α → GoM σ β) (s s2 : σ) (a : α)
    (h : m s = (.ok a, s2)) : m.bind f s = f a s2 := by
  simp only [GoM.bind, h]

namespace compiler

open scenarios (withScope withoutFinalPop lastWithoutFinalPop afterConsequence operandBytes)

theorem returnNilOnError_ok (m next : GoM Compiler Unit) (c c2 : Compiler)
    (h : m c = (.ok (), c2)) : returnNilOnError m next c = next c2 := by
  simp only [returnNilOnError, h]

theorem currentInstructions_withScope (c : Compiler) (sc0 sc : CompilationScope)
    (h0 : 0 ≤ c.scopeIndex) (hsc : c.scopes[c.scopeIndex.toNat]? = some sc0) :
    currentInstructions (withScope c sc) = (.ok sc.instructions, withScope c sc) := by
  simp only [currentInstructions, bind, GoM.bind, currentScope_withScope c sc0 sc h0 hsc, pure,
    GoM.pure]

theorem removeFinalPop_bind {α : Type} (c : Compiler) (sc0 : CompilationScope)
    (pre emitted : List Nat) (l p : EmittedInstruction) (rest : GoM Compiler α)
    (h0 : 0 ≤ c.scopeIndex) (hsc : c.scopes[c.scopeIndex.toNat]? = some sc0)
    (hpre : pre ≠ [])
    (hlast : l.Opcode = code.OpPop →
      l.Position = ((pre ++ emitted).length : Int) - 1 ∧ emitted ≠ []) :
    ((lastInstructionIs code.OpPop).bind fun b =>
      if b = true then removeLastPop.bind fun _ => rest
      else (GoM.pure PUnit.unit).bind fun _ => rest) (withScope c ⟨pre ++ emitted, l, p⟩) =
    rest (withScope c ⟨pre ++ withoutFinalPop ⟨pre ++ emitted, l, p⟩ emitted,
      lastWithoutFinalPop ⟨pre ++ emitted, l, p⟩, p⟩) := by
  have hlen : ¬ ((pre ++ emitted).length = 0) := by
    rw [List.length_append]
    have := List.length_pos.mpr hpre
    omega
  by_cases hop : l.Opcode = code.OpPop
  · obtain ⟨hpos, hne⟩ := hlast hop
    have eL := lastInstructionIs_withScope c sc0 ⟨pre ++ emitted, l, p⟩ code.OpPop h0 hsc
    simp only [if_neg hlen, hop, beq_self_eq_true] at eL
    have hp0 : 0 ≤ l.Position := by
      rw [hpos]
      have := List.length_pos.mpr hpre
      rw [List.length_append]
      omega
    have hp1 : l.Position.toNat ≤ (pre ++ emitted).length := by omega
    have eR := removeLastPop_withScope c sc0 ⟨pre ++ emitted, l, p⟩ h0 hsc hp0 hp1
    have htake : (pre ++ emitted).take l.Position.toNat = pre ++ emitted.dropLast := by
      have hn : l.Position.toNat = pre.length + (emitted.length - 1) := by
        rw [hpos, List.length_append]
        have := List.length_pos.mpr hne
        omega
      rw [hn, List.take_append, List.dropLast_eq_take]
    simp only [htake] at eR
    rw [GoM.bind_ok _ _ _ _ _ eL]
    simp only [if_true]
    rw [GoM.bind_ok _ _ _ _ _ eR]
    simp only [withoutFinalPop, lastWithoutFinalPop, hop, if_true]
  · have eL := lastInstructionIs_withScope c sc0 ⟨pre ++ emitted, l, p⟩ code.OpPop h0 hsc
    have hb : (l.Opcode == code.OpPop) = false := by simpa using hop
    simp only [if_neg hlen, hb] at eL
    rw [GoM.bind_ok _ _ _ _ _ eL]
    simp only [Bool.false_eq_true, if_false]
    rw [GoM.bind_ok _ _ _ _ _ (rfl : (GoM.pure PUnit.unit : GoM Compiler PUnit) _ = (.ok PUnit.unit, _))]
    simp only [withoutFinalPop, lastWithoutFinalPop, hop, if_false]

/-- The `IfExpression` case from the end of the consequence to the test of
`node.Alternative`: a final `OpPop` is removed, `OpJump 9999` is emitted and
the operand of the `OpJumpNotTruthy` at `pre.length` is set to the offset
after it. -/
theorem patchAfterConsequence {α : Type} (c : Compiler) (sc0 : CompilationScope)
    (pre cons : List Nat) (l p : EmittedInstruction) (rest : Int → GoM Compiler α)
    (h0 : 0 ≤ c.scopeIndex) (hsc : c.scopes[c.scopeIndex.toNat]? = some sc0)
    (hlast : l.Opcode = code.OpPop →
      l.Position = ((pre ++ [13, 39, 15] ++ cons).length : Int) - 1 ∧ cons ≠ []) :
    ((lastInstructionIs code.OpPop).bind fun b =>
      if b = true then removeLastPop.bind fun _ =>
        (emit code.OpJump [9999]).bind fun jumpPos =>
          currentInstructions.bind fun ins =>
            (changeOperand (pre.length : Int) (ins.length : Int)).bind fun _ => rest jumpPos
      else (GoM.pure PUnit.unit).bind fun _ =>
        (emit code.OpJump [9999]).bind fun jumpPos =>
          currentInstructions.bind fun ins =>
            (changeOperand (pre.length : Int) (ins.length : Int)).bind fun _ => rest jumpPos)
      (withScope c ⟨pre ++ [13, 39, 15] ++ cons, l, p⟩) =
    rest ((pre.length + 3 + (withoutFinalPop ⟨pre ++ [13, 39, 15] ++ cons, l, p⟩ cons).length
        : Nat) : Int)
      (withScope c
        ⟨pre ++ 13 :: (operandBytes (afterConsequence pre
            (withoutFinalPop ⟨pre ++ [13, 39, 15] ++ cons, l, p⟩ cons)) ++
          (withoutFinalPop ⟨pre ++ [13, 39, 15] ++ cons, l, p⟩ cons ++ [14, 39, 15])),
          ⟨14, ((pre.length + 3 + (withoutFinalPop ⟨pre ++ [13, 39, 15] ++ cons, l, p⟩ cons).length
            : Nat) : Int)⟩,
          lastWithoutFinalPop ⟨pre ++ [13, 39, 15] ++ cons, l, p⟩⟩) := by
  rw [removeFinalPop_bind c sc0 (pre ++ [13, 39, 15]) cons l p _ h0 hsc (by simp) hlast]
  generalize withoutFinalPop ⟨pre ++ [13, 39, 15] ++ cons, l, p⟩ cons = cons2
  generalize lastWithoutFinalPop ⟨pre ++ [13, 39, 15] ++ cons, l, p⟩ = l2
  have hm : code.Make code.OpJump [9999] = .ok [14, 39, 15] := by decide
  rw [GoM.bind_ok _ _ _ _ _ (emit_withScope c sc0 _ code.OpJump [9999] _ h0 hsc hm)]
  rw [GoM.bind_ok _ _ _ _ _ (currentInstructions_withScope c sc0 _ h0 hsc)]
  have hlist : pre ++ [13, 39, 15] ++ cons2 ++ [14, 39, 15] =
      pre ++ 13 :: 39 :: 15 :: (cons2 ++ [14, 39, 15]) := by simp
  have hlen : (pre ++ [13, 39, 15] ++ cons2).length = pre.length + 3 + cons2.length := by
    simp [List.length_append]
    omega
  have hlen2 : (pre ++ 13 :: 39 :: 15 :: (cons2 ++ [14, 39, 15])).length =
      afterConsequence pre cons2 := by
    simp [List.length_append, afterConsequence]
    omega
  simp only [hlist, hlen, hlen2]
  rw [GoM.bind_ok _ _ _ _ _ (changeOperand_withScope c sc0 pre (cons2 ++ [14, 39, 15]) 13 39 15
    "OpJumpNotTruthy" (afterConsequence pre cons2) _ _ h0 hsc (by decide))]
  rfl

end compiler
namespace compiler

open scenarios (withScope withoutFinalPop lastWithoutFinalPop afterConsequence operandBytes)

theorem emit_JumpNotTruthy_eq (c1 : Compiler) (sc1 : CompilationScope)
    (h1 : 0 ≤ c1.scopeIndex) (hsc1 : c1.scopes[c1.scopeIndex.toNat]? = some sc1) :
    emit code.OpJumpNotTruthy [9999] c1 =
      (.ok (sc1.instructions.length : Int),
        withScope c1 ⟨sc1.instructions ++ [13, 39, 15], ⟨13, sc1.instructions.length⟩,
          sc1.lastInstruction⟩) := by
  have hm : code.Make code.OpJumpNotTruthy [9999] = .ok [13, 39, 15] := by decide
  have := emit_withScope c1 sc1 sc1 code.OpJumpNotTruthy [9999] _ h1 hsc1 hm
  rw [withScope_self c1 sc1 hsc1] at this
  exact this

theorem ReadUint16_operandBytes (n : Nat) (h : n < 65536) :
    code.ReadUint16 (operandBytes n) = .ok n := by
  simp only [operandBytes, code.ReadUint16]
  congr 1
  omega

/-- C36, as the code behaves: let the condition of an `if` compile and leave
the scope `sc1` current, and let the consequence, compiled after
`OpJumpNotTruthy 9999` has been emitted, leave a current scope that holds the
instructions of `sc1`, the jump and the bytes `cons` (with its recorded last
instruction, if an `OpPop`, being the last byte of `cons`).  Then the
`IfExpression` case removes that `OpPop`, emits `OpJump` and writes into the
operand of `OpJumpNotTruthy` the offset after the `OpJump`; without an
alternative it emits `OpNull` and writes the offset after it into the operand
of `OpJump`; with an alternative that likewise appends its bytes `alt`, it
removes a final `OpPop` of `alt` and writes the offset after the alternative
(offsets modulo 65536, the operands having two bytes).
`if (true) { 10 }; 3333;` compiles to `OpTrue`, `OpJumpNotTruthy 10`,
`OpConstant 0`, `OpJump 11`, `OpNull`, `OpPop`, `OpConstant 1`, `OpPop`.
But a part that returns nil after a dropped error breaks this:
`if (true) { [fn() { undefinedVar }] };` compiles without error, the
consequence returns in the scope of the function, the `OpJump` is emitted
there, and the `OpJumpNotTruthy` of the main scope keeps the operand 9999. -/
theorem if_expression_jump_targets
    (condition : ast.Expression) (consequence : ast.BlockStatement)
    (c c1 c3 : Compiler) (sc1 sc3 : CompilationScope) (cons : List Nat)
    (hcond : CompileExpression condition c = (.ok (), c1))
    (h1 : 0 ≤ c1.scopeIndex) (hsc1 : c1.scopes[c1.scopeIndex.toNat]? = some sc1)
    (hcons : CompileBlockStatement consequence (emit code.OpJumpNotTruthy [9999] c1).2 =
      (.ok (), c3))
    (h3 : 0 ≤ c3.scopeIndex) (hsc3 : c3.scopes[c3.scopeIndex.toNat]? = some sc3)
    (hframe : sc3.instructions = sc1.instructions ++ [13, 39, 15] ++ cons)
    (hlast : sc3.lastInstruction.Opcode = code.OpPop →
      sc3.lastInstruction.Position = (sc3.instructions.length : Int) - 1 ∧ cons ≠ []) :
    (∃ sc, CompileExpression (.IfExpression condition consequence none) c =
        (.ok (), withScope c3 sc) ∧
      sc.instructions = sc1.instructions ++ [13] ++
        operandBytes (afterConsequence sc1.instructions (withoutFinalPop sc3 cons)) ++
        withoutFinalPop sc3 cons ++ [14] ++
        operandBytes (afterConsequence sc1.instructions (withoutFinalPop sc3 cons) + 1) ++
        [15]) ∧
    (∀ (alternative : ast.BlockStatement) (c6 : Compiler) (sc6 : CompilationScope)
      (alt : List Nat),
      CompileBlockStatement alternative
        (withScope c3
          ⟨sc1.instructions ++ 13 ::
            (operandBytes (afterConsequence sc1.instructions (withoutFinalPop sc3 cons)) ++
              (withoutFinalPop sc3 cons ++ [14, 39, 15])),
            ⟨14, ((sc1.instructions.length + 3 + (withoutFinalPop sc3 cons).length : Nat) : Int)⟩,
            lastWithoutFinalPop sc3⟩) = (.ok (), c6) →
      0 ≤ c6.scopeIndex → c6.scopes[c6.scopeIndex.toNat]? = some sc6 →
      sc6.instructions = sc1.instructions ++ 13 ::
          (operandBytes (afterConsequence sc1.instructions (withoutFinalPop sc3 cons)) ++
            (withoutFinalPop sc3 cons ++ [14, 39, 15])) ++ alt →
      (sc6.lastInstruction.Opcode = code.OpPop →
        sc6.lastInstruction.Position = (sc6.instructions.length : Int) - 1 ∧ alt ≠ []) →
      ∃ sc, CompileExpression (.IfExpression condition consequence (some alternative)) c =
          (.ok (), withScope c6 sc) ∧
        sc.instructions = sc1.instructions ++ [13] ++
          operandBytes (afterConsequence sc1.instructions (withoutFinalPop sc3 cons)) ++
          withoutFinalPop sc3 cons ++ [14] ++
          operandBytes (afterConsequence sc1.instructions (withoutFinalPop sc3 cons) +
            (withoutFinalPop sc6 alt).length) ++
          withoutFinalPop sc6 alt) ∧
    (∀ n, n < 65536 → code.ReadUint16 (operandBytes n) = .ok n) ∧
    scenarios.compiled (.Program scenarios.ifThenProgram) New =
      (.ok (), .ok [6, 13, 0, 10, 0, 0, 0, 14, 0, 11, 15, 2, 0, 0, 1, 2],
        [.Integer 10, .Integer 3333]) ∧
    scenarios.compiled (.Program scenarios.ifProgram) New =
      (.ok (), .ok [0, 0, 0, 0, 0, 1, 10, 13, 0, 16, 0, 0, 2, 14, 0, 19, 0, 0, 3, 2],
        [.Integer 1, .Integer 2, .Integer 10, .Integer 20]) ∧
    (Compile (.Program scenarios.ifFunctionErrorProgram) New).1 = .ok () ∧
    (Compile (.Program scenarios.ifFunctionErrorProgram) New).2.scopes.map
      (fun sc => sc.instructions) = [[6, 13, 39, 15], [14, 0, 4, 15, 2]] ∧
    code.ReadUint16 [39, 15] = .ok 9999 := by
  obtain ⟨ins3, l3, p3⟩ := sc3
  simp only [] at hframe hlast
  subst hframe
  have eJ := emit_JumpNotTruthy_eq c1 sc1 h1 hsc1
  rw [eJ] at hcons
  simp only [] at hcons
  have hc3 := withScope_self c3 _ hsc3
  have hlast' : l3.Opcode = code.OpPop →
      l3.Position = ((sc1.instructions ++ [13, 39, 15] ++ cons).length : Int) - 1 ∧ cons ≠ [] :=
    hlast
  have hNull : code.Make code.OpNull [] = .ok [15] := by decide
  refine ⟨?_, ?_, ReadUint16_operandBytes, by decide!, by decide!, by decide!, by decide!,
    by decide⟩
  · rw [CompileExpression]
    unfold compileIfExpression
    simp only [bind, pure]
    rw [GoM.bind_ok _ _ _ _ _ hcond, GoM.bind_ok _ _ _ _ _ eJ, returnNilOnError_ok _ _ _ _ hcons]
    rw [← hc3]
    rw [patchAfterConsequence c3 _ sc1.instructions cons l3 p3 _ h3 hsc3 hlast']
    generalize withoutFinalPop ⟨sc1.instructions ++ [13, 39, 15] ++ cons, l3, p3⟩ cons = cons2
    generalize lastWithoutFinalPop ⟨sc1.instructions ++ [13, 39, 15] ++ cons, l3, p3⟩ = l2
    rw [GoM.bind_ok _ _ _ _ _ (emit_withScope c3 _ _ code.OpNull [] _ h3 hsc3 hNull)]
    rw [GoM.bind_ok _ _ _ _ _
      (rfl : (GoM.pure PUnit.unit : GoM Compiler PUnit) _ = (.ok PUnit.unit, _))]
    rw [GoM.bind_ok _ _ _ _ _ (currentInstructions_withScope c3 _ _ h3 hsc3)]
    have hlist : sc1.instructions ++ 13 :: (operandBytes (afterConsequence sc1.instructions cons2)
        ++ (cons2 ++ [14, 39, 15])) ++ [15] =
        (sc1.instructions ++ 13 :: (operandBytes (afterConsequence sc1.instructions cons2) ++
          cons2)) ++ 14 :: 39 :: 15 :: [15] := by simp
    have hpos : ((sc1.instructions.length + 3 + cons2.length : Nat) : Int) =
        ((sc1.instructions ++ 13 :: (operandBytes (afterConsequence sc1.instructions cons2) ++
          cons2)).length : Int) := by
      simp [operandBytes]
      omega
    have hlen : ((sc1.instructions ++ 13 :: (operandBytes (afterConsequence sc1.instructions
        cons2) ++ cons2)) ++ 14 :: 39 :: 15 :: [15]).length =
        afterConsequence sc1.instructions cons2 + 1 := by
      simp [operandBytes, afterConsequence]
      omega
    simp only [hlist, hlen, hpos]
    rw [changeOperand_withScope c3 _ _ [15] 14 39 15 "Opjump"
      (afterConsequence sc1.instructions cons2 + 1) _ _ h3 hsc3 (by decide)]
    simp only [withScope_withScope]
    refine ⟨_, rfl, ?_⟩
    simp [operandBytes]
  · intro alternative c6 sc6 alt halt h6 hsc6 hframe6 hlast6
    obtain ⟨ins6, l6, p6⟩ := sc6
    simp only [] at hframe6 hlast6
    subst hframe6
    have hc6 := withScope_self c6 _ hsc6
    rw [CompileExpression]
    unfold compileIfExpression
    simp only [bind, pure]
    rw [GoM.bind_ok _ _ _ _ _ hcond, GoM.bind_ok _ _ _ _ _ eJ, returnNilOnError_ok _ _ _ _ hcons]
    rw [← hc3]
    rw [patchAfterConsequence c3 _ sc1.instructions cons l3 p3 _ h3 hsc3 hlast']
    rw [GoM.bind_ok _ _ _ _ _ halt]
    rw [← hc6]
    rw [removeFinalPop_bind c6 _ _ alt l6 p6 _ h6 hsc6 (by simp) hlast6]
    generalize withoutFinalPop ⟨sc1.instructions ++ [13, 39, 15] ++ cons, l3, p3⟩ cons = cons2
    generalize withoutFinalPop _ alt = alt2
    generalize lastWithoutFinalPop _ = l7
    rw [GoM.bind_ok _ _ _ _ _ (currentInstructions_withScope c6 _ _ h6 hsc6)]
    have hlist : sc1.instructions ++ 13 :: (operandBytes (afterConsequence sc1.instructions cons2)
        ++ (cons2 ++ [14, 39, 15])) ++ alt2 =
        (sc1.instructions ++ 13 :: (operandBytes (afterConsequence sc1.instructions cons2) ++
          cons2)) ++ 14 :: 39 :: 15 :: alt2 := by simp
    have hpos : ((sc1.instructions.length + 3 + cons2.length : Nat) : Int) =
        ((sc1.instructions ++ 13 :: (operandBytes (afterConsequence sc1.instructions cons2) ++
          cons2)).length : Int) := by
      simp [operandBytes]
      omega
    have hlen : ((sc1.instructions ++ 13 :: (operandBytes (afterConsequence sc1.instructions
        cons2) ++ cons2)) ++ 14 :: 39 :: 15 :: alt2).length =
        afterConsequence sc1.instructions cons2 + alt2.length := by
      simp [operandBytes, afterConsequence]
      omega
    simp only [hlist, hlen, hpos]
    rw [changeOperand_withScope c6 _ _ alt2 14 39 15 "Opjump"
      (afterConsequence sc1.instructions cons2 + alt2.length) _ _ h6 hsc6 (by decide)]
    simp only [withScope_withScope]
    refine ⟨_, rfl, ?_⟩
    simp [operandBytes]

end compiler
namespace compiler

open scenarios (withScope withoutFinalPop lastWithoutFinalPop afterConsequence operandBytes)

theorem CompileExpression_true_eq (c : Compiler) (sc : CompilationScope)
    (h0 : 0 ≤ c.scopeIndex) (hsc : c.scopes[c.scopeIndex.toNat]? = some sc) :
    CompileExpression (.Boolean true) c =
      (.ok (), withScope c ⟨sc.instructions ++ [6], ⟨6, sc.instructions.length⟩,
        sc.lastInstruction⟩) := by
  have hm : code.Make code.OpTrue [] = .ok [6] := by decide
  have e := emit_withScope c sc sc code.OpTrue [] _ h0 hsc hm
  rw [withScope_self c sc hsc] at e
  rw [CompileExpression]
  simp only [compileBoolean, if_true, bind, pure]
  rw [GoM.bind_ok _ _ _ _ _ e]
  rfl

theorem CompileBlockStatement_single (s : ast.Statement) (c c2 : Compiler)
    (h : CompileStatement s c = (.ok (), c2)) :
    CompileBlockStatement (.mk [s]) c = (.ok (), c2) := by
  rw [CompileBlockStatement, CompileStatements, CompileStatements]
  simp only [sequence, bind, pure]
  rw [GoM.bind_ok _ _ _ _ _ h]
  rfl

/-- Witness of C36: `if (true) { 10 }` on the fresh compiler. -/
theorem if_expression_jump_targets_witness :
    ∃ c3 sc,
      CompileExpression (.IfExpression (.Boolean true)
        (.mk [.ExpressionStatement (.IntegerLiteral 10)]) none) New =
        (.ok (), withScope c3 sc) ∧
      sc.instructions = [6, 13, 0, 10, 0, 0, 0, 14, 0, 11, 15] := by
  have hcond := CompileExpression_true_eq New ⟨[], ⟨0, 0⟩, ⟨0, 0⟩⟩ (by decide) rfl
  have eJ := emit_JumpNotTruthy_eq
    (withScope New ⟨[] ++ [6], ⟨6, ((([] : List Nat).length : Nat) : Int)⟩, ⟨0, 0⟩⟩)
    ⟨[] ++ [6], ⟨6, ((([] : List Nat).length : Nat) : Int)⟩, ⟨0, 0⟩⟩ (by decide) rfl
  have hlit := compileIntegerLiteral_eq
    (withScope (withScope New ⟨[] ++ [6], ⟨6, ((([] : List Nat).length : Nat) : Int)⟩, ⟨0, 0⟩⟩)
      ⟨[] ++ [6] ++ [13, 39, 15], ⟨13, ((([] ++ [6] : List Nat).length : Nat) : Int)⟩,
        ⟨6, ((([] : List Nat).length : Nat) : Int)⟩⟩)
    ⟨[] ++ [6] ++ [13, 39, 15], ⟨13, ((([] ++ [6] : List Nat).length : Nat) : Int)⟩,
        ⟨6, ((([] : List Nat).length : Nat) : Int)⟩⟩ 10 (by decide) rfl (by decide)
  have hstmt := compileExpressionStatement_eq (.IntegerLiteral 10) _ _
    ⟨[6, 13, 39, 15, 0, 0, 0], ⟨0, 4⟩, ⟨13, 1⟩⟩ hlit (by decide) rfl
  have hblock := CompileBlockStatement_single _ _ _ hstmt
  have hx : ∃ c3, CompileBlockStatement (.mk [.ExpressionStatement (.IntegerLiteral 10)])
      (emit code.OpJumpNotTruthy [9999]
        (withScope New ⟨[] ++ [6], ⟨6, ((([] : List Nat).length : Nat) : Int)⟩, ⟨0, 0⟩⟩)).2 =
        (.ok (), c3) ∧ 0 ≤ c3.scopeIndex ∧
      c3.scopes[c3.scopeIndex.toNat]? =
        some ⟨[6, 13, 39, 15, 0, 0, 0, 2], ⟨2, 7⟩, ⟨0, 4⟩⟩ := by
    rw [eJ]
    exact ⟨_, hblock, by decide, rfl⟩
  obtain ⟨c3, hcons, h3, hsc3⟩ := hx
  obtain ⟨sc, h, hi⟩ := (if_expression_jump_targets (.Boolean true)
    (.mk [.ExpressionStatement (.IntegerLiteral 10)]) New _ c3
    ⟨[] ++ [6], ⟨6, ((([] : List Nat).length : Nat) : Int)⟩, ⟨0, 0⟩⟩
    ⟨[6, 13, 39, 15, 0, 0, 0, 2], ⟨2, 7⟩, ⟨0, 4⟩⟩ [0, 0, 0, 2]
    hcond (by decide) rfl hcons h3 hsc3 rfl
    (fun _ => ⟨by decide, by decide⟩)).1
  exact ⟨_, sc, h, by rw [hi]; rfl⟩

end compiler

namespace code

theorem Make_two_bytes (op : Nat) (name : String) (o : Int)
    (hdef : definitions op = some ⟨name, [2]⟩) (h0 : 0 ≤ o) :
    Make op [o] = .ok [op % 256, o.toNat / 256 % 256, o.toNat % 256] := by
  lift o to ℕ using h0
  have h3 : (((o : Int) % 65536).toNat) = o % 65536 := by omega
  have h4 : o % 65536 / 256 % 256 = o / 256 % 256 := by omega
  have h5 : o % 65536 % 256 = o % 256 := by omega
  simp [Make, hdef, makeLoop, PutUint16, uint16, h3, h4, h5]

end code

namespace compiler

theorem compileIntegerLiteral_bytes (c : Compiler) (sc : CompilationScope) (v : Int)
    (h0 : 0 ≤ c.scopeIndex) (hsc : c.scopes[c.scopeIndex.toNat]? = some sc) :
    CompileExpression (.IntegerLiteral v) c =
      (.ok (),
        { c with
          constants := c.constants ++ [.Integer (.constant c.constants.length) v],
          scopes := (c.scopes.set c.scopeIndex.toNat
            { instructions := sc.instructions ++
                0 :: scenarios.operandBytes c.constants.length,
              lastInstruction := { Opcode := code.OpConstant, Position := sc.instructions.length },
              previousInstruction := sc.lastInstruction }) }) := by
  have hm : code.Make code.OpConstant [(c.constants.length : Int)] =
      .ok (0 :: scenarios.operandBytes c.constants.length) := by
    have := code.Make_two_bytes 0 "OpConstant" (c.constants.length : Int) (by decide) (by omega)
    simpa [scenarios.operandBytes] using this
  have e : (((c.constants ++ [object.Object.Integer (.constant c.constants.length) v]).length
      : Nat) : Int) - 1 = (c.constants.length : Int) := by simp
  rw [CompileExpression]
  simp only [compileIntegerLiteral, bind, GoM.bind, nextRef, addConstant, e]
  rw [emit_eq { c with constants := c.constants ++ [.Integer (.constant c.constants.length) v] }
    sc code.OpConstant _ _ h0 hsc hm]
  rfl

theorem sequence_cons_ok (m : GoM Compiler Unit) (ms : List (GoM Compiler Unit))
    (c c2 : Compiler) (h : m c = (.ok (), c2)) :
    sequence (m :: ms) c = sequence ms c2 := by
  simp only [sequence, bind, GoM.bind, h]

theorem sequence_append_ok (xs ys : List (GoM Compiler Unit)) (c c2 : Compiler)
    (h : sequence xs c = (.ok (), c2)) :
    sequence (xs ++ ys) c = sequence ys c2 := by
  induction xs generalizing c with
  | nil =>
    simp only [sequence, pure, GoM.pure, Prod.mk.injEq, true_and] at h
    subst h; rfl
  | cons m ms ih =>
    rcases hm : m c with ⟨r, c1⟩
    cases r with
    | error e => simp [sequence, bind, GoM.bind, hm] at h
    | ok u =>
      cases u
      rw [sequence_cons_ok m ms c c1 hm] at h
      rw [List.cons_append, sequence_cons_ok m (ms ++ ys) c c1 hm]
      exact ih c1 h

theorem CompileStatements_append (xs ys : List ast.Statement) :
    CompileStatements (xs ++ ys) = CompileStatements xs ++ CompileStatements ys := by
  induction xs with
  | nil => simp [CompileStatements]
  | cons x xs ih => simp [CompileStatements, ih]

/-- The statement `v;` in a compiler whose only scope is `sc`. -/
theorem compile_integer_statement (v : Int) (c : Compiler) (sc : CompilationScope)
    (hidx : c.scopeIndex = 0) (hsc : c.scopes = [sc]) :
    CompileStatement (.ExpressionStatement (.IntegerLiteral v)) c =
      (.ok (),
        { c with
          constants := c.constants ++ [.Integer (.constant c.constants.length) v],
          scopes := [{ instructions := sc.instructions ++
                         0 :: scenarios.operandBytes c.constants.length ++ [2],
                       lastInstruction :=
                         { Opcode := code.OpPop, Position := (sc.instructions.length : Int) + 3 },
                       previousInstruction :=
                         { Opcode := code.OpConstant, Position := sc.instructions.length } }] }) := by
  obtain ⟨constants, table, scopes, idx⟩ := c
  simp only [] at hidx hsc
  subst hidx hsc
  have hl := compileIntegerLiteral_bytes ⟨constants, table, [sc], 0⟩ sc v (le_refl _) rfl
  have hs := compileExpressionStatement_eq (.IntegerLiteral v) _ _
    { instructions := sc.instructions ++ 0 :: scenarios.operandBytes constants.length,
      lastInstruction := { Opcode := code.OpConstant, Position := sc.instructions.length },
      previousInstruction := sc.lastInstruction } hl (le_refl _) rfl
  rw [hs]
  simp [scenarios.operandBytes]

/-- Compiling `n` statements `v;` in a row: the pool grows by `n` entries. -/
theorem compile_integer_statements (n : Nat) (v : Int) (c : Compiler) (sc : CompilationScope)
    (hidx : c.scopeIndex = 0) (hsc : c.scopes = [sc]) :
    ∃ sc2, sequence (CompileStatements
        (List.replicate n (.ExpressionStatement (.IntegerLiteral v)))) c =
      (.ok (),
        { c with
          constants := c.constants ++ (List.range n).map
            (fun i => object.Object.Integer (.constant (c.constants.length + i)) v),
          scopes := [sc2] }) := by
  induction n generalizing c sc with
  | zero =>
    refine ⟨sc, ?_⟩
    obtain ⟨constants, table, scopes, idx⟩ := c
    simp only [] at hidx hsc
    subst hidx hsc
    simp [CompileStatements, sequence, pure, GoM.pure]
  | succ n ih =>
    have h1 := compile_integer_statement v c sc hidx hsc
    obtain ⟨sc2, h2⟩ := ih _ _ (show
      ({ c with
          constants := c.constants ++ [.Integer (.constant c.constants.length) v],
          scopes := [{ instructions := sc.instructions ++
                         0 :: scenarios.operandBytes c.constants.length ++ [2],
                       lastInstruction :=
                         { Opcode := code.OpPop, Position := (sc.instructions.length : Int) + 3 },
                       previousInstruction :=
                         { Opcode := code.OpConstant, Position := sc.instructions.length } }] }
        : Compiler).scopeIndex = 0 from hidx) rfl
    refine ⟨sc2, ?_⟩
    rw [List.replicate_succ, CompileStatements, sequence_cons_ok _ _ _ _ h1, h2]
    simp only [List.length_append, List.length_singleton, List.append_assoc, List.singleton_append,
      Prod.mk.injEq, true_and]
    congr 1
    rw [List.range_succ_eq_map, List.map_cons, List.map_map]
    simp only [Nat.add_zero]
    congr 2
    apply List.map_congr_left
    intro i _
    simp only [Function.comp]
    congr 2
    omega

/-- The program of `n` statements `1;` and the statement `w;`, compiled by a
fresh compiler. -/
theorem compile_manyConstantsProgram (n : Nat) (w : Int) :
    ∃ pre,
      (Compile (.Program (scenarios.manyConstantsProgram n w)) New).1 = .ok () ∧
      (Compile (.Program (scenarios.manyConstantsProgram n w)) New).2.scopes.map
          (fun sc => sc.instructions) =
        [pre ++ 0 :: scenarios.operandBytes n ++ [2]] ∧
      (Compile (.Program (scenarios.manyConstantsProgram n w)) New).2.constants[n]? =
        some (.Integer (.constant n) w) ∧
      (0 < n → (Compile (.Program (scenarios.manyConstantsProgram n w)) New).2.constants[0]? =
        some (.Integer (.constant 0) 1)) := by
  obtain ⟨sc2, h2⟩ := compile_integer_statements n 1 New ⟨[], ⟨0, 0⟩, ⟨0, 0⟩⟩ rfl rfl
  have hlen0 : (New.constants ++ (List.range n).map
      (fun i => object.Object.Integer (.constant (New.constants.length + i)) 1)).length = n := by
    simp [New]
  have hzero0 : 0 < n → (New.constants ++ (List.range n).map
      (fun i => object.Object.Integer (.constant (New.constants.length + i)) 1))[0]? =
      some (.Integer (.constant 0) 1) := by
    intro hn
    simp [New, hn]
  generalize New.constants ++ (List.range n).map
      (fun i => object.Object.Integer (.constant (New.constants.length + i)) 1) = pool
    at h2 hlen0 hzero0
  have h3 := compile_integer_statement w ⟨pool, New.SymbolTable, [sc2], New.scopeIndex⟩ sc2 rfl rfl
  have hc : Compile (.Program (scenarios.manyConstantsProgram n w)) New =
      (.ok (),
        ⟨pool ++ [.Integer (.constant pool.length) w], New.SymbolTable,
          [{ instructions := sc2.instructions ++ 0 :: scenarios.operandBytes pool.length ++ [2],
             lastInstruction :=
               { Opcode := code.OpPop, Position := (sc2.instructions.length : Int) + 3 },
             previousInstruction :=
               { Opcode := code.OpConstant, Position := sc2.instructions.length } }],
          New.scopeIndex⟩) := by
    rw [Compile, scenarios.manyConstantsProgram]
    simp only [CompileStatements_append]
    rw [sequence_append_ok _ _ _ _ h2]
    simp only [CompileStatements]
    rw [sequence_cons_ok _ _ _ _ h3]
    simp only [sequence, pure, GoM.pure]
  refine ⟨sc2.instructions, ?_⟩
  rw [hc]
  refine ⟨rfl, ?_, ?_, ?_⟩
  · simp only [hlen0, List.map_cons, List.map_nil]
  · simp only []
    rw [List.getElem?_append_right (by omega)]
    simp [hlen0]
  · intro hn
    simp only []
    rw [List.getElem?_append_left (by rw [hlen0]; exact hn)]
    exact hzero0 hn

end compiler

namespace vm

theorem indexInt_append_at {α : Type} (pre : List α) (x : α) (rest : List α) (p : Int)
    (hp : p = (pre.length : Int)) :
    indexInt (pre ++ x :: rest) p = .ok x := by
  subst hp
  have h : ¬ ((pre.length : Int) < 0) := by omega
  simp only [indexInt, if_neg h, Int.toNat_ofNat, List.getElem?_append_right (le_refl _),
    Nat.sub_self, List.getElem?_cons_zero]

theorem readUint16At_append (pre : List Nat) (x hi lo : Nat) (rest : List Nat) (p : Int)
    (hp : p = (pre.length : Int)) :
    readUint16At (pre ++ x :: hi :: lo :: rest) p = .ok (((hi % 256 * 256 + lo % 256 : Nat)) : Int) := by
  subst hp
  have h : ¬ ((pre.length : Int) + 1 < 0) := by omega
  have e : ((pre.length : Int) + 1).toNat = pre.length + 1 := by omega
  have hle : pre.length + 1 ≤ (pre ++ x :: hi :: lo :: rest).length := by simp
  have hd : List.drop (pre.length + 1) (pre ++ x :: hi :: lo :: rest) = hi :: lo :: rest := by
    rw [List.drop_append_eq_append_drop]
    simp
  simp only [readUint16At, if_neg h, e, code.sliceFrom, if_pos hle, hd, code.ReadUint16]

theorem run_let_chunk (fuel : Nat) (consts : List object.Object) (stack globals : Slice object.Object)
    (pre post : List Nat) (b : Bool) (i : Nat) (nl np bp : Int) (allocs : Nat)
    (hstack : 0 < stack.len) (hglobals : globals.len = 65536) :
    Run (fuel + 2)
      ⟨consts, stack, 0, globals,
        [⟨⟨pre ++ scenarios.letBooleanCode i b ++ post, nl, np⟩, (pre.length : Int) - 1, bp⟩],
        allocs⟩ =
    Run fuel
      ⟨consts, { stack with get := fun j => if j = 0 then .Boolean b else stack.get j }, 0,
        { globals with get := fun j => if j = i % 65536 then .Boolean b else globals.get j },
        [⟨⟨pre ++ scenarios.letBooleanCode i b ++ post, nl, np⟩, (pre.length : Int) + 3, bp⟩],
        allocs⟩ := by
  have hlen : (pre ++ scenarios.letBooleanCode i b ++ post).length =
      pre.length + 4 + post.length := by
    simp [scenarios.letBooleanCode, scenarios.operandBytes]
    omega
  have hins : pre ++ scenarios.letBooleanCode i b ++ post =
      pre ++ (if b then 6 else 7) :: ([17] ++ scenarios.operandBytes i ++ post) := by
    simp [scenarios.letBooleanCode]
  have hins2 : pre ++ scenarios.letBooleanCode i b ++ post =
      (pre ++ [if b then 6 else 7]) ++ 17 :: (i / 256 % 256) :: (i % 256) :: post := by
    simp [scenarios.letBooleanCode, scenarios.operandBytes]
  have hx0 := indexInt_append_at pre (if b then 6 else 7)
    ([17] ++ scenarios.operandBytes i ++ post) ((pre.length : Int) - 1 + 1) (by omega)
  rw [← hins] at hx0
  have hx1 := indexInt_append_at (pre ++ [if b then 6 else 7]) 17
    ((i / 256 % 256) :: (i % 256) :: post) ((pre.length : Int) - 1 + 1 + 1) (by simp)
  rw [← hins2] at hx1
  have hr := readUint16At_append (pre ++ [if b then 6 else 7]) 17 (i / 256 % 256) (i % 256) post
    ((pre.length : Int) - 1 + 1 + 1) (by simp)
  rw [← hins2] at hr
  have hc1 : (pre.length : Int) - 1 < ((pre.length + 4 + post.length : Nat) : Int) - 1 := by
    omega
  have hc2 : (pre.length : Int) - 1 + 1 < ((pre.length + 4 + post.length : Nat) : Int) - 1 := by
    omega
  have he : i / 256 % 256 % 256 * 256 + i % 256 % 256 = i % 65536 := by omega
  rw [he] at hr
  have hs0 : ¬ ((0 : Int) ≥ StackSize) := by decide
  have hs1 : ¬ ((0 : Int) < 0 ∨ (0 : Int) ≥ (stack.len : Int)) := by omega
  have hs2 : ¬ ((0 : Int) + 1 - 1 < 0 ∨ (0 : Int) + 1 - 1 ≥ (stack.len : Int)) := by omega
  have hg : ¬ (((i % 65536 : Nat) : Int) < 0 ∨
      ((i % 65536 : Nat) : Int) ≥ ((globals.len : Nat) : Int)) := by omega
  have e6 : execute 6 = execute code.OpTrue := rfl
  have e7 : execute 7 = execute code.OpFalse := rfl
  have e17 : execute 17 = execute code.OpSetGlobal := rfl
  generalize hI : pre ++ scenarios.letBooleanCode i b ++ post = ins at *
  rw [show fuel + 2 = (fuel + 1) + 1 from rfl, Run]
  simp only [currentFrame, Frame.Instructions, hlen, hc1, if_true, step, advance, setCurrentFrame,
    bind, GoM.bind, GoM.lift, hx0]
  have e0 : (0 : Int) + 1 - 1 = 0 := by norm_num
  have eip : (pre.length : Int) - 1 + 1 + 1 + 2 = (pre.length : Int) + 3 := by omega
  cases b
  · simp only [Bool.false_eq_true, if_false, e7, execute_OpFalse, push, hs0, Slice.setIndex, hs1,
      False]
    rw [Run]
    simp only [currentFrame, Frame.Instructions, hlen, hc2, if_true, step, advance,
      setCurrentFrame, bind, GoM.bind, GoM.lift, hx1, e17, execute_OpSetGlobal, hr, pop,
      Slice.index, hs1, hs2, GoM.get, GoM.set, Slice.setIndex, hg, if_false, e0, eip,
      Int.toNat_zero, Int.toNat_ofNat]
  · simp only [if_true, e6, execute_OpTrue, push, hs0, Slice.setIndex, hs1, if_false, True]
    rw [Run]
    simp only [currentFrame, Frame.Instructions, hlen, hc2, if_true, step, advance,
      setCurrentFrame, bind, GoM.bind, GoM.lift, hx1, e17, execute_OpSetGlobal, hr, pop,
      Slice.index, hs1, hs2, GoM.get, GoM.set, Slice.setIndex, hg, if_false, e0, eip,
      Int.toNat_zero, Int.toNat_ofNat]


theorem letBooleanCode_length (i : Nat) (b : Bool) : (scenarios.letBooleanCode i b).length = 4 := by
  simp [scenarios.letBooleanCode, scenarios.operandBytes]

theorem letBooleansCode_length (i : Nat) (bs : List Bool) :
    (scenarios.letBooleansCode i bs).length = 4 * bs.length := by
  induction bs generalizing i with
  | nil => rfl
  | cons b rest ih =>
    simp only [scenarios.letBooleansCode, List.length_append, letBooleanCode_length, ih,
      List.length_cons]
    omega

/-- The run of the code of a row of statements `let … = b;`: two iterations of
the loop of `Run` for each, storing the values into the globals. -/
theorem run_let_chunks (bs : List Bool) : ∀ (fuel i : Nat) (consts : List object.Object)
    (stack globals : Slice object.Object) (pre post : List Nat) (nl np bp : Int) (allocs : Nat),
    0 < stack.len → globals.len = 65536 →
    ∃ stack2 globals2 : Slice object.Object,
      Run (fuel + 2 * bs.length)
        ⟨consts, stack, 0, globals,
          [⟨⟨pre ++ scenarios.letBooleansCode i bs ++ post, nl, np⟩, (pre.length : Int) - 1, bp⟩],
          allocs⟩ =
      Run fuel
        ⟨consts, stack2, 0, globals2,
          [⟨⟨pre ++ scenarios.letBooleansCode i bs ++ post, nl, np⟩,
            (pre.length : Int) - 1 + 4 * (bs.length : Int), bp⟩],
          allocs⟩ ∧
      stack2.len = stack.len ∧ globals2.len = 65536 ∧
      (∀ j, globals2.get j = scenarios.storedValue i bs (globals.get j) j) ∧
      stack2.get 0 = bs.foldl (fun _ b => object.Object.Boolean b) (stack.get 0) := by
  induction bs with
  | nil =>
    intro fuel i consts stack globals pre post nl np bp allocs hstack hglobals
    refine ⟨stack, globals, ?_, rfl, hglobals, fun j => rfl, rfl⟩
    simp
  | cons b rest ih =>
    intro fuel i consts stack globals pre post nl np bp allocs hstack hglobals
    have hI1 : pre ++ scenarios.letBooleansCode i (b :: rest) ++ post =
        pre ++ scenarios.letBooleanCode i b ++ (scenarios.letBooleansCode (i + 1) rest ++ post) := by
      simp [scenarios.letBooleansCode]
    have hI2 : pre ++ scenarios.letBooleansCode i (b :: rest) ++ post =
        (pre ++ scenarios.letBooleanCode i b) ++ scenarios.letBooleansCode (i + 1) rest ++ post := by
      simp [scenarios.letBooleansCode]
    have hchunk := run_let_chunk (fuel + 2 * rest.length) consts stack globals pre
      (scenarios.letBooleansCode (i + 1) rest ++ post) b i nl np bp allocs hstack hglobals
    rw [← hI1] at hchunk
    obtain ⟨stack2, globals2, hrun, hs, hg, hget, htop⟩ :=
      ih fuel (i + 1) consts
        { stack with get := fun j => if j = 0 then .Boolean b else stack.get j }
        { globals with get := fun j => if j = i % 65536 then .Boolean b else globals.get j }
        (pre ++ scenarios.letBooleanCode i b) post nl np bp allocs hstack hglobals
    rw [← hI2] at hrun
    have hip : (((pre ++ scenarios.letBooleanCode i b).length : Nat) : Int) - 1 =
        (pre.length : Int) + 3 := by
      rw [List.length_append, letBooleanCode_length]; push_cast; omega
    rw [hip] at hrun
    refine ⟨stack2, globals2, ?_, hs, hg, ?_, ?_⟩
    · rw [show fuel + 2 * (b :: rest).length = fuel + 2 * rest.length + 2 by
        simp only [List.length_cons]; omega, hchunk, hrun]
      have e : (pre.length : Int) + 3 + 4 * (rest.length : Int) =
          (pre.length : Int) - 1 + 4 * (((b :: rest).length : Nat) : Int) := by
        simp only [List.length_cons]; push_cast; omega
      rw [e]
    · intro j
      rw [hget j]
      rfl
    · rw [htop]
      simp only [List.foldl_cons, if_true]

/-- The whole run of a program that consists of statements `let … = b;`. -/
theorem run_letBooleansCode (bs : List Bool) (i k : Nat) (consts : List object.Object)
    (stack globals : Slice object.Object) (allocs : Nat)
    (hstack : 0 < stack.len) (hglobals : globals.len = 65536) :
    ∃ machine : VM,
      Run (2 * bs.length + 1 + k)
        ⟨consts, stack, 0, globals,
          [⟨⟨scenarios.letBooleansCode i bs, 0, 0⟩, -1, 0⟩], allocs⟩ = some (.ok (), machine) ∧
      machine.globals.len = 65536 ∧
      (∀ j, machine.globals.get j = scenarios.storedValue i bs (globals.get j) j) ∧
      machine.allocs = allocs ∧
      LastPoppedStackElem machine =
        .ok (bs.foldl (fun _ b => object.Object.Boolean b) (stack.get 0)) := by
  obtain ⟨stack2, globals2, hrun, hs, hg, hget, htop⟩ :=
    run_let_chunks bs (1 + k) i consts stack globals [] [] 0 0 0 allocs hstack hglobals
  simp only [List.nil_append, List.append_nil, List.length_nil, Nat.cast_zero, zero_sub] at hrun
  refine ⟨⟨consts, stack2, 0, globals2,
      [⟨⟨scenarios.letBooleansCode i bs, 0, 0⟩, -1 + 4 * (bs.length : Int), 0⟩], allocs⟩,
    ?_, hg, hget, rfl, ?_⟩
  · rw [show 2 * bs.length + 1 + k = 1 + k + 2 * bs.length by omega, hrun, Nat.add_comm 1 k, Run]
    have hl := letBooleansCode_length i bs
    have hc : ¬ ((-1 : Int) + 4 * (bs.length : Int) <
        (((scenarios.letBooleansCode i bs).length : Nat) : Int) - 1) := by
      rw [hl]; push_cast; omega
    simp only [currentFrame, Frame.Instructions, if_neg hc]
  · have h : ¬ ((0 : Int) < 0 ∨ (0 : Int) ≥ (stack2.len : Int)) := by omega
    simp only [LastPoppedStackElem, Slice.index, if_neg h, Int.toNat_zero, htop]

end vm

namespace compiler

theorem compile_let_boolean (name : GoString) (b : Bool) (c : Compiler) (t : SymbolTable)
    (sc : CompilationScope) (hT : c.SymbolTable = some t) (hO : t.Outer = none)
    (hn : 0 ≤ t.numDefinitions) (hidx : c.scopeIndex = 0) (hsc : c.scopes = [sc]) :
    CompileStatement (.LetStatement name (.Boolean b)) c =
      (.ok (),
        { c with
          SymbolTable := some (t.Define name).2,
          scopes := [{ instructions := sc.instructions ++
                         scenarios.letBooleanCode t.numDefinitions.toNat b,
                       lastInstruction :=
                         { Opcode := code.OpSetGlobal,
                           Position := (sc.instructions.length : Int) + 1 },
                       previousInstruction :=
                         { Opcode := if b then code.OpTrue else code.OpFalse,
                           Position := sc.instructions.length } }] }) := by
  obtain ⟨constants, table, scopes, idx⟩ := c
  simp only [] at hT hidx hsc
  subst hT hidx hsc
  have hmT : code.Make code.OpTrue [] = .ok [6] := by decide
  have hmF : code.Make code.OpFalse [] = .ok [7] := by decide
  have hmS : code.Make code.OpSetGlobal [t.numDefinitions] =
      .ok (17 :: scenarios.operandBytes t.numDefinitions.toNat) := by
    have := code.Make_two_bytes 17 "OpSetGlobal" t.numDefinitions (by decide) hn
    simpa [scenarios.operandBytes] using this
  have hscope : (t.Define name).1.Scope = GlobalScope := by
    rw [Define_fst, hO]; rfl
  have hindex : (t.Define name).1.Index = t.numDefinitions := by
    rw [Define_fst]
  rw [CompileStatement]
  simp only [compileLetStatement, bind, GoM.bind]
  rw [CompileExpression]
  cases b
  · simp only [compileBoolean, Bool.false_eq_true, if_false, bind, GoM.bind]
    rw [emit_eq ⟨constants, some t, [sc], 0⟩ sc code.OpFalse _ _ (le_refl _) rfl hmF]
    simp only [define, hscope, if_true, hindex, List.set_cons_zero, Int.toNat_zero, pure,
      GoM.pure, bind, GoM.bind]
    rw [emit_eq ⟨constants, some (t.Define name).2,
      [{ instructions := sc.instructions ++ [7],
         lastInstruction := { Opcode := code.OpFalse, Position := sc.instructions.length },
         previousInstruction := sc.lastInstruction }], 0⟩
      { instructions := sc.instructions ++ [7],
        lastInstruction := { Opcode := code.OpFalse, Position := sc.instructions.length },
        previousInstruction := sc.lastInstruction } code.OpSetGlobal _ _ (le_refl _) rfl hmS]
    simp [scenarios.letBooleanCode]
  · simp only [compileBoolean, if_true, bind, GoM.bind]
    rw [emit_eq ⟨constants, some t, [sc], 0⟩ sc code.OpTrue _ _ (le_refl _) rfl hmT]
    simp only [define, hscope, if_true, hindex, List.set_cons_zero, Int.toNat_zero, pure,
      GoM.pure, bind, GoM.bind]
    rw [emit_eq ⟨constants, some (t.Define name).2,
      [{ instructions := sc.instructions ++ [6],
         lastInstruction := { Opcode := code.OpTrue, Position := sc.instructions.length },
         previousInstruction := sc.lastInstruction }], 0⟩
      { instructions := sc.instructions ++ [6],
        lastInstruction := { Opcode := code.OpTrue, Position := sc.instructions.length },
        previousInstruction := sc.lastInstruction } code.OpSetGlobal _ _ (le_refl _) rfl hmS]
    simp [scenarios.letBooleanCode]

theorem compile_let_booleans (ds : List (GoString × Bool)) : ∀ (c : Compiler) (t : SymbolTable)
    (sc : CompilationScope), c.SymbolTable = some t → t.Outer = none → 0 ≤ t.numDefinitions →
    c.scopeIndex = 0 → c.scopes = [sc] →
    ∃ sc2, sequence (CompileStatements
        (ds.map (fun d => ast.Statement.LetStatement d.1 (.Boolean d.2)))) c =
      (.ok (),
        { c with
          SymbolTable := some (scenarios.afterCalls t (ds.map (fun d => .Define d.1))),
          scopes := [sc2] }) ∧
      sc2.instructions = sc.instructions ++
        scenarios.letBooleansCode t.numDefinitions.toNat (ds.map (fun d => d.2)) := by
  induction ds with
  | nil =>
    intro c t sc hT hO hn hidx hsc
    refine ⟨sc, ?_, by simp [scenarios.letBooleansCode]⟩
    obtain ⟨constants, table, scopes, idx⟩ := c
    simp only [] at hT hidx hsc
    subst hT hidx hsc
    simp [CompileStatements, sequence, pure, GoM.pure, scenarios.afterCalls]
  | cons d rest ih =>
    intro c t sc hT hO hn hidx hsc
    have h1 := compile_let_boolean d.1 d.2 c t sc hT hO hn hidx hsc
    obtain ⟨sc2, h2, h3⟩ := ih
      { c with
        SymbolTable := some (t.Define d.1).2,
        scopes := [{ instructions := sc.instructions ++
                       scenarios.letBooleanCode t.numDefinitions.toNat d.2,
                     lastInstruction :=
                       { Opcode := code.OpSetGlobal,
                         Position := (sc.instructions.length : Int) + 1 },
                     previousInstruction :=
                       { Opcode := if d.2 then code.OpTrue else code.OpFalse,
                         Position := sc.instructions.length } }] }
      (t.Define d.1).2 _ rfl (by rw [Define_Outer]; exact hO)
      (by rw [Define_numDefinitions]; omega) hidx rfl
    refine ⟨sc2, ?_, ?_⟩
    · rw [List.map_cons, CompileStatements, sequence_cons_ok _ _ _ _ h1, h2]
      rfl
    · rw [h3, Define_numDefinitions]
      have e : (t.numDefinitions + 1).toNat = t.numDefinitions.toNat + 1 := by omega
      simp only [e, List.map_cons, scenarios.letBooleansCode, List.append_assoc]

theorem compile_letBooleans (ds : List (GoString × Bool)) (t : SymbolTable)
    (constants : List object.Object) (hO : t.Outer = none) (hn : 0 ≤ t.numDefinitions) :
    ∃ sc2, Compile (.Program (scenarios.letBooleans ds)) (NewWithState (some t) constants) =
      (.ok (),
        ⟨constants, some (scenarios.afterCalls t (ds.map (fun d => .Define d.1))), [sc2], 0⟩) ∧
      sc2.instructions =
        scenarios.letBooleansCode t.numDefinitions.toNat (ds.map (fun d => d.2)) := by
  obtain ⟨sc2, h2, h3⟩ := compile_let_booleans ds (NewWithState (some t) constants) t
    ⟨[], ⟨0, 0⟩, ⟨0, 0⟩⟩ rfl hO hn rfl rfl
  refine ⟨sc2, ?_, by rw [h3]; rfl⟩
  rw [Compile, scenarios.letBooleans]
  exact h2

theorem Resolve_Define_self (t : SymbolTable) (name : GoString) :
    (t.Define name).2.Resolve name = ((t.Define name).1, true) := by
  obtain ⟨outer, store, n⟩ := t
  simp only [SymbolTable.Define, SymbolTable.Outer, SymbolTable.store,
    SymbolTable.numDefinitions]
  rw [Resolve_eq_find]
  cases outer <;> simp [scenarios.chain, SymbolTable.store, object.mapSet]

theorem Resolve_Define_ne (t : SymbolTable) (name other : GoString) (h : name ≠ other) :
    (t.Define other).2.Resolve name = t.Resolve name := by
  obtain ⟨outer, store, n⟩ := t
  simp only [SymbolTable.Define, SymbolTable.Outer, SymbolTable.store,
    SymbolTable.numDefinitions]
  cases hs : store name <;> cases outer <;>
    simp [SymbolTable.Resolve, object.mapSet, h, hs]

theorem Resolve_afterCalls_replicate (n : Nat) (t : SymbolTable) (name other : GoString)
    (h : name ≠ other) :
    (scenarios.afterCalls t (List.replicate n (.Define other))).Resolve name =
      t.Resolve name := by
  induction n generalizing t with
  | zero => rfl
  | succ n ih =>
    rw [List.replicate_succ, scenarios.afterCalls, ih, Resolve_Define_ne t name other h]

theorem storedValue_keep (n : Nat) (b : Bool) : ∀ (i : Nat) (old : object.Object) (j : Nat),
    (∀ m, m < n → (i + m) % 65536 ≠ j) →
    scenarios.storedValue i (List.replicate n b) old j = old := by
  induction n with
  | zero => intro i old j _; rfl
  | succ n ih =>
    intro i old j h
    have h0 : ¬ (j = i % 65536) := by
      have := h 0 (by omega)
      simp only [Nat.add_zero] at this
      exact fun e => this e.symm
    rw [List.replicate_succ, scenarios.storedValue, if_neg h0]
    apply ih
    intro m hm
    have := h (m + 1) (by omega)
    rw [show i + 1 + m = i + (m + 1) by omega]
    exact this

theorem storedValue_last (n : Nat) (b : Bool) : ∀ (i : Nat) (old : object.Object) (j : Nat),
    (i + n) % 65536 = j →
    scenarios.storedValue i (List.replicate (n + 1) b) old j = .Boolean b := by
  induction n with
  | zero =>
    intro i old j h
    simp only [Nat.add_zero] at h
    simp [List.replicate, scenarios.storedValue, h]
  | succ n ih =>
    intro i old j h
    rw [List.replicate_succ, scenarios.storedValue]
    apply ih
    rw [← h]
    congr 1
    omega

theorem afterCalls_snoc (cs : List scenarios.TableCall) (t : SymbolTable) (name : GoString) :
    scenarios.afterCalls t (cs ++ [.Define name]) = ((scenarios.afterCalls t cs).Define name).2 := by
  induction cs generalizing t with
  | nil => rfl
  | cons c rest ih =>
    cases c with
    | Define other => exact ih _
    | DefineBuiltin index other => exact ih _

theorem countDefine_replicate (n : Nat) (name : GoString) :
    scenarios.countDefine (List.replicate n (.Define name)) = n := by
  induction n with
  | zero => rfl
  | succ n ih => rw [List.replicate_succ, scenarios.countDefine, ih]

theorem compileIdentifier_global_bytes (name : GoString) (c : Compiler) (t : SymbolTable)
    (sym : Symbol) (sc : CompilationScope)
    (hT : c.SymbolTable = some t) (hres : t.Resolve name = (sym, true))
    (hscope : sym.Scope = GlobalScope)
    (h0 : 0 ≤ c.scopeIndex) (hsc : c.scopes[c.scopeIndex.toNat]? = some sc)
    (hi0 : 0 ≤ sym.Index) :
    CompileExpression (.Identifier name) c =
      (.ok (),
        { c with
          scopes := (c.scopes.set c.scopeIndex.toNat
            { instructions := sc.instructions ++ 16 :: scenarios.operandBytes sym.Index.toNat,
              lastInstruction := { Opcode := code.OpGetGlobal, Position := sc.instructions.length },
              previousInstruction := sc.lastInstruction }) }) := by
  have hm : code.Make code.OpGetGlobal [sym.Index] =
      .ok (16 :: scenarios.operandBytes sym.Index.toNat) := by
    have := code.Make_two_bytes 16 "OpGetGlobal" sym.Index (by decide) hi0
    simpa [scenarios.operandBytes] using this
  rw [CompileExpression]
  simp only [compileIdentifier, bind, GoM.bind, resolve, hT, hres, loadSymbol, hscope,
    Bool.not_true, Bool.false_eq_true, if_false, if_true]
  rw [emit_eq c sc code.OpGetGlobal _ _ h0 hsc hm]
  simp only [pure, GoM.pure, hT]

theorem compile_readProgram_bytes (name : GoString) (t : SymbolTable)
    (constants : List object.Object)
    (sym : Symbol) (hres : t.Resolve name = (sym, true)) (hscope : sym.Scope = GlobalScope)
    (hi0 : 0 ≤ sym.Index) :
    (Compile (.Program (scenarios.readProgram name)) (NewWithState (some t) constants)).1 =
      .ok () ∧
    (Compiler.Bytecode (Compile (.Program (scenarios.readProgram name))
      (NewWithState (some t) constants)).2).1 =
      .ok ⟨16 :: scenarios.operandBytes sym.Index.toNat ++ [2], constants⟩ := by
  have he := compileIdentifier_global_bytes name (NewWithState (some t) constants) t sym
    ⟨[], ⟨0, 0⟩, ⟨0, 0⟩⟩ rfl hres hscope (le_refl (0 : Int)) rfl hi0
  have hs := compileExpressionStatement_eq (.Identifier name) (NewWithState (some t) constants)
    _ { instructions := [] ++ 16 :: scenarios.operandBytes sym.Index.toNat,
        lastInstruction := { Opcode := code.OpGetGlobal, Position := 0 },
        previousInstruction := ⟨0, 0⟩ } he (le_refl (0 : Int)) rfl
  have hc : Compile (.Program (scenarios.readProgram name)) (NewWithState (some t) constants) =
      CompileStatement (.ExpressionStatement (.Identifier name))
        (NewWithState (some t) constants) := by
    simp only [Compile, scenarios.readProgram, CompileStatements, sequence, bind, GoM.bind, pure,
      GoM.pure]
    rw [hs]
  rw [hc, hs]
  exact ⟨rfl, rfl⟩

end compiler

namespace repl

/-- What `handleNormalCommand` does with a program of statements `let … = b;`
in a session whose table is a global one. -/
theorem handleNormalCommand_letBooleans (ds : List (GoString × Bool)) (session : Session)
    (k : Nat) (hO : session.symbolTable.Outer = none)
    (hn : 0 ≤ session.symbolTable.numDefinitions) (hg : session.globals.len = 65536) :
    ∃ s2 : Session,
      handleNormalCommand (2 * ds.length + 1 + k) (scenarios.letBooleans ds) session =
        (some (.ok (ds.foldl (fun _ d => object.Object.Boolean d.2) object.Object.nil)), s2) ∧
      s2.symbolTable =
        scenarios.afterCalls session.symbolTable (ds.map (fun d => .Define d.1)) ∧
      s2.globals.len = 65536 ∧
      (∀ j, s2.globals.get j =
        scenarios.storedValue session.symbolTable.numDefinitions.toNat
          (ds.map (fun d => d.2)) (session.globals.get j) j) := by
  obtain ⟨sc2, hc, hins⟩ := compiler.compile_letBooleans ds session.symbolTable
    session.constants hO hn
  obtain ⟨machine, hrun, hlen, hget, hallocs, hlast⟩ :=
    vm.run_letBooleansCode (ds.map (fun d => d.2)) session.symbolTable.numDefinitions.toNat k
      session.constants
      (Slice.make vm.StackSize.toNat object.Object.nil) session.globals session.allocs
      (by decide) hg
  rw [List.length_map] at hrun
  rw [← hins] at hrun
  refine ⟨⟨session.constants,  machine.globals,
    scenarios.afterCalls session.symbolTable (ds.map (fun d => .Define d.1)), machine.allocs⟩,
    ?_, rfl, hlen, hget⟩
  have hb : compiler.Compiler.Bytecode
      ⟨session.constants,
        some (scenarios.afterCalls session.symbolTable (ds.map (fun d => .Define d.1))),
        [sc2], 0⟩ =
      (.ok ⟨sc2.instructions, session.constants⟩,
        ⟨session.constants,
          some (scenarios.afterCalls session.symbolTable (ds.map (fun d => .Define d.1))),
          [sc2], 0⟩) := rfl
  have hm : ({ vm.NewWithGlobalsStore ⟨sc2.instructions, session.constants⟩ session.globals with
      allocs := session.allocs } : vm.VM) =
      ⟨session.constants, Slice.make vm.StackSize.toNat object.Object.nil, 0, session.globals,
        [⟨⟨sc2.instructions, 0, 0⟩, -1, 0⟩], session.allocs⟩ := rfl
  have hfold : List.foldl (fun _ b => object.Object.Boolean b)
      ((Slice.make vm.StackSize.toNat object.Object.nil).get 0) (ds.map (fun d => d.2)) =
      ds.foldl (fun _ d => object.Object.Boolean d.2) object.Object.nil := by
    rw [List.foldl_map]
    rfl
  rw [hfold] at hlast
  simp only [handleNormalCommand, hc, hb, hm, hrun, hlast, outerTable, Int.toNat_zero]

end repl

section
attribute [local simp] compiler.sequence compiler.compileLetStatement compiler.compileFunctionLiteral
  compiler.compileExpressionStatement compiler.compileInfixExpression compiler.compileIdentifier
  compiler.compileCallExpression compiler.compileIntegerLiteral compiler.compileIfExpression
  compiler.compileStringLiteral compiler.compileBoolean compiler.compilePrefixExpression
  compiler.compileArrayLiteral compiler.compileHashLiteral compiler.compileIndexExpression
  compiler.compileReturnStatement compiler.returnNilOnError compiler.removeLastPop compiler.changeOperand
  compiler.sliceTo
  compiler.New compiler.NewWithState compiler.enterScope compiler.leaveScope compiler.defineParameters
  compiler.define compiler.resolve
  compiler.loadSymbol compiler.emit compiler.addInstruction compiler.setLastInstruction compiler.currentScope
  compiler.setCurrentScope compiler.lastInstructionIs compiler.currentInstructions
  compiler.replaceLastPopWithReturn
  compiler.replaceInstruction compiler.replaceLoop compiler.numDefinitions compiler.nextRef compiler.addConstant
  compiler.Compiler.Bytecode
  bind GoM.bind pure GoM.pure GoM.lift GoM.get GoM.set GoM.fail GoM.modify indexInt setIndexInt
  code.Make code.definitions code.definitionsTable code.makeLoop code.PutUint16 code.setByte code.uint16 code.byte
  compiler.SymbolTable.Define compiler.SymbolTable.Resolve compiler.NewEnclosedSymbolTable compiler.NewSymbolTable
  compiler.SymbolTable.Outer compiler.SymbolTable.store compiler.SymbolTable.numDefinitions object.mapSet
  compiler.GlobalScope compiler.LocalScope compiler.BuiltinScope List.lookup
  vm.execute_OpConstant vm.execute_OpAdd vm.execute_OpSub vm.execute_OpMul vm.execute_OpDiv vm.execute_OpPop vm.execute_OpTrue vm.execute_OpFalse vm.execute_OpEqual vm.execute_OpNotEqual vm.execute_OpGreaterThan vm.execute_OpBang vm.execute_OpMinus vm.execute_OpJump vm.execute_OpJumpNotTruthy vm.execute_OpNull vm.execute_OpSetGlobal vm.execute_OpGetGlobal vm.execute_OpArray vm.execute_OpHash vm.execute_OpIndex vm.execute_OpCall vm.execute_OpReturnValue vm.execute_OpReturn vm.execute_OpSetLocal vm.execute_OpGetLocal vm.execute_OpGetBuiltin
  vm.New vm.NewWithGlobalsStore vm.NewFrame vm.Frame.Instructions vm.currentFrame vm.setCurrentFrame vm.advance
  vm.popFrame vm.pushFrame
  vm.push vm.pop vm.LastPoppedStackElem vm.alloc vm.executeBinaryOperation vm.executeBinaryIntegerOperation
  vm.integerValue vm.executeCall vm.callFunction vm.readUint16At vm.readUint8At vm.step vm.Run
  vm.StackSize vm.GlobalsSize vm.MaxFrames vm.VM.framesIndex vm.True vm.False vm.Null
  Slice.make Slice.index Slice.setIndex code.sliceFrom code.ReadUint16 code.ReadUint8
  object.Object.Type_ object.INTEGER_OBJ object.STRING_OBJ object.Object.value outcome
  repl.handleNormalCommand repl.outerTable
  code.OpConstant code.OpAdd code.OpPop code.OpSub code.OpMul code.OpDiv code.OpTrue code.OpFalse code.OpEqual code.OpNotEqual code.OpGreaterThan code.OpMinus code.OpBang code.OpJumpNotTruthy code.OpJump code.OpNull code.OpGetGlobal code.OpSetGlobal code.OpGetLocal code.OpSetLocal code.OpArray code.OpHash code.OpIndex code.OpCall code.OpReturnValue code.OpReturn code.OpGetBuiltin

/-- C1: for all integers `A` and `B` the program
`let add = fn(a, b) { a + b; }; add(A, B);` compiles on a fresh compiler and
runs on a fresh VM without error, for every fuel from 32 on, and the last
popped value is the Integer `A + B` wrapped to 64 bits; for `A = 3`, `B = 4`
it is Integer 7. -/
theorem add_call_result (A B : Int) (k : Nat) :
    outcome (compileAndRun (32 + k) (scenarios.addProgram A B)) =
      some (.ok (.Integer (vm.wrap64 (A + B)))) ∧
    outcome (compileAndRun (32 + k) (scenarios.addProgram 3 4)) = some (.ok (.Integer 7)) := by
  have base : outcome (compileAndRun 32 (scenarios.addProgram A B)) =
      some (.ok (.Integer (vm.wrap64 (A + B)))) := by
    simp only [compileAndRun, scenarios.addProgram, compiler.Compile,
      compiler.CompileStatements, compiler.CompileStatement, compiler.CompileExpression,
      compiler.CompileExpressions, compiler.CompileBlockStatement]
    simp
  exact ⟨outcome_compileAndRun_fuel_mono 32 (32 + k) _ _ base (Nat.le_add_right 32 k),
    outcome_compileAndRun_fuel_mono 32 (32 + k) (scenarios.addProgram 3 4)
      (.ok (.Integer 7)) (by decide!) (Nat.le_add_right 32 k)⟩

/-- C2, as the code behaves: compiling
`let fact = fn(n) { if (n == 0) { 1 } else { n * fact(n - 1) } }; fact(5);`
on a fresh compiler fails with "undefined variable fact" (the value of a
`let` is compiled before its name is defined), so nothing is run, whatever
the fuel. -/
theorem fact_is_undefined_in_its_body (fuel : Nat) :
    (compiler.Compile (.Program scenarios.factProgram) compiler.New).1 =
      .error (.error "undefined variable fact") ∧
    compileAndRun fuel scenarios.factProgram =
      some (.error (.error "undefined variable fact")) :=
  ⟨by decide!, compileAndRun_compile_error fuel scenarios.factProgram
    (.error "undefined variable fact") (by decide!)⟩

/-- C11, as the code behaves: for the operator `!=` the compiler emits the
code of Left, the code of Right and then `OpGreaterThan` (opcode 10, not
`OpNotEqual`, opcode 9), so `1 != 2` yields FALSE, `2 != 1` yields TRUE and
`1 != 1` yields FALSE. -/
theorem not_equal_emits_greater_than (left right : ast.Expression) :
    compiler.CompileExpression (.InfixExpression left "!=" right) =
      (do
        compiler.CompileExpression left
        compiler.CompileExpression right
        let _ ← compiler.emit code.OpGreaterThan []) ∧
    scenarios.compiled (.Program (scenarios.infixProgram 1 "!=" 2)) compiler.New =
      (.ok (), .ok [0, 0, 0, 0, 0, 1, 10, 2], [.Integer 1, .Integer 2]) ∧
    outcome (compileAndRun 8 (scenarios.infixProgram 1 "!=" 2)) = some (.ok (.Boolean false)) ∧
    outcome (compileAndRun 8 (scenarios.infixProgram 2 "!=" 1)) = some (.ok (.Boolean true)) ∧
    outcome (compileAndRun 8 (scenarios.infixProgram 1 "!=" 1)) = some (.ok (.Boolean false)) := by
  refine ⟨?_, by decide!, by decide!, by decide!, by decide!⟩
  rw [compiler.CompileExpression, compiler.compileInfixExpression_not_equal]

/-- C12, as the code behaves: for the operator `<` the compiler compiles
Right, Left, Left and Right and then reaches the `default` case of the
operator switch, so `Compile` never returns nil for such an expression; for
`1 < 2` it returns "unknown operator <" after emitting four `OpConstant`. -/
theorem less_than_never_compiles (left right : ast.Expression) (c : compiler.Compiler) :
    (compiler.CompileExpression (.InfixExpression left "<" right) c).1 ≠ .ok () ∧
    scenarios.compiled (.Program (scenarios.infixProgram 1 "<" 2)) compiler.New =
      (.error (.error "unknown operator <"), .ok [0, 0, 0, 0, 0, 1, 0, 0, 2, 0, 0, 3],
        [.Integer 2, .Integer 1, .Integer 1, .Integer 2]) ∧
    compileAndRun 8 (scenarios.infixProgram 1 "<" 2) =
      some (.error (.error "unknown operator <")) := by
  refine ⟨?_, by decide!, compileAndRun_compile_error 8 (scenarios.infixProgram 1 "<" 2)
    (.error "unknown operator <") (by decide!)⟩
  rw [compiler.CompileExpression]
  exact compiler.compileInfixExpression_less _ _ c

/-- C13, as the code behaves: an error inside the consequence of an `if` or
inside an element of an array literal is dropped (`return nil`), so
`if (true) { undefinedVar };` and `[1 <= 2];` compile without error; the
instructions emitted before the error stay, the `OpJump`, the patching of the
jump operand 9999 and the `OpArray` are skipped. -/
theorem nested_compile_errors_are_dropped :
    scenarios.compiled (.Program scenarios.ifUndefinedProgram) compiler.New =
      (.ok (), .ok [6, 13, 39, 15, 2], []) ∧
    scenarios.compiled (.Program scenarios.arrayUnknownOperatorProgram) compiler.New =
      (.ok (), .ok [0, 0, 0, 0, 0, 1, 2], [.Integer 1, .Integer 2]) ∧
    (compiler.Compile (.Program (scenarios.readProgram "undefinedVar")) compiler.New).1 =
      .error (.error "undefined variable undefinedVar") ∧
    (compiler.Compile (.Program (scenarios.infixProgram 1 "<=" 2)) compiler.New).1 =
      .error (.error "unknown operator <=") :=
  ⟨by decide!, by decide!, by decide!, by decide!⟩

/-- C14, as the code behaves: the compiler returned by `New()` holds a fresh
symbol table in which no name resolves (the builtins are defined on another
table, which is dropped), so compiling the identifier `puts` or `push` fails
with "undefined variable"; on a table with the builtins defined, as the REPL
passes to `NewWithState`, they resolve to Builtin 0 and Builtin 1 and compile
to `OpGetBuiltin 0` and `OpGetBuiltin 1`. -/
theorem New_table_has_no_builtins (name : GoString) :
    compiler.New.SymbolTable = some compiler.NewSymbolTable ∧
    (compiler.NewSymbolTable.Resolve name).2 = false ∧
    scenarios.compiled (.Program (scenarios.readProgram "puts")) compiler.New =
      (.error (.error "undefined variable puts"), .ok [], []) ∧
    scenarios.compiled (.Program (scenarios.readProgram "push")) compiler.New =
      (.error (.error "undefined variable push"), .ok [], []) ∧
    (compiler.defineBuiltins compiler.NewSymbolTable).Resolve "puts" =
      (⟨"puts", compiler.BuiltinScope, 0⟩, true) ∧
    (compiler.defineBuiltins compiler.NewSymbolTable).Resolve "push" =
      (⟨"push", compiler.BuiltinScope, 1⟩, true) ∧
    scenarios.compiled (.Program (scenarios.readProgram "puts"))
        (compiler.NewWithState (some (compiler.defineBuiltins compiler.NewSymbolTable)) []) =
      (.ok (), .ok [26, 0, 2], []) ∧
    scenarios.compiled (.Program (scenarios.readProgram "push"))
        (compiler.NewWithState (some (compiler.defineBuiltins compiler.NewSymbolTable)) []) =
      (.ok (), .ok [26, 1, 2], []) :=
  ⟨rfl, rfl, by decide!, by decide!, by decide!, by decide!, by decide!, by decide!⟩


/-- C4: with the globals `c`, `x`, `y` holding arbitrary values,
`if (c) { x } else { y };` leaves `x` as last popped value when `c` is truthy
and `y` otherwise (for every fuel from 8 on), and `if (c) { x };` leaves `x`
or Null; a value is not
truthy exactly when it is FALSE or Null (Integer 0 and the empty String are
truthy); `if (1 > 2) { 10 } else { 20 };` leaves Integer 20. -/
theorem if_else_semantics (c x y : object.Object) (k : Nat) :
    (repl.handleNormalCommand (8 + k) scenarios.ifElseProgram (scenarios.cxySession c x y)).1 =
      some (.ok (if vm.isTruthy c then x else y)) ∧
    (repl.handleNormalCommand (8 + k) scenarios.ifOnlyProgram (scenarios.cxySession c x y)).1 =
      some (.ok (if vm.isTruthy c then x else vm.Null)) ∧
    (vm.isTruthy c = false ↔ c = vm.False ∨ c = vm.Null) ∧
    (∀ r, vm.isTruthy (.Integer r 0) = true ∧ vm.isTruthy (.String r "") = true) ∧
    outcome (compileAndRun 16 scenarios.ifProgram) = some (.ok (.Integer 20)) := by
  refine ⟨?_, ?_, ?_, fun r => ⟨rfl, rfl⟩, by decide!⟩
  · apply repl.handleNormalCommand_fuel_mono 8 (8 + k) _ _ _ _ (Nat.le_add_right 8 k)
    apply repl.handleNormalCommand_of_run 8 scenarios.ifElseProgram _
      ⟨[16, 0, 0, 13, 0, 12, 16, 0, 1, 14, 0, 15, 16, 0, 2, 2], []⟩
    · simp only [scenarios.ifElseProgram, scenarios.cxySession, compiler.Compile,
        compiler.CompileStatements, compiler.CompileStatement, compiler.CompileExpression,
        compiler.CompileExpressions, compiler.CompileBlockStatement]
      simp
    · simp only [scenarios.ifElseProgram, scenarios.cxySession, compiler.Compile,
        compiler.CompileStatements, compiler.CompileStatement, compiler.CompileExpression,
        compiler.CompileExpressions, compiler.CompileBlockStatement]
      simp
    · simp only [scenarios.cxySession]
      cases h : vm.isTruthy c <;> simp [h]
  · apply repl.handleNormalCommand_fuel_mono 8 (8 + k) _ _ _ _ (Nat.le_add_right 8 k)
    apply repl.handleNormalCommand_of_run 8 scenarios.ifOnlyProgram _
      ⟨[16, 0, 0, 13, 0, 12, 16, 0, 1, 14, 0, 13, 15, 2], []⟩
    · simp only [scenarios.ifOnlyProgram, scenarios.cxySession, compiler.Compile,
        compiler.CompileStatements, compiler.CompileStatement, compiler.CompileExpression,
        compiler.CompileExpressions, compiler.CompileBlockStatement]
      simp
    · simp only [scenarios.ifOnlyProgram, scenarios.cxySession, compiler.Compile,
        compiler.CompileStatements, compiler.CompileStatement, compiler.CompileExpression,
        compiler.CompileExpressions, compiler.CompileBlockStatement]
      simp
    · simp only [scenarios.cxySession]
      cases h : vm.isTruthy c <;> simp [h]
  · cases c <;> simp [vm.isTruthy, vm.False, vm.Null]

theorem run_constant_first (consts : List object.Object) (first : object.Object)
    (globals : Slice object.Object) (allocs : Nat) (h : consts[0]? = some first) :
    (vm.Run 3 { vm.NewWithGlobalsStore ⟨[0, 0, 0, 2], consts⟩ globals with
        allocs := allocs }).map (fun r => (r.1, vm.LastPoppedStackElem r.2)) =
      some (.ok (), .ok first) := by
  cases consts with
  | nil => simp at h
  | cons a rest =>
    simp only [List.getElem?_cons_zero, Option.some.injEq] at h
    subst h
    simp

namespace compiler

theorem compile_integerStatementProgram (w : Int) (t : SymbolTable)
    (constants : List object.Object) :
    (Compile (.Program (scenarios.integerStatementProgram w))
      (NewWithState (some t) constants)).1 = .ok () ∧
    (Compiler.Bytecode (Compile (.Program (scenarios.integerStatementProgram w))
      (NewWithState (some t) constants)).2).1 =
      .ok ⟨0 :: scenarios.operandBytes constants.length ++ [2],
        constants ++ [.Integer (.constant constants.length) w]⟩ := by
  have hs := compile_integer_statement w (NewWithState (some t) constants)
    ⟨[], ⟨0, 0⟩, ⟨0, 0⟩⟩ rfl rfl
  have hc : Compile (.Program (scenarios.integerStatementProgram w))
      (NewWithState (some t) constants) =
      CompileStatement (.ExpressionStatement (.IntegerLiteral w))
        (NewWithState (some t) constants) := by
    simp only [Compile, scenarios.integerStatementProgram, CompileStatements]
    rw [sequence_cons_ok _ _ _ _ hs, hs]
    rfl
  rw [hc, hs]
  exact ⟨rfl, rfl⟩

/-- C15, as the code behaves: compiling `1 + 2;` on a fresh compiler gives the
constants Integer 1, Integer 2 and the bytes of `Make(OpConstant, 0)`,
`Make(OpConstant, 1)`, `Make(OpAdd)`, `Make(OpPop)`.  In every compiler with a
current scope `sc`, an IntegerLiteral appends its value to the pool and
appends `OpConstant` with the two low bytes of the index of the new entry to
the instructions, and an ExpressionStatement whose expression compiles
appends exactly the byte of `OpPop` to what the expression emitted.  The
operand is the index of the entry just appended as long as the pool held fewer
than 65536 entries; for the entry with index 65536 the operand is 0.  So in
the program of 65536 statements `1;` followed by `w;` the last statement is
compiled to `OpConstant 0`, `OpPop`, although its constant is entry 65536 of
the pool and entry 0 is Integer 1; and in a session whose pool holds 65536
entries, the input `w;` leaves entry 0 of the pool as last popped value. -/
theorem expression_statement_and_integer_literal (e : ast.Expression) (v : Int)
    (c c2 : Compiler) (sc sc2 : CompilationScope)
    (h0 : 0 ≤ c.scopeIndex) (hsc : c.scopes[c.scopeIndex.toNat]? = some sc)
    (he : CompileExpression e c = (.ok (), c2))
    (h02 : 0 ≤ c2.scopeIndex) (hsc2 : c2.scopes[c2.scopeIndex.toNat]? = some sc2) :
    scenarios.compiled (.Program (scenarios.infixProgram 1 "+" 2)) New =
      (.ok (), .ok ([0, 0, 0] ++ [0, 0, 1] ++ [1] ++ [2]), [.Integer 1, .Integer 2]) ∧
    (code.Make code.OpConstant [0] = .ok [0, 0, 0] ∧ code.Make code.OpConstant [1] = .ok [0, 0, 1]
      ∧ code.Make code.OpAdd [] = .ok [1] ∧ code.Make code.OpPop [] = .ok [2]) ∧
    code.Make code.OpConstant [(c.constants.length : Int)] =
      .ok (0 :: scenarios.operandBytes c.constants.length) ∧
    CompileExpression (.IntegerLiteral v) c =
      (.ok (),
        { c with
          constants := c.constants ++ [.Integer (.constant c.constants.length) v],
          scopes := (c.scopes.set c.scopeIndex.toNat
            { instructions := sc.instructions ++
                0 :: scenarios.operandBytes c.constants.length,
              lastInstruction := { Opcode := code.OpConstant, Position := sc.instructions.length },
              previousInstruction := sc.lastInstruction }) }) ∧
    CompileStatement (.ExpressionStatement e) c =
      (.ok (),
        { c2 with
          scopes := (c2.scopes.set c2.scopeIndex.toNat
            { instructions := sc2.instructions ++ [2],
              lastInstruction := { Opcode := code.OpPop, Position := sc2.instructions.length },
              previousInstruction := sc2.lastInstruction }) }) ∧
    (c.constants.length < 65536 →
      code.ReadUint16 (scenarios.operandBytes c.constants.length) = .ok c.constants.length) ∧
    (c.constants.length = 65536 →
      code.ReadUint16 (scenarios.operandBytes c.constants.length) = .ok 0) ∧
    (∀ (n : Nat) (w : Int), ∃ pre,
      (Compile (.Program (scenarios.manyConstantsProgram n w)) New).1 = .ok () ∧
      (Compile (.Program (scenarios.manyConstantsProgram n w)) New).2.scopes.map
          (fun sc => sc.instructions) =
        [pre ++ 0 :: scenarios.operandBytes n ++ [2]] ∧
      (Compile (.Program (scenarios.manyConstantsProgram n w)) New).2.constants[n]? =
        some (.Integer (.constant n) w) ∧
      (0 < n → (Compile (.Program (scenarios.manyConstantsProgram n w)) New).2.constants[0]? =
        some (.Integer (.constant 0) 1))) ∧
    scenarios.operandBytes 65536 = [0, 0] ∧
    (∀ (session : repl.Session) (w : Int) (first : object.Object) (k : Nat),
      session.constants.length = 65536 → session.constants[0]? = some first →
      (repl.handleNormalCommand (3 + k) (scenarios.integerStatementProgram w) session).1 =
        some (.ok first)) := by
  refine ⟨by decide!, ⟨by decide, by decide, by decide, by decide⟩, ?_,
    compileIntegerLiteral_bytes c sc v h0 hsc,
    compileExpressionStatement_eq e c c2 sc2 he h02 hsc2, ?_, ?_,
    compile_manyConstantsProgram, by decide, ?_⟩
  · have := code.Make_two_bytes 0 "OpConstant" (c.constants.length : Int) (by decide) (by omega)
    simpa only [scenarios.operandBytes, Int.toNat_ofNat, Nat.zero_mod] using this
  · intro hlen
    simp only [scenarios.operandBytes, code.ReadUint16, Except.ok.injEq]
    omega
  · intro hlen
    rw [hlen]
    rfl
  · intro session w first k hlen hfirst
    have hc := compile_integerStatementProgram w session.symbolTable session.constants
    rw [hlen] at hc
    have hob : scenarios.operandBytes 65536 = [0, 0] := by decide
    rw [hob] at hc
    simp only [List.cons_append, List.nil_append] at hc
    have hrun := run_constant_first
      (session.constants ++ [.Integer (.constant 65536) w]) first session.globals
      session.allocs (by rw [List.getElem?_append_left (by omega)]; exact hfirst)
    have hbase := repl.handleNormalCommand_of_run 3 (scenarios.integerStatementProgram w)
      session ⟨[0, 0, 0, 2], session.constants ++ [.Integer (.constant 65536) w]⟩ (.ok first)
      hc.1 hc.2 (by with_reducible exact hrun)
    exact repl.handleNormalCommand_fuel_mono 3 (3 + k) _ _ _ hbase (Nat.le_add_right 3 k)

/-- Witness of C15 on the fresh compiler: the literal `5` and the statement `5;`. -/
theorem expression_statement_and_integer_literal_witness :
    CompileExpression (.IntegerLiteral 5) New =
      (.ok (),
        { New with
          constants := [.Integer (.constant 0) 5],
          scopes := [{ instructions := [0, 0, 0],
                       lastInstruction := { Opcode := code.OpConstant, Position := 0 },
                       previousInstruction := ⟨0, 0⟩ }] }) ∧
    CompileStatement (.ExpressionStatement (.IntegerLiteral 5)) New =
      (.ok (),
        { New with
          constants := [.Integer (.constant 0) 5],
          scopes := [{ instructions := [0, 0, 0, 2],
                       lastInstruction := { Opcode := code.OpPop, Position := 3 },
                       previousInstruction := { Opcode := code.OpConstant, Position := 0 } }] }) :=
  ⟨compileIntegerLiteral_eq New ⟨[], ⟨0, 0⟩, ⟨0, 0⟩⟩ 5 (by decide) rfl (by decide),
    (expression_statement_and_integer_literal (.IntegerLiteral 5) 5 New
      { New with
        constants := [.Integer (.constant 0) 5],
        scopes := [{ instructions := [0, 0, 0],
                     lastInstruction := { Opcode := code.OpConstant, Position := 0 },
                     previousInstruction := ⟨0, 0⟩ }] }
      ⟨[], ⟨0, 0⟩, ⟨0, 0⟩⟩
      { instructions := [0, 0, 0],
        lastInstruction := { Opcode := code.OpConstant, Position := 0 },
        previousInstruction := ⟨0, 0⟩ }
      (by decide) rfl
      (compileIntegerLiteral_eq New ⟨[], ⟨0, 0⟩, ⟨0, 0⟩⟩ 5 (by decide) rfl (by decide))
      (by decide) rfl).2.2.2.2.1⟩

end compiler


theorem run_get_global_bytes (consts : List object.Object) (globals : Slice object.Object)
    (allocs i : Nat) (hi : i % 65536 < globals.len) :
    (vm.Run 3 { vm.NewWithGlobalsStore ⟨16 :: scenarios.operandBytes i ++ [2], consts⟩ globals with
        allocs := allocs }).map (fun r => (r.1, vm.LastPoppedStackElem r.2)) =
      some (.ok (), .ok (globals.get (i % 65536))) := by
  have e : i / 256 % 256 % 256 * 256 + i % 256 % 256 = i % 65536 := by omega
  have e2 : ((i : Int) / 256 % 256 % 256 * 256 + (i : Int) % 256 % 256) = (i : Int) % 65536 := by
    omega
  have h1 : ¬ ((i : Int) % 65536 < 0 ∨ (i : Int) % 65536 ≥ (globals.len : Int)) := by omega
  have h2 : ¬ ((i : Int) % 65536 < 0 ∨ (globals.len : Int) ≤ (i : Int) % 65536) := by omega
  have h3 : ¬ (globals.len ≤ i % 65536) := by omega
  have h4 : ¬ ((i : Int) % 65536 < 0) := by omega
  have e5 : ((i : Int) % 65536).toNat = i % 65536 := by omega
  have e6 : ((i : Int) / 256 % 256 * 256 + (i : Int) % 256) = (i : Int) % 65536 := by omega
  have e7 : i / 256 % 256 * 256 + i % 256 = i % 65536 := by omega
  have h5 : ¬ ((globals.len : Int) ≤ (i : Int) % 65536) := by omega
  simp [scenarios.operandBytes, e, e2, h1, h2, h3, h4, h5, e5, e6, e7]

theorem read_global (session : repl.Session) (name : GoString) (sym : compiler.Symbol)
    (hres : session.symbolTable.Resolve name = (sym, true))
    (hscope : sym.Scope = compiler.GlobalScope)
    (hi0 : 0 ≤ sym.Index) (hi1 : sym.Index.toNat % 65536 < session.globals.len) (k : Nat) :
    (repl.handleNormalCommand (3 + k) (scenarios.readProgram name) session).1 =
      some (.ok (session.globals.get (sym.Index.toNat % 65536))) := by
  have hc := compiler.compile_readProgram_bytes name session.symbolTable session.constants sym
    hres hscope hi0
  have hrun := run_get_global_bytes session.constants session.globals session.allocs
    sym.Index.toNat hi1
  have hbase := repl.handleNormalCommand_of_run 3 (scenarios.readProgram name) session
    ⟨16 :: scenarios.operandBytes sym.Index.toNat ++ [2], session.constants⟩
    (.ok (session.globals.get (sym.Index.toNat % 65536))) hc.1 hc.2
    (by with_reducible exact hrun)
  exact repl.handleNormalCommand_fuel_mono 3 (3 + k) _ _ _ hbase (Nat.le_add_right 3 k)

namespace repl

theorem newSession_table :
    newSession.symbolTable.Outer = none ∧ newSession.symbolTable.numDefinitions = 0 ∧
    newSession.globals.len = 65536 ∧ newSession.globals.get 0 = object.Object.nil := by
  refine ⟨?_, ?_, rfl, rfl⟩
  · rfl
  · rfl

/-- A global defined and set by `let x = b;` is read by a later input `x;`,
whatever the session held before. -/
theorem let_then_read (s : Session) (x : GoString) (b : Bool) (k1 k2 : Nat)
    (hO : s.symbolTable.Outer = none) (hn : 0 ≤ s.symbolTable.numDefinitions)
    (hg : s.globals.len = 65536) :
    (handleNormalCommand (3 + k2) (scenarios.readProgram x)
      (handleNormalCommand (3 + k1) (scenarios.letBooleanProgram x b) s).2).1 =
      some (.ok (.Boolean b)) := by
  obtain ⟨s2, h, htab, hlen, hget⟩ := handleNormalCommand_letBooleans [(x, b)] s k1 hO hn hg
  have hp : scenarios.letBooleanProgram x b = scenarios.letBooleans [(x, b)] := rfl
  have hf : 3 + k1 = 2 * [(x, b)].length + 1 + k1 := by simp
  rw [hp, hf, h]
  simp only [List.map_cons, List.map_nil, scenarios.afterCalls] at htab
  have hres : s2.symbolTable.Resolve x = ((s.symbolTable.Define x).1, true) := by
    rw [htab]; exact compiler.Resolve_Define_self _ _
  have hscope : (s.symbolTable.Define x).1.Scope = compiler.GlobalScope := by
    rw [compiler.Define_fst, hO]; rfl
  have hindex : (s.symbolTable.Define x).1.Index = s.symbolTable.numDefinitions := by
    rw [compiler.Define_fst]
  have hr := read_global s2 x _ hres hscope (by rw [hindex]; exact hn)
    (by rw [hlen]; exact Nat.mod_lt _ (by decide)) k2
  rw [hr, hget, hindex]
  simp [scenarios.storedValue]

/-- The session after `let g = true;` and `n` statements `let x = false;`. -/
theorem after_manyGlobalsProgram (n k : Nat) :
    ∃ s2 : Session,
      handleNormalCommand (2 * (n + 1) + 1 + k) (scenarios.manyGlobalsProgram n) newSession =
        (some (.ok (.Boolean (decide (n = 0)))), s2) ∧
      s2.symbolTable.Resolve "g" = (⟨"g", compiler.GlobalScope, 0⟩, true) ∧
      (0 < n → s2.symbolTable.Resolve "x" = (⟨"x", compiler.GlobalScope, (n : Int)⟩, true)) ∧
      s2.globals.len = 65536 ∧
      (n < 65536 → s2.globals.get 0 = .Boolean true) ∧
      (n = 65536 → s2.globals.get 0 = .Boolean false) := by
  obtain ⟨hO, hnd, hglen, hg0⟩ := newSession_table
  obtain ⟨s2, h, htab, hlen, hget⟩ := handleNormalCommand_letBooleans
    (("g", true) :: List.replicate n ("x", false)) newSession k hO (by rw [hnd]) hglen
  have hf : 2 * (("g", true) :: List.replicate n (("x", false) : GoString × Bool)).length + 1 + k =
      2 * (n + 1) + 1 + k := by simp
  rw [hf] at h
  have hlast : List.foldl (fun _ d => object.Object.Boolean d.2) object.Object.nil
      (("g", true) :: List.replicate n (("x", false) : GoString × Bool)) =
      .Boolean (decide (n = 0)) := by
    cases n with
    | zero => rfl
    | succ m =>
      rw [List.replicate_succ', ← List.cons_append, List.foldl_append]
      simp
  rw [hlast] at h
  simp only [List.map_cons, List.map_replicate, scenarios.afterCalls] at htab
  have hsym : (newSession.symbolTable.Define "g").1 = ⟨"g", compiler.GlobalScope, 0⟩ := by
    rw [compiler.Define_fst, hO, hnd]; rfl
  have hO1 : (newSession.symbolTable.Define "g").2.Outer = none := by
    rw [compiler.Define_Outer, hO]
  have hn1 : (newSession.symbolTable.Define "g").2.numDefinitions = 1 := by
    rw [compiler.Define_numDefinitions, hnd]; rfl
  refine ⟨s2, h, ?_, ?_, hlen, ?_, ?_⟩
  · rw [htab, compiler.Resolve_afterCalls_replicate n _ "g" "x" (by decide),
      compiler.Resolve_Define_self, hsym]
  · intro hn
    obtain ⟨m, rfl⟩ : ∃ m, n = m + 1 := ⟨n - 1, by omega⟩
    have hT : (scenarios.afterCalls (newSession.symbolTable.Define "g").2
        (List.replicate m (.Define "x"))).Define "x" =
        (⟨"x", compiler.GlobalScope, ((m + 1 : Nat) : Int)⟩,
          ((scenarios.afterCalls (newSession.symbolTable.Define "g").2
            (List.replicate m (.Define "x"))).Define "x").2) := by
      apply Prod.ext
      · rw [compiler.Define_fst, compiler.afterCalls_Outer, compiler.afterCalls_numDefinitions,
          hO1, hn1, compiler.countDefine_replicate]
        have e : (1 : Int) + (m : Int) = ((m + 1 : Nat) : Int) := by push_cast; omega
        rw [e]
        simp only [Option.isNone_none, if_true]
      · simp only []
    rw [htab, List.replicate_succ', compiler.afterCalls_snoc, compiler.Resolve_Define_self, hT]
  · intro hn
    rw [hget, hnd, hg0]
    simp only [Int.toNat_zero, List.map_cons, List.map_replicate, scenarios.storedValue,
      Nat.zero_mod, if_true, Nat.zero_add]
    exact compiler.storedValue_keep n false 1 _ 0 (fun m hm => by omega)
  · intro hn
    obtain ⟨m, rfl⟩ : ∃ m, n = m + 1 := ⟨n - 1, by omega⟩
    rw [hget, hnd, hg0]
    simp only [Int.toNat_zero, List.map_cons, List.map_replicate, scenarios.storedValue,
      Nat.zero_mod, if_true, Nat.zero_add]
    exact compiler.storedValue_last m false 1 _ 0 (by omega)

end repl

/-- C3, as the code behaves: `let one = 1; let two = 2; one + two;` yields
Integer 3, also when `one + two;` is a second input after
`let one = 1; let two = 2;`.  In every session whose symbol table resolves
`name` to a Global symbol, the input `name;` compiled with `NewWithState` and
run with `NewWithGlobalsStore` leaves as last popped value what the store
holds in the slot that the two operand bytes of `OpGetGlobal` name, the index
of the symbol modulo 65536 (for every fuel from 3 on); and after an input
`let x = b;` the input `x;` yields `b`.  But `Define` hands out indices
without a limit while `OpSetGlobal` and `OpGetGlobal` carry two bytes: in the
program P1 of `let g = true;` followed by `n` statements `let x = false;`, a
later input `g;` yields TRUE as long as `n < 65536`; for `n = 65536` the last
`x` gets the index 65536, its value is stored into slot 0, the slot of `g`,
and the later input `g;` yields FALSE although P1 stored TRUE for `g`. -/
theorem global_readable_in_later_input (session : repl.Session) (name : GoString)
    (sym : compiler.Symbol)
    (hres : session.symbolTable.Resolve name = (sym, true))
    (hscope : sym.Scope = compiler.GlobalScope)
    (hi0 : 0 ≤ sym.Index) (hi1 : sym.Index.toNat % 65536 < session.globals.len) (k : Nat) :
    (repl.handleNormalCommand (3 + k) (scenarios.readProgram name) session).1 =
      some (.ok (session.globals.get (sym.Index.toNat % 65536))) ∧
    outcome (compileAndRun 16 scenarios.oneTwoProgram) = some (.ok (.Integer 3)) ∧
    outcome (repl.handleNormalCommand 16 scenarios.oneTwoSum
      (repl.handleNormalCommand 16 scenarios.oneTwoDefinitions repl.newSession).2).1 =
      some (.ok (.Integer 3)) ∧
    (repl.handleNormalCommand 16 scenarios.oneTwoDefinitions
      repl.newSession).2.symbolTable.Resolve "two" = (⟨"two", compiler.GlobalScope, 1⟩, true) ∧
    ((repl.handleNormalCommand 16 scenarios.oneTwoDefinitions
      repl.newSession).2.globals.get 1).value = .Integer 2 ∧
    (∀ (s : repl.Session) (x : GoString) (b : Bool) (k1 k2 : Nat),
      s.symbolTable.Outer = none → 0 ≤ s.symbolTable.numDefinitions → s.globals.len = 65536 →
      (repl.handleNormalCommand (3 + k2) (scenarios.readProgram x)
        (repl.handleNormalCommand (3 + k1) (scenarios.letBooleanProgram x b) s).2).1 =
        some (.ok (.Boolean b))) ∧
    (∀ (n k1 k2 : Nat), n < 65536 →
      (repl.handleNormalCommand (3 + k2) (scenarios.readProgram "g")
        (repl.handleNormalCommand (2 * (n + 1) + 1 + k1) (scenarios.manyGlobalsProgram n)
          repl.newSession).2).1 = some (.ok (.Boolean true))) ∧
    (∀ (k1 k2 : Nat),
      (repl.handleNormalCommand (2 * (65536 + 1) + 1 + k1) (scenarios.manyGlobalsProgram 65536)
        repl.newSession).1 = some (.ok (.Boolean false)) ∧
      (repl.handleNormalCommand (2 * (65536 + 1) + 1 + k1) (scenarios.manyGlobalsProgram 65536)
        repl.newSession).2.symbolTable.Resolve "g" = (⟨"g", compiler.GlobalScope, 0⟩, true) ∧
      (repl.handleNormalCommand (2 * (65536 + 1) + 1 + k1) (scenarios.manyGlobalsProgram 65536)
        repl.newSession).2.symbolTable.Resolve "x" =
        (⟨"x", compiler.GlobalScope, 65536⟩, true) ∧
      (repl.handleNormalCommand (3 + k2) (scenarios.readProgram "g")
        (repl.handleNormalCommand (2 * (65536 + 1) + 1 + k1) (scenarios.manyGlobalsProgram 65536)
          repl.newSession).2).1 = some (.ok (.Boolean false))) := by
  refine ⟨read_global session name sym hres hscope hi0 hi1 k, by decide!, by decide!,
    by decide!, by decide!, ?_, ?_, ?_⟩
  · intro s x b k1 k2 hO hn hg
    exact repl.let_then_read s x b k1 k2 hO hn hg
  · intro n k1 k2 hn
    obtain ⟨s2, h, hg, _, hlen, hkeep, _⟩ := repl.after_manyGlobalsProgram n k1
    rw [h]
    have hr := read_global s2 "g" _ hg rfl (le_refl _) (by rw [hlen]; decide) k2
    rw [hr]
    simp only [Int.toNat_zero, Nat.zero_mod, hkeep hn]
  · intro k1 k2
    obtain ⟨s2, h, hg, hx, hlen, _, hlast⟩ := repl.after_manyGlobalsProgram 65536 k1
    rw [h]
    have hr := read_global s2 "g" _ hg rfl (le_refl _) (by rw [hlen]; decide) k2
    refine ⟨?_, hg, ?_, ?_⟩
    · simp only [Option.some.injEq, Except.ok.injEq, object.Object.Boolean.injEq]
      decide
    · have := hx (by decide)
      simpa only [Nat.cast_ofNat] using this
    · rw [hr]
      simp only [Int.toNat_zero, Nat.zero_mod, hlast rfl]

/-- Witness of C3: the global `x` (index 1) of a session with three globals. -/
theorem global_readable_in_later_input_witness :
    (scenarios.cxySession (.Integer (.constant 0) 5) vm.True vm.Null).symbolTable.Resolve "x" =
      (⟨"x", compiler.GlobalScope, 1⟩, true) ∧
    (repl.handleNormalCommand (3 + 0) (scenarios.readProgram "x")
      (scenarios.cxySession (.Integer (.constant 0) 5) vm.True vm.Null)).1 =
      some (.ok ((scenarios.cxySession (.Integer (.constant 0) 5) vm.True vm.Null).globals.get
        ((1 : Int).toNat % 65536))) :=
  ⟨by decide!,
    (global_readable_in_later_input
      (scenarios.cxySession (.Integer (.constant 0) 5) vm.True vm.Null) "x"
      ⟨"x", compiler.GlobalScope, 1⟩ (by decide!) rfl (by decide) (by decide!)
      0).1⟩

end
